import Mathlib

/-!
Verification development for the cbb-tracker rating and ingestion core.

Shallow embedding of src/app/ingest.py, src/app/elo.py and the predict endpoint of
src/app/main.py, with the row types of src/app/models.py. Python floats are modeled
as real numbers (the K factors, which are exact in binary floating point, as
rationals), Python ints as Int/Nat, the SQLAlchemy session plus SQLite tables as
explicit lists of rows threaded through each operation, and Python exceptions as
Except Unit (an uncaught exception aborts the call before its commit, so the callers
observe the unchanged pre-call store). Wall-clock timestamp columns
(last_updated_utc, ingested_at_utc), which no claim mentions, are omitted from the
row models. The process-local timezone assumed by datetime.astimezone on naive
datetimes is modeled as UTC.
-/

namespace CbbTracker

/-! ### Model of the Python datetime library, at the level ingest.py uses it -/

/-- True when year y is a leap year (proleptic Gregorian, as Python datetime). -/
def isLeap (y : Int) : Bool := (y % 4 == 0 && y % 100 != 0) || y % 400 == 0

/-- Number of days in month m of year y. -/
def daysInMonth (y : Int) (m : Nat) : Nat :=
  if m = 2 then (if isLeap y then 29 else 28)
  else if m = 4 ∨ m = 6 ∨ m = 9 ∨ m = 11 then 30 else 31

/-- Days since 1970-01-01 of the civil date y-m-d (days-from-civil algorithm). -/
def daysFromCivil (y : Int) (m d : Nat) : Int :=
  let yy : Int := if m ≤ 2 then y - 1 else y
  let era : Int := yy.fdiv 400
  let yoe : Int := yy - era * 400
  let mp : Int := (m : Int) + (if 2 < m then -3 else 9)
  let doy : Int := (153 * mp + 2).fdiv 5 + (d : Int) - 1
  let doe : Int := yoe * 365 + yoe.fdiv 4 - yoe.fdiv 100 + doy
  era * 146097 + doe - 719468

/-- Civil date (year, month, day) of a count of days since 1970-01-01. -/
def civilFromDays (z0 : Int) : Int × Int × Int :=
  let z := z0 + 719468
  let era := z.fdiv 146097
  let doe := z - era * 146097
  let yoe := (doe - doe.fdiv 1460 + doe.fdiv 36524 - doe.fdiv 146096).fdiv 365
  let y := yoe + era * 400
  let doy := doe - (365 * yoe + yoe.fdiv 4 - yoe.fdiv 100)
  let mp := (5 * doy + 2).fdiv 153
  let d := doy - (153 * mp + 2).fdiv 5 + 1
  let m := mp + (if mp < 10 then 3 else -9)
  (if m ≤ 2 then y + 1 else y, m, d)

/-- Left-pad a decimal string with zeros, as the %02d and %04d of date.isoformat. -/
def padZeros (s : String) (n : Nat) : String :=
  if n ≤ s.length then s else String.mk (List.replicate (n - s.length) '0') ++ s

/-- date.isoformat() of a day count since the epoch: the YYYY-MM-DD string. -/
def isoDateOfDays (z : Int) : String :=
  let c := civilFromDays z
  padZeros (toString c.1) 4 ++ "-" ++ padZeros (toString c.2.1) 2 ++ "-" ++
    padZeros (toString c.2.2) 2

/-- A Python datetime: seconds since the epoch of its wall-clock fields read as if
they were UTC, plus the tzinfo utcoffset in seconds (none for a naive datetime). -/
structure PyDateTime where
  sec : Int
  offsetSec : Option Int
deriving DecidableEq, Repr

/-- Parse exactly two decimal digits. -/
def parse2 : List Char → Option (Nat × List Char)
  | a :: b :: rest =>
    if a.isDigit && b.isDigit then some ((a.toNat - 48) * 10 + (b.toNat - 48), rest)
    else none
  | _ => none

/-- Parse exactly four decimal digits. -/
def parse4 : List Char → Option (Nat × List Char)
  | a :: b :: c :: d :: rest =>
    if a.isDigit && b.isDigit && c.isDigit && d.isDigit then
      some (((a.toNat - 48) * 1000 + (b.toNat - 48) * 100 + (c.toNat - 48) * 10
        + (d.toNat - 48)), rest)
    else none
  | _ => none

/-- Consume one expected character. -/
def expectChar (c : Char) : List Char → Option (List Char)
  | d :: rest => if d = c then some rest else none
  | [] => none

/-- Consume an optional fractional-seconds suffix (a dot and 1 to 6 digits); the
fraction value itself never affects the UTC calendar date and is dropped. -/
def dropFraction : List Char → Option (List Char)
  | '.' :: rest =>
    let ds := rest.takeWhile (fun c => c.isDigit)
    if ds.length < 1 || 6 < ds.length then none
    else some (rest.dropWhile (fun c => c.isDigit))
  | cs => some cs

/-- Parse HH:MM with optional :SS and optional fractional seconds. -/
def parseTimePart (cs : List Char) : Option (Nat × Nat × Nat × List Char) := do
  let (h, cs) ← parse2 cs
  let cs ← expectChar ':' cs
  let (mi, cs) ← parse2 cs
  match cs with
  | ':' :: cs2 => do
    let (s, cs3) ← parse2 cs2
    let cs4 ← dropFraction cs3
    pure (h, mi, s, cs4)
  | _ => pure (h, mi, 0, cs)

/-- Parse an optional UTC offset suffix, sign then HH:MM with optional :SS,
returning the offset in seconds. -/
def parseOffset (cs : List Char) : Option (Option Int × List Char) :=
  match cs with
  | [] => some (none, [])
  | sign :: rest =>
    if sign = '+' || sign = '-' then do
      let (oh, cs) ← parse2 rest
      let cs ← expectChar ':' cs
      let (om, cs) ← parse2 cs
      let (osec, cs) ← (match cs with
        | ':' :: cs2 => (parse2 cs2).map (fun p => (p.1, p.2))
        | other => some (0, other))
      if 23 < oh || 59 < om || 59 < osec then none
      else
        let total : Int := (oh : Int) * 3600 + (om : Int) * 60 + (osec : Int)
        pure (some (if sign = '-' then -total else total), cs)
    else none

/-- datetime.fromisoformat, for the dashed date with optional time and offset forms
that reach this code (the ingest code has already replaced a trailing Z by +00:00).
None models the ValueError raised on any other string. -/
def fromisoformat (s : String) : Option PyDateTime := do
  let cs := s.toList
  let (y, cs) ← parse4 cs
  let cs ← expectChar '-' cs
  let (mo, cs) ← parse2 cs
  let cs ← expectChar '-' cs
  let (d, cs) ← parse2 cs
  if mo < 1 || 12 < mo then none
  else if d < 1 || daysInMonth (y : Int) mo < d then none
  else do
    let (h, mi, sec, off, cs) ← (match cs with
      | [] => some (0, 0, 0, (none : Option Int), ([] : List Char))
      | sep :: rest =>
        if sep = 'T' || sep = ' ' then do
          let (h, mi, sec, cs2) ← parseTimePart rest
          let (off, cs3) ← parseOffset cs2
          pure (h, mi, sec, off, cs3)
        else none)
    if cs ≠ [] then none
    else if 23 < h || 59 < mi || 59 < sec then none
    else pure ⟨86400 * daysFromCivil (y : Int) mo d + 3600 * (h : Int) + 60 * (mi : Int)
      + (sec : Int), off⟩

/-- datetime.astimezone(timezone.utc): aware datetimes shift by their offset; naive
datetimes are interpreted in the process-local timezone, modeled here as UTC. -/
def astimezoneUtc (d : PyDateTime) : PyDateTime :=
  match d.offsetSec with
  | some off => ⟨d.sec - off, some 0⟩
  | none => ⟨d.sec, some 0⟩

/-! ### Row models (src/app/models.py) -/

/-- A row of the teams table. -/
structure Team where
  id : Nat
  name : String
  provider : String
  provider_team_id : String
deriving DecidableEq, Repr

/-- A row of the team_ratings table (identity (team_id, season)); the
last_updated_utc wall-clock column is omitted. -/
structure TeamRating where
  team_id : Nat
  season : String
  elo : ℝ
  games_played : Nat

/-- A row of the games table; start_time_utc is stored as UTC epoch seconds, the
ingested_at_utc wall-clock column is omitted. -/
structure Game where
  id : Nat
  provider : String
  provider_game_id : String
  start_time_utc : Option Int
  date_key : String
  home_team_id : Nat
  away_team_id : Nat
  home_score : Option Int
  away_score : Option Int
  status : String
  neutral_site : Bool
  elo_applied : Bool
deriving DecidableEq, Repr

/-- The persistent store reached through one SQLAlchemy session: the three tables
plus the autoincrement counters that assign surrogate primary keys on flush. -/
structure DB where
  teams : List Team
  games : List Game
  ratings : List TeamRating
  nextTeamId : Nat
  nextGameId : Nat

/-- The (provider, provider_team_id) identity of a team row. -/
def teamKey (t : Team) : String × String := (t.provider, t.provider_team_id)

/-- The (provider, provider_game_id) identity of a game row. -/
def gameKey (g : Game) : String × String := (g.provider, g.provider_game_id)

/-- SQLAlchemy Result.scalar_one_or_none on the rows matched by a select: none for
no row, the row when unique, and the MultipleResultsFound error on several rows. -/
def scalarOneOrNone (l : List α) : Except Unit (Option α) :=
  match l with
  | [] => .ok none
  | [x] => .ok (some x)
  | _ => .error ()

/-! ### Model of the payload (the nested event maps of the provider feed) -/

/-- The nested team sub-record of a competitor. -/
structure TeamObj where
  id : Option String
  displayName : Option String
  name : Option String
deriving DecidableEq, Repr

/-- A competitor record inside a competition. -/
structure Competitor where
  homeAway : Option String
  team : Option TeamObj
  score : Option String
deriving DecidableEq, Repr

/-- A competition record inside an event. -/
structure Competition where
  neutralSite : Option Bool
  competitors : Option (List Competitor)
deriving DecidableEq, Repr

/-- An event record; statusTypeName is the nested status.type.name lookup result,
none when any level of the nesting is missing. -/
structure Event where
  id : Option String
  date : Option String
  statusTypeName : Option String
  competitions : Option (List Competition)
deriving DecidableEq, Repr

/-- The scoreboard payload: its top-level events collection. -/
structure Payload where
  events : Option (List Event)
deriving DecidableEq, Repr

/-! ### src/app/ingest.py -/

/-- Python str.strip() with no argument: remove leading and trailing whitespace. -/
def pyStrip (s : String) : String :=
  String.mk (((s.toList.dropWhile Char.isWhitespace).reverse.dropWhile
    Char.isWhitespace).reverse)

/-- Python str.replace for the single-character patterns this code uses (the
ingest code only ever replaces Z): every occurrence of that character is replaced
by the given string; for other patterns the model is not needed. -/
def pyReplace (s pat rep : String) : String :=
  match pat.toList with
  | [p] => String.mk (s.toList.flatMap fun c => if c = p then rep.toList else [c])
  | _ => s

/-- ingest.py _to_utc_dt: falsy input gives None; otherwise a trailing Z is
rewritten to +00:00, the string is parsed (an unparseable string raises, which the
error branch models) and converted to UTC. -/
def to_utc_dt (iso_str : Option String) : Except Unit (Option PyDateTime) :=
  match iso_str with
  | none => .ok none
  | some s =>
    if s = "" then .ok none
    else
      match fromisoformat (pyReplace s "Z" "+00:00") with
      | none => .error ()
      | some dt => .ok (some (astimezoneUtc dt))

/-- Python substring containment (the in operator on str). -/
def pyContains (hay needle : String) : Bool := decide (needle.toList <:+: hay.toList)

/-- ingest.py _status_from_event: a failed nested lookup gives scheduled, FINAL as
substring gives final, then IN_PROGRESS as substring gives in_progress, anything
else scheduled. -/
def status_from_event (event : Event) : String :=
  match event.statusTypeName with
  | none => "scheduled"
  | some nm =>
    if pyContains nm "FINAL" then "final"
    else if pyContains nm "IN_PROGRESS" then "in_progress"
    else "scheduled"

/-- Python int(x) on an optional string: None or an unconvertible string gives
None (the swallowed exception of _safe_int). -/
def safe_int (x : Option String) : Option Int :=
  x.bind fun s =>
    match (pyStrip s).toList with
    | [] => none
    | '+' :: cs => if cs = [] then none else (digitsToNat 0 cs).map (fun n => (n : Int))
    | '-' :: cs => if cs = [] then none else (digitsToNat 0 cs).map (fun n => -(n : Int))
    | cs => (digitsToNat 0 cs).map (fun n => (n : Int))
where
  digitsToNat (acc : Nat) : List Char → Option Nat
    | [] => some acc
    | c :: cs => if c.isDigit then digitsToNat (acc * 10 + (c.toNat - 48)) cs else none

/-- ingest.py upsert_team: look the team up by (provider, provider_team_id); update
the display name if changed, else create the row (flush assigns the next id). -/
def upsert_team (db : DB) (provider provider_team_id nm : String) :
    Except Unit (Team × DB) :=
  match scalarOneOrNone (db.teams.filter fun t =>
      t.provider == provider && t.provider_team_id == provider_team_id) with
  | .error e => .error e
  | .ok (some t) =>
    if t.name ≠ nm then
      let t2 : Team := { t with name := nm }
      .ok (t2, { db with teams := db.teams.map fun x =>
        (if x.provider == provider && x.provider_team_id == provider_team_id
          then { x with name := nm } else x) })
    else .ok (t, db)
  | .ok none =>
    let t : Team := ⟨db.nextTeamId, nm, provider, provider_team_id⟩
    .ok (t, { db with teams := db.teams ++ [t], nextTeamId := db.nextTeamId + 1 })

/-- ingest.py upsert_game: look the game up by (provider, provider_game_id); create
it with elo_applied false, or update every mutable field while leaving elo_applied
untouched (the DO NOT reset elo_applied branch). -/
def upsert_game (db : DB) (provider provider_game_id : String)
    (start_time_utc : Option Int) (date_key : String) (home_team away_team : Team)
    (home_score away_score : Option Int) (status : String) (neutral_site : Bool) :
    Except Unit (Game × DB) :=
  match scalarOneOrNone (db.games.filter fun g =>
      g.provider == provider && g.provider_game_id == provider_game_id) with
  | .error e => .error e
  | .ok none =>
    let g : Game := ⟨db.nextGameId, provider, provider_game_id, start_time_utc,
      date_key, home_team.id, away_team.id, home_score, away_score, status,
      neutral_site, false⟩
    .ok (g, { db with games := db.games ++ [g], nextGameId := db.nextGameId + 1 })
  | .ok (some g) =>
    let upd : Game → Game := fun x =>
      { x with
        start_time_utc := start_time_utc,
        date_key := date_key,
        home_team_id := home_team.id,
        away_team_id := away_team.id,
        home_score := home_score,
        away_score := away_score,
        status := status,
        neutral_site := neutral_site }
    .ok (upd g, { db with games := db.games.map fun x =>
      (if x.provider == provider && x.provider_game_id == provider_game_id
        then upd x else x) })

/-- One normalized event: the per-event values ingest_scoreboard_json computes
before touching the store (they do not depend on the store). -/
structure Fact where
  gid : String
  start_time : Option Int
  date_key : String
  neutral : Bool
  htid : String
  hname : String
  atid : String
  aname : String
  hscore : Option Int
  ascore : Option Int
  status : String
deriving DecidableEq, Repr

/-- Python or on optional strings, where None and the empty string are falsy. -/
def truthyOr (a b : Option String) : Option String :=
  match a with
  | some s => if s = "" then b else some s
  | none => b

/-- The store-independent first half of one iteration of the event loop of
ingest_scoreboard_json: every continue-check and every computed value, in source
order. ok none models continue, error models the uncaught ValueError of
_to_utc_dt on an unparseable date. -/
def normalizeEvent (ev : Event) : Except Unit (Option Fact) := do
  let provider_game_id := pyStrip (ev.id.getD "")
  if provider_game_id = "" then pure none
  else do
    let start_time_utc ← to_utc_dt ev.date
    let stu := start_time_utc.map fun dt => dt.sec
    let date_key := match stu with
      | some s => isoDateOfDays (s.fdiv 86400)
      | none => "unknown"
    let status := status_from_event ev
    let competitions := ev.competitions.getD []
    match competitions with
    | [] => pure none
    | comp :: _ =>
      let neutral_site := comp.neutralSite.getD false
      let competitors := comp.competitors.getD []
      match competitors.find? (fun c => c.homeAway == some "home"),
            competitors.find? (fun c => c.homeAway == some "away") with
      | some home, some away =>
        let home_team_id := pyStrip ((home.team.bind fun t => t.id).getD "")
        let away_team_id := pyStrip ((away.team.bind fun t => t.id).getD "")
        let home_name := pyStrip ((truthyOr (home.team.bind fun t => t.displayName)
          (home.team.bind fun t => t.name)).getD "")
        let away_name := pyStrip ((truthyOr (away.team.bind fun t => t.displayName)
          (away.team.bind fun t => t.name)).getD "")
        if home_team_id = "" || away_team_id = "" || home_name = "" || away_name = ""
        then pure none
        else
          pure (some ⟨provider_game_id, stu, date_key, neutral_site, home_team_id,
            home_name, away_team_id, away_name, safe_int home.score,
            safe_int away.score, status⟩)
      | _, _ => pure none

/-- The store-touching second half of one iteration of the event loop: upsert both
teams, then upsert the game from the normalized values. -/
def applyFact (db : DB) (f : Fact) : Except Unit DB := do
  let (ht, db) ← upsert_team db "espn" f.htid f.hname
  let (aTeam, db) ← upsert_team db "espn" f.atid f.aname
  let (_, db) ← upsert_game db "espn" f.gid f.start_time f.date_key ht aTeam
    f.hscore f.ascore f.status f.neutral
  pure db

/-- One full iteration of the event loop: the Bool reports whether the event was
processed (and so contributed 2 to teams_touched and 1 to games_upserted). -/
def ingestEvent (db : DB) (ev : Event) : Except Unit (DB × Bool) := do
  match ← normalizeEvent ev with
  | none => pure (db, false)
  | some f => do
    let db ← applyFact db f
    pure (db, true)

/-- The event loop of ingest_scoreboard_json, accumulating the two counters. -/
def ingestEvents (db : DB) (tt gu : Nat) : List Event → Except Unit (DB × Nat × Nat)
  | [] => .ok (db, tt, gu)
  | ev :: rest =>
    match ingestEvent db ev with
    | .error e => .error e
    | .ok (db2, processed) =>
      ingestEvents db2 (tt + if processed then 2 else 0)
        (gu + if processed then 1 else 0) rest

/-- The returned counters of one ingestion call. -/
structure IngestStats where
  events_seen : Nat
  teams_touched : Nat
  games_upserted : Nat
deriving DecidableEq, Repr

/-- ingest.py ingest_scoreboard_json: iterate the events, then commit. An error
escapes before the commit, so the caller observes the unchanged store. -/
def ingest_scoreboard_json (db : DB) (payload : Payload) :
    Except Unit (DB × IngestStats) :=
  let events := payload.events.getD []
  match ingestEvents db 0 0 events with
  | .error e => .error e
  | .ok (db2, tt, gu) => .ok (db2, ⟨events.length, tt, gu⟩)

/-! ### src/app/elo.py -/

/-- elo.py DEFAULT_ELO. -/
noncomputable def DEFAULT_ELO : ℝ := 1500.0

/-- elo.py K_BASE, as an exact rational (20.0, 25.0 and 17.0 are exact in binary
floating point, so the K computations lose nothing in this model). -/
def K_BASE : ℚ := 20.0

/-- elo.py HOME_ADVANTAGE_ELO. -/
noncomputable def HOME_ADVANTAGE_ELO : ℝ := 65.0

/-- elo.py expected_score, the logistic curve. -/
noncomputable def expected_score (r_a r_b : ℝ) : ℝ :=
  1.0 / (1.0 + (10.0 : ℝ) ^ ((r_b - r_a) / 400.0))

/-- elo.py k_factor: higher K early season, lower later. -/
def k_factor (games_played : Nat) : ℚ :=
  if games_played < 10 then K_BASE * 1.25
  else if games_played < 25 then K_BASE
  else K_BASE * 0.85

/-- elo.py get_or_create_rating: fetch the (team_id, season) rating row or create
it seeded at the baseline; flush makes it immediately visible in the session. -/
noncomputable def get_or_create_rating (db : DB) (team_id : Nat) (season : String) :
    Except Unit (TeamRating × DB) :=
  match scalarOneOrNone (db.ratings.filter fun r =>
      r.team_id == team_id && r.season == season) with
  | .error e => .error e
  | .ok (some r) => .ok (r, db)
  | .ok none =>
    let r : TeamRating := ⟨team_id, season, DEFAULT_ELO, 0⟩
    .ok (r, { db with ratings := db.ratings ++ [r] })

/-- An in-place ORM attribute write on the unique (team_id, season) rating row,
reading the current row state as Python attribute assignment does. -/
def updateRating (db : DB) (tid : Nat) (season : String) (f : TeamRating → TeamRating) :
    DB :=
  { db with ratings := db.ratings.map fun r =>
    (if r.team_id == tid && r.season == season then f r else r) }

/-- The home_adj line of the elo.py loop: skip the home advantage on neutral site. -/
noncomputable def game_home_adj (g : Game) : ℝ :=
  if g.neutral_site then 0.0 else HOME_ADVANTAGE_ELO

/-- The body of the loop of apply_elo_to_final_games for one game g, in source
order: skip when a score is missing, else look up or create both ratings, compute
the result and expectancies, each K from its own games_played before the update,
write both new ratings, increment both games_played, and mark the game applied.
The Bool reports whether the update was applied. -/
noncomputable def applyGameStep (db : DB) (season : String) (g : Game) :
    Except Unit (DB × Bool) :=
  match g.home_score, g.away_score with
  | some hs, some ascore => do
    let (home, db) ← get_or_create_rating db g.home_team_id season
    let (away, db) ← get_or_create_rating db g.away_team_id season
    let s_home : ℝ := if ascore < hs then 1.0 else if hs < ascore then 0.0 else 0.5
    let home_adj := game_home_adj g
    let e_home := expected_score (home.elo + home_adj) away.elo
    let e_away := 1.0 - e_home
    let k_h : ℝ := (k_factor home.games_played : ℝ)
    let k_a : ℝ := (k_factor away.games_played : ℝ)
    let db := updateRating db g.home_team_id season fun r =>
      { r with elo := r.elo + k_h * (s_home - e_home) }
    let db := updateRating db g.away_team_id season fun r =>
      { r with elo := r.elo + k_a * ((1.0 - s_home) - e_away) }
    let db := updateRating db g.home_team_id season fun r =>
      { r with games_played := r.games_played + 1 }
    let db := updateRating db g.away_team_id season fun r =>
      { r with games_played := r.games_played + 1 }
    let db := { db with games := db.games.map fun x =>
      (if x.id == g.id then { x with elo_applied := true } else x) }
    pure (db, true)
  | _, _ => .ok (db, false)

/-- The select of apply_elo_to_final_games: all games final and not yet applied. -/
def finalUnratedGames (db : DB) : List Game :=
  db.games.filter fun g => g.status == "final" && !g.elo_applied

/-- The loop of apply_elo_to_final_games over the selected snapshot. -/
noncomputable def applyGames (db : DB) (season : String) (applied : Nat) :
    List Game → Except Unit (DB × Nat)
  | [] => .ok (db, applied)
  | g :: rest =>
    match applyGameStep db season g with
    | .error e => .error e
    | .ok (db2, did) =>
      applyGames db2 season (applied + if did then 1 else 0) rest

/-- The returned counters of apply_elo_to_final_games. -/
structure EloStats where
  final_games_found : Nat
  elo_games_applied : Nat
deriving DecidableEq, Repr

/-- elo.py apply_elo_to_final_games: select the final unapplied games, run the
update loop, commit, and report the counts. An error escapes before the commit. -/
noncomputable def apply_elo_to_final_games (db : DB) (season : String) :
    Except Unit (DB × EloStats) :=
  let games := finalUnratedGames db
  match applyGames db season 0 games with
  | .error e => .error e
  | .ok (db2, applied) => .ok (db2, ⟨games.length, applied⟩)

/-! ### The predict endpoint of src/app/main.py -/

/-- The home_adj line of the predict endpoint: neutral is an int query parameter,
falsy (zero) means the bonus applies. -/
noncomputable def predict_home_adj (neutral : Int) : ℝ :=
  if neutral ≠ 0 then 0.0 else HOME_ADVANTAGE_ELO

/-- The probability fields returned by the predict endpoint. -/
structure PredictOut where
  home_win_prob : ℝ
  away_win_prob : ℝ
  elo_gap : ℝ
  home_advantage_elo : ℝ

/-- main.py predict: fetch or lazily create both ratings for the season, apply the
same home-advantage constant and expectancy function as the rating engine, and
return the probabilities with the rating gap used. -/
noncomputable def predict (db : DB) (home_team_id away_team_id : Nat) (neutral : Int)
    (season : String) : Except Unit (DB × PredictOut) := do
  let (home, db) ← get_or_create_rating db home_team_id season
  let (away, db) ← get_or_create_rating db away_team_id season
  let home_adj := predict_home_adj neutral
  let p_home := expected_score (home.elo + home_adj) away.elo
  pure (db, ⟨p_home, 1.0 - p_home, (home.elo + home_adj) - away.elo,
    predict_home_adj neutral⟩)

/-! ### Basic lemmas about the embedded operations -/

lemma scalarOneOrNone_ok_none {α : Type _} {l : List α}
    (h : scalarOneOrNone l = .ok none) : l = [] := by
  cases l with
  | nil => rfl
  | cons a t => cases t <;> simp [scalarOneOrNone] at h

lemma scalarOneOrNone_ok_some {α : Type _} {l : List α} {x : α}
    (h : scalarOneOrNone l = .ok (some x)) : l = [x] := by
  cases l with
  | nil => simp [scalarOneOrNone] at h
  | cons a t =>
    cases t with
    | nil => simp [scalarOneOrNone] at h; simp [h]
    | cons b t2 => simp [scalarOneOrNone] at h

/-- What get_or_create_rating guarantees about its result: the returned row carries
the requested key, only the ratings table can change, and it changes at most by
appending the freshly created baseline row. -/
lemma get_or_create_rating_spec {db db1 : DB} {tid : Nat} {season : String}
    {r : TeamRating} (h : get_or_create_rating db tid season = .ok (r, db1)) :
    r.team_id = tid ∧ r.season = season ∧ db1.teams = db.teams ∧
    db1.games = db.games ∧ db1.nextTeamId = db.nextTeamId ∧
    db1.nextGameId = db.nextGameId ∧
    (db1.ratings = db.ratings ∨
      (db1.ratings = db.ratings ++ [r] ∧ r = ⟨tid, season, DEFAULT_ELO, 0⟩)) := by
  unfold get_or_create_rating at h
  cases hs : scalarOneOrNone (db.ratings.filter fun q =>
      q.team_id == tid && q.season == season) with
  | error e => rw [hs] at h; cases h
  | ok o =>
    rw [hs] at h
    cases o with
    | none =>
      cases h
      exact ⟨rfl, rfl, rfl, rfl, rfl, rfl, Or.inr ⟨rfl, rfl⟩⟩
    | some x =>
      simp only [Except.ok.injEq, Prod.mk.injEq] at h
      obtain ⟨hr, hdb⟩ := h
      subst hr; subst hdb
      have hx : x ∈ db.ratings.filter fun q => q.team_id == tid && q.season == season := by
        rw [scalarOneOrNone_ok_some hs]; exact List.mem_singleton_self x
      have hp := List.of_mem_filter hx
      simp only [Bool.and_eq_true, beq_iff_eq] at hp
      exact ⟨hp.1, hp.2, rfl, rfl, rfl, rfl, Or.inl rfl⟩

/-- A game with a missing score is skipped: the loop body leaves the entire store
untouched and reports no update. -/
lemma applyGameStep_skip {db : DB} {season : String} {g : Game}
    (h : g.home_score = none ∨ g.away_score = none) :
    applyGameStep db season g = .ok (db, false) := by
  unfold applyGameStep
  rcases h with h | h
  · rw [h]
  · rw [h]; cases g.home_score <;> rfl

/-- The s_home outcome value of the loop body as a function of the two scores:
1 for a home win, 0 for a home loss, one half on a tie. -/
noncomputable def sHome (hs ascore : Int) : ℝ :=
  if ascore < hs then 1.0 else if hs < ascore then 0.0 else 0.5

/-- How the loop body rewrites one rating row, as a function of the home and away
snapshots fetched for the game: the home side moves by its own K, taken at its
games-played count before this update, times actual minus expected, where the
expectancy comes from the home rating plus the home adjustment against the raw
away rating; the away side does the same with its own K and the complementary
actual and expected values; both games-played counters grow by one. -/
noncomputable def eloStepRow (g : Game) (season : String) (home away : TeamRating)
    (hs ascore : Int) (r : TeamRating) : TeamRating :=
  if r.team_id == g.home_team_id && r.season == season then
    { r with
      elo := r.elo + (k_factor home.games_played : ℝ) *
        (sHome hs ascore - expected_score (home.elo + game_home_adj g) away.elo),
      games_played := r.games_played + 1 }
  else if r.team_id == g.away_team_id && r.season == season then
    { r with
      elo := r.elo + (k_factor away.games_played : ℝ) *
        ((1.0 - sHome hs ascore) -
          (1.0 - expected_score (home.elo + game_home_adj g) away.elo)),
      games_played := r.games_played + 1 }
  else r

/-- Full characterization of the loop body on a game with both scores present and
distinct home and away teams: both lookups happen, then every rating row is
rewritten by eloStepRow and the game row is marked applied. -/
lemma applyGameStep_spec {db db1 db2 : DB} {season : String} {g : Game}
    {hs ascore : Int} {home away : TeamRating}
    (hh : g.home_score = some hs) (ha : g.away_score = some ascore)
    (h1 : get_or_create_rating db g.home_team_id season = .ok (home, db1))
    (h2 : get_or_create_rating db1 g.away_team_id season = .ok (away, db2))
    (hne : g.home_team_id ≠ g.away_team_id) :
    applyGameStep db season g = .ok
      ({ db2 with
         ratings := db2.ratings.map (eloStepRow g season home away hs ascore),
         games := db2.games.map fun x =>
           (if x.id == g.id then { x with elo_applied := true } else x) }, true) := by
  unfold applyGameStep eloStepRow
  rw [hh, ha]
  simp only [bind, Except.bind]
  rw [h1]
  simp only []
  rw [h2]
  simp only [updateRating, pure, Except.pure, List.map_map, Except.ok.injEq,
    Prod.mk.injEq, and_true]
  cases db2 with
  | mk teams games ratings nextTeamId nextGameId =>
    simp only [DB.mk.injEq, and_true, true_and]
    apply List.map_congr_left
    intro r _
    simp only [Function.comp]
    by_cases hch : r.team_id = g.home_team_id ∧ r.season = season
    · have hb : (r.team_id == g.home_team_id && r.season == season) = true := by
        simp [hch.1, hch.2]
      have hb2 : (r.team_id == g.away_team_id) = false := by
        simp only [beq_eq_false_iff_ne, ne_eq]
        rw [hch.1]; exact hne
      simp [hb, hb2, sHome]
    · have hb : (r.team_id == g.home_team_id && r.season == season) = false := by
        rcases not_and_or.mp hch with h | h <;> simp [h]
      by_cases hca : r.team_id = g.away_team_id ∧ r.season = season
      · have hb3 : (r.team_id == g.away_team_id && r.season == season) = true := by
          simp [hca.1, hca.2]
        simp [hb, hb3, sHome]
      · have hb4 : (r.team_id == g.away_team_id && r.season == season) = false := by
          rcases not_and_or.mp hca with h | h <;> simp [h]
        simp [hb, hb4]

/-- Rating-row provenance across one operation: every row of the output table
either sat at the same position in the input table, or carries the given season. -/
def ratingsFrom (season : String) (xs ys : List TeamRating) : Prop :=
  ∀ (i : Nat) (r : TeamRating), ys[i]? = some r → xs[i]? = some r ∨ r.season = season

lemma ratingsFrom_refl (season : String) (xs : List TeamRating) :
    ratingsFrom season xs xs :=
  fun _ _ h => Or.inl h

lemma ratingsFrom_trans {season : String} {xs ys zs : List TeamRating}
    (h1 : ratingsFrom season xs ys) (h2 : ratingsFrom season ys zs) :
    ratingsFrom season xs zs := by
  intro i r h
  rcases h2 i r h with h | h
  · exact h1 i r h
  · exact Or.inr h

lemma ratingsFrom_map {season : String} {xs : List TeamRating} {tid : Nat}
    {f : TeamRating → TeamRating} (hf : ∀ r, (f r).season = r.season) :
    ratingsFrom season xs
      (xs.map fun r => (if r.team_id == tid && r.season == season then f r else r)) := by
  intro i r h
  rw [List.getElem?_map] at h
  cases hr : xs[i]? with
  | none => rw [hr] at h; cases h
  | some r0 =>
    rw [hr] at h
    simp only [Option.map_some'] at h
    by_cases hc : (r0.team_id == tid && r0.season == season) = true
    · rw [if_pos hc] at h
      right
      injection h with h
      rw [Bool.and_eq_true] at hc
      rw [← h, hf r0]
      exact beq_iff_eq.mp hc.2
    · rw [if_neg hc] at h
      left
      exact h

lemma ratingsFrom_append {season : String} {xs : List TeamRating} {r0 : TeamRating}
    (hr : r0.season = season) : ratingsFrom season xs (xs ++ [r0]) := by
  intro i r h
  by_cases hi : i < xs.length
  · left
    rw [List.getElem?_append_left hi] at h
    exact h
  · right
    rw [List.getElem?_append_right (Nat.le_of_not_lt hi)] at h
    cases hj : i - xs.length with
    | zero => rw [hj] at h; simp only [List.getElem?_cons_zero, Option.some.injEq] at h
              rw [← h]; exact hr
    | succ k => rw [hj] at h; simp at h

lemma ratingsFrom_get_or_create {season : String} {db db1 : DB} {tid : Nat}
    {r : TeamRating} (h : get_or_create_rating db tid season = .ok (r, db1)) :
    ratingsFrom season db.ratings db1.ratings := by
  rcases (get_or_create_rating_spec h).2.2.2.2.2.2 with heq | ⟨heq, _⟩
  · rw [heq]; exact ratingsFrom_refl season db.ratings
  · rw [heq]
    exact ratingsFrom_append (get_or_create_rating_spec h).2.1

/-- Everything one loop-body iteration can do to the store: teams and counters are
untouched; either the game was skipped and the whole store is unchanged, or the
update was applied and the games table changes only by marking the row of this
game applied; and every rating row either predates the call or carries the season
argument. -/
lemma applyGameStep_effects {db db3 : DB} {season : String} {g : Game} {did : Bool}
    (h : applyGameStep db season g = .ok (db3, did)) :
    db3.teams = db.teams ∧ db3.nextTeamId = db.nextTeamId ∧
    db3.nextGameId = db.nextGameId ∧
    ((did = false ∧ db3 = db) ∨
      (did = true ∧ db3.games = db.games.map fun x =>
        (if x.id == g.id then { x with elo_applied := true } else x))) ∧
    ratingsFrom season db.ratings db3.ratings := by
  unfold applyGameStep at h
  cases hh : g.home_score with
  | none =>
    rw [hh] at h
    cases hv : g.away_score <;> rw [hv] at h <;>
      simp only [Except.ok.injEq, Prod.mk.injEq] at h <;>
      rcases h with ⟨h1, h2⟩ <;> subst h1 <;> subst h2 <;>
      exact ⟨rfl, rfl, rfl, Or.inl ⟨rfl, rfl⟩, ratingsFrom_refl season db.ratings⟩
  | some hs =>
    rw [hh] at h
    cases hv : g.away_score with
    | none =>
      rw [hv] at h
      simp only [Except.ok.injEq, Prod.mk.injEq] at h
      rcases h with ⟨h1, h2⟩; subst h1; subst h2
      exact ⟨rfl, rfl, rfl, Or.inl ⟨rfl, rfl⟩, ratingsFrom_refl season db.ratings⟩
    | some ascore =>
      rw [hv] at h
      simp only [bind, Except.bind] at h
      cases hg1 : get_or_create_rating db g.home_team_id season with
      | error e => rw [hg1] at h; cases h
      | ok p1 =>
        obtain ⟨home, db1⟩ := p1
        rw [hg1] at h
        simp only at h
        cases hg2 : get_or_create_rating db1 g.away_team_id season with
        | error e => rw [hg2] at h; cases h
        | ok p2 =>
          obtain ⟨away, db2⟩ := p2
          rw [hg2] at h
          simp only [pure, Except.pure, Except.ok.injEq, Prod.mk.injEq] at h
          rcases h with ⟨h1, h2⟩
          subst h1; subst h2
          have s1 := get_or_create_rating_spec hg1
          have s2 := get_or_create_rating_spec hg2
          refine ⟨?_, ?_, ?_, ?_, ?_⟩
          · simp only [updateRating]
            rw [s2.2.2.1, s1.2.2.1]
          · simp only [updateRating]
            rw [s2.2.2.2.2.1, s1.2.2.2.2.1]
          · simp only [updateRating]
            rw [s2.2.2.2.2.2.1, s1.2.2.2.2.2.1]
          · right
            refine ⟨rfl, ?_⟩
            simp only [updateRating]
            rw [s2.2.2.2.1, s1.2.2.2.1]
          · simp only [updateRating]
            refine ratingsFrom_trans ?_ (ratingsFrom_map fun r => rfl)
            refine ratingsFrom_trans ?_ (ratingsFrom_map fun r => rfl)
            refine ratingsFrom_trans ?_ (ratingsFrom_map fun r => rfl)
            refine ratingsFrom_trans ?_ (ratingsFrom_map fun r => rfl)
            exact ratingsFrom_trans (ratingsFrom_get_or_create hg1)
              (ratingsFrom_get_or_create hg2)

/-- With both scores present, an ok loop-body iteration always applies the update. -/
lemma applyGameStep_applied {db db3 : DB} {season : String} {g : Game} {did : Bool}
    (hs1 : g.home_score ≠ none) (hs2 : g.away_score ≠ none)
    (h : applyGameStep db season g = .ok (db3, did)) : did = true := by
  unfold applyGameStep at h
  cases hh : g.home_score with
  | none => exact absurd hh hs1
  | some hs =>
    cases hv : g.away_score with
    | none => exact absurd hv hs2
    | some ascore =>
      rw [hh, hv] at h
      simp only [bind, Except.bind] at h
      cases hg1 : get_or_create_rating db g.home_team_id season with
      | error e => rw [hg1] at h; cases h
      | ok p1 =>
        obtain ⟨home, db1⟩ := p1
        rw [hg1] at h
        simp only at h
        cases hg2 : get_or_create_rating db1 g.away_team_id season with
        | error e => rw [hg2] at h; cases h
        | ok p2 =>
          obtain ⟨away, db2⟩ := p2
          rw [hg2] at h
          simp only [pure, Except.pure, Except.ok.injEq, Prod.mk.injEq] at h
          exact h.2.symm

/-- Effects of the whole scan loop: teams and counters untouched, at most one
application counted per scanned game, rating rows only from before or carrying the
season argument, and every game row kept in place, unchanged up to possibly having
its elo_applied flag raised. -/
lemma applyGames_effects : ∀ (gs : List Game) {db db2 : DB} {season : String}
    {a a2 : Nat}, applyGames db season a gs = .ok (db2, a2) →
    db2.teams = db.teams ∧ db2.nextTeamId = db.nextTeamId ∧
    db2.nextGameId = db.nextGameId ∧ a2 ≤ a + gs.length ∧
    ratingsFrom season db.ratings db2.ratings ∧
    (∀ (i : Nat) (x : Game), db.games[i]? = some x → ∃ x2, db2.games[i]? = some x2 ∧
      (x2 = x ∨ x2 = { x with elo_applied := true })) := by
  intro gs
  induction gs with
  | nil =>
    intro db db2 season a a2 h
    unfold applyGames at h
    simp only [Except.ok.injEq, Prod.mk.injEq] at h
    rcases h with ⟨h1, h2⟩; subst h1; subst h2
    exact ⟨rfl, rfl, rfl, Nat.le_add_right a 0, ratingsFrom_refl season db.ratings,
      fun i x hx => ⟨x, hx, Or.inl rfl⟩⟩
  | cons g rest ih =>
    intro db db2 season a a2 h
    unfold applyGames at h
    cases hstep : applyGameStep db season g with
    | error e => rw [hstep] at h; cases h
    | ok p =>
      obtain ⟨dbS, did⟩ := p
      rw [hstep] at h
      have eff := applyGameStep_effects hstep
      have rec := ih h
      refine ⟨rec.1.trans eff.1, rec.2.1.trans eff.2.1, rec.2.2.1.trans eff.2.2.1,
        ?_, ratingsFrom_trans eff.2.2.2.2 rec.2.2.2.2.1, ?_⟩
      · calc a2 ≤ (a + if did then 1 else 0) + rest.length := rec.2.2.2.1
          _ ≤ (a + 1) + rest.length := by
              have : (if did then 1 else 0) ≤ 1 := by cases did <;> simp
              omega
          _ = a + (g :: rest).length := by simp [List.length_cons]; omega
      · intro i x hx
        rcases eff.2.2.2.1 with ⟨_, hsame⟩ | ⟨_, hmap⟩
        · subst hsame
          exact rec.2.2.2.2.2 i x hx
        · have hxS : dbS.games[i]? = some (if x.id == g.id then
              { x with elo_applied := true } else x) := by
            rw [hmap, List.getElem?_map, hx]
            rfl
          by_cases hid : (x.id == g.id) = true
          · rw [if_pos hid] at hxS
            rcases rec.2.2.2.2.2 i _ hxS with ⟨x2, hx2, hc⟩
            refine ⟨x2, hx2, Or.inr ?_⟩
            rcases hc with hc | hc
            · exact hc
            · exact hc
          · rw [if_neg hid] at hxS
            exact rec.2.2.2.2.2 i x hxS

/-- A scanned game with both scores present has its elo_applied flag set by the
end of the loop (tracked through the stable row position of that game). -/
lemma applyGames_sets : ∀ (gs : List Game) {db db2 : DB} {season : String}
    {a a2 : Nat}, applyGames db season a gs = .ok (db2, a2) →
    ∀ g : Game, g ∈ gs → g.home_score ≠ none → g.away_score ≠ none →
    ∀ (i : Nat) (x : Game), db.games[i]? = some x → x.id = g.id →
    ∃ x2, db2.games[i]? = some x2 ∧ x2.elo_applied = true := by
  intro gs
  induction gs with
  | nil => intro db db2 season a a2 h g hg; cases hg
  | cons gh rest ih =>
    intro db db2 season a a2 h g hg hs1 hs2 i x hx hid
    unfold applyGames at h
    cases hstep : applyGameStep db season gh with
    | error e => rw [hstep] at h; cases h
    | ok p =>
      obtain ⟨dbS, did⟩ := p
      rw [hstep] at h
      have eff := applyGameStep_effects hstep
      rcases List.mem_cons.mp hg with hgh | hgrest
      · subst hgh
        have hdid : did = true := applyGameStep_applied hs1 hs2 hstep
        subst hdid
        rcases eff.2.2.2.1 with ⟨hfalse, _⟩ | ⟨_, hmap⟩
        · cases hfalse
        · have hxS : dbS.games[i]? = some { x with elo_applied := true } := by
            rw [hmap, List.getElem?_map, hx]
            simp [hid]
          rcases (applyGames_effects rest h).2.2.2.2.2 i _ hxS with ⟨x2, hx2, hc⟩
          refine ⟨x2, hx2, ?_⟩
          rcases hc with hc | hc <;> rw [hc]
      · rcases eff.2.2.2.1 with ⟨_, hsame⟩ | ⟨_, hmap⟩
        · subst hsame
          exact ih h g hgrest hs1 hs2 i x hx hid
        · have hxS : dbS.games[i]? = some (if x.id == gh.id then
              { x with elo_applied := true } else x) := by
            rw [hmap, List.getElem?_map, hx]
            rfl
          by_cases hid2 : (x.id == gh.id) = true
          · rw [if_pos hid2] at hxS
            exact ih h g hgrest hs1 hs2 i _ hxS hid
          · rw [if_neg hid2] at hxS
            exact ih h g hgrest hs1 hs2 i x hxS hid

/-! ### C5, C6, C7, C8, C9 -/

/-- C9: during rating application, every Game with status final and rating not yet
applied but at least one score missing is skipped without error and leaves the
entire store untouched; the returned final_games_found counts all final unrated
games scanned, and the applied count never exceeds it. -/
theorem c9_missing_score_skipped :
    (∀ (db : DB) (season : String) (g : Game), g.status = "final" →
      g.elo_applied = false → (g.home_score = none ∨ g.away_score = none) →
      applyGameStep db season g = .ok (db, false)) ∧
    (∀ (db db2 : DB) (season : String) (st : EloStats),
      apply_elo_to_final_games db season = .ok (db2, st) →
      st.final_games_found = (finalUnratedGames db).length ∧
      st.elo_games_applied ≤ st.final_games_found) := by
  constructor
  · intro db season g _ _ hmiss
    exact applyGameStep_skip hmiss
  · intro db db2 season st h
    simp only [apply_elo_to_final_games] at h
    cases hrun : applyGames db season 0 (finalUnratedGames db) with
    | error e => rw [hrun] at h; cases h
    | ok p =>
      obtain ⟨dbE, applied⟩ := p
      rw [hrun] at h
      simp only [Except.ok.injEq, Prod.mk.injEq] at h
      rcases h with ⟨_, h2⟩
      subst h2
      have hle := (applyGames_effects (finalUnratedGames db) hrun).2.2.2.1
      exact ⟨rfl, by simpa using hle⟩

/-- C9 witness: on a concrete store, a final unrated game with a missing home
score is skipped and the store is returned unchanged. -/
theorem c9_missing_score_skipped_witness :
    applyGameStep ⟨[], [], [], 1, 1⟩ "2025-26"
      ⟨1, "espn", "401", none, "unknown", 1, 2, none, some 65, "final", false, false⟩ =
      .ok (⟨[], [], [], 1, 1⟩, false) :=
  c9_missing_score_skipped.1 ⟨[], [], [], 1, 1⟩ "2025-26"
    ⟨1, "espn", "401", none, "unknown", 1, 2, none, some 65, "final", false, false⟩
    rfl rfl (Or.inl rfl)

/-- C5: the scan of apply_elo_to_final_games selects games solely by status final
and elo_applied false, with no date or season condition; the found count covers
every such game in the store, each of them with both scores present ends marked
applied, and every rating row written or created carries the season given as the
argument. -/
theorem c5_season_argument_scope :
    (∀ db : DB, finalUnratedGames db =
      db.games.filter fun g => g.status == "final" && !g.elo_applied) ∧
    (∀ (db db2 : DB) (season : String) (st : EloStats),
      apply_elo_to_final_games db season = .ok (db2, st) →
      st.final_games_found = (finalUnratedGames db).length ∧
      ratingsFrom season db.ratings db2.ratings ∧
      (∀ (i : Nat) (g : Game), db.games[i]? = some g → g.status = "final" →
        g.elo_applied = false → g.home_score ≠ none → g.away_score ≠ none →
        ∃ g2, db2.games[i]? = some g2 ∧ g2.elo_applied = true)) := by
  constructor
  · intro db; rfl
  · intro db db2 season st h
    simp only [apply_elo_to_final_games] at h
    cases hrun : applyGames db season 0 (finalUnratedGames db) with
    | error e => rw [hrun] at h; cases h
    | ok p =>
      obtain ⟨dbE, applied⟩ := p
      rw [hrun] at h
      simp only [Except.ok.injEq, Prod.mk.injEq] at h
      rcases h with ⟨h1, h2⟩
      subst h1; subst h2
      refine ⟨rfl, (applyGames_effects (finalUnratedGames db) hrun).2.2.2.2.1, ?_⟩
      intro i g hg hstatus happ hs1 hs2
      have hmem : g ∈ finalUnratedGames db := by
        apply List.mem_filter.mpr
        refine ⟨List.getElem?_mem hg, ?_⟩
        simp [hstatus, happ]
      exact applyGames_sets (finalUnratedGames db) hrun g hmem hs1 hs2 i g hg rfl

/-- C5 witness: the empty store instantiates the scan characterization; the run
returns found = 0 and the (trivial) rating-row provenance holds. -/
theorem c5_season_argument_scope_witness :
    (⟨0, 0⟩ : EloStats).final_games_found =
      (finalUnratedGames ⟨[], [], [], 1, 1⟩).length ∧
    ratingsFrom "2025-26" (⟨[], [], [], 1, 1⟩ : DB).ratings
      (⟨[], [], [], 1, 1⟩ : DB).ratings := by
  have h := c5_season_argument_scope.2 ⟨[], [], [], 1, 1⟩ ⟨[], [], [], 1, 1⟩
    "2025-26" ⟨0, 0⟩ rfl
  exact ⟨h.1, h.2.1⟩

/-- C7: the K factor is 25 (20 times 1.25) below 10 games, exactly 20 from 10 to
24 games, and 17 (20 times 0.85) from 25 games on; exactly 10 gives base K and
exactly 25 gives the stabilized tier; and in the update each side uses the K of
its own games-played count as it was before the update. -/
theorem c7_k_factor_tiers :
    (∀ n : Nat, n < 10 → k_factor n = 25) ∧
    (∀ n : Nat, 10 ≤ n → n < 25 → k_factor n = 20) ∧
    (∀ n : Nat, 25 ≤ n → k_factor n = 17) ∧
    k_factor 10 = K_BASE ∧ k_factor 25 = K_BASE * 0.85 ∧
    (25 : ℚ) = K_BASE * 1.25 ∧ (17 : ℚ) = K_BASE * 0.85 ∧
    (∀ (db db1 db2 : DB) (season : String) (g : Game) (hs ascore : Int)
      (home away : TeamRating),
      g.home_score = some hs → g.away_score = some ascore →
      get_or_create_rating db g.home_team_id season = .ok (home, db1) →
      get_or_create_rating db1 g.away_team_id season = .ok (away, db2) →
      g.home_team_id ≠ g.away_team_id →
      eloStepRow g season home away hs ascore home = { home with
        elo := home.elo + (k_factor home.games_played : ℝ) *
          (sHome hs ascore - expected_score (home.elo + game_home_adj g) away.elo),
        games_played := home.games_played + 1 } ∧
      eloStepRow g season home away hs ascore away = { away with
        elo := away.elo + (k_factor away.games_played : ℝ) *
          ((1.0 - sHome hs ascore) -
            (1.0 - expected_score (home.elo + game_home_adj g) away.elo)),
        games_played := away.games_played + 1 } ∧
      applyGameStep db season g = .ok
        ({ db2 with
           ratings := db2.ratings.map (eloStepRow g season home away hs ascore),
           games := db2.games.map fun x =>
             (if x.id == g.id then { x with elo_applied := true } else x) }, true)) := by
  refine ⟨?_, ?_, ?_, ?_, ?_, ?_, ?_, ?_⟩
  · intro n h
    simp only [k_factor, if_pos h]
    norm_num [K_BASE]
  · intro n h1 h2
    simp only [k_factor, if_neg (Nat.not_lt.mpr h1), if_pos h2]
    norm_num [K_BASE]
  · intro n h
    have h1 : ¬n < 10 := by omega
    have h2 : ¬n < 25 := by omega
    simp only [k_factor, if_neg h1, if_neg h2]
    norm_num [K_BASE]
  · norm_num [k_factor, K_BASE]
  · norm_num [k_factor, K_BASE]
  · norm_num [K_BASE]
  · norm_num [K_BASE]
  · intro db db1 db2 season g hs ascore home away hh ha h1 h2 hne
    have s1 := get_or_create_rating_spec h1
    have s2 := get_or_create_rating_spec h2
    have hne3 : g.away_team_id ≠ g.home_team_id := fun e => hne e.symm
    refine ⟨?_, ?_, applyGameStep_spec hh ha h1 h2 hne⟩
    · simp [eloStepRow, s1.1, s1.2.1]
    · simp [eloStepRow, s2.1, s2.2.1, hne3]

/-- C7 witness: concrete counts in each tier and at both boundaries. -/
theorem c7_k_factor_tiers_witness :
    k_factor 0 = 25 ∧ k_factor 9 = 25 ∧ k_factor 10 = 20 ∧ k_factor 24 = 20 ∧
    k_factor 25 = 17 ∧ k_factor 40 = 17 :=
  ⟨c7_k_factor_tiers.1 0 (by norm_num), c7_k_factor_tiers.1 9 (by norm_num),
   c7_k_factor_tiers.2.1 10 (by norm_num) (by norm_num),
   c7_k_factor_tiers.2.1 24 (by norm_num) (by norm_num),
   c7_k_factor_tiers.2.2.1 25 (by norm_num),
   c7_k_factor_tiers.2.2.1 40 (by norm_num)⟩

/-- C6: the home-advantage adjustment is exactly the 65-point constant on the home
rating when the game or query is not neutral-site and exactly 0 when it is, the
away rating enters the expectancy unadjusted, and the predict endpoint reuses the
same expected_score function and the same HOME_ADVANTAGE_ELO constant as the
rating engine. -/
theorem c6_home_advantage_consistency :
    HOME_ADVANTAGE_ELO = 65.0 ∧
    (∀ g : Game, game_home_adj g =
      (if g.neutral_site then 0.0 else HOME_ADVANTAGE_ELO)) ∧
    (∀ g : Game, g.neutral_site = false → game_home_adj g = 65.0) ∧
    (∀ g : Game, g.neutral_site = true → game_home_adj g = 0.0) ∧
    (∀ n : Int, predict_home_adj n = (if n ≠ 0 then 0.0 else HOME_ADVANTAGE_ELO)) ∧
    (∀ n : Int, n = 0 → predict_home_adj n = 65.0) ∧
    (∀ n : Int, n ≠ 0 → predict_home_adj n = 0.0) ∧
    (∀ (db db1 db2 : DB) (hid aid : Nat) (neutral : Int) (season : String)
      (home away : TeamRating),
      get_or_create_rating db hid season = .ok (home, db1) →
      get_or_create_rating db1 aid season = .ok (away, db2) →
      predict db hid aid neutral season = .ok (db2,
        ⟨expected_score (home.elo + predict_home_adj neutral) away.elo,
         1.0 - expected_score (home.elo + predict_home_adj neutral) away.elo,
         (home.elo + predict_home_adj neutral) - away.elo,
         predict_home_adj neutral⟩)) ∧
    (∀ (db db1 db2 : DB) (season : String) (g : Game) (hs ascore : Int)
      (home away : TeamRating),
      g.home_score = some hs → g.away_score = some ascore →
      get_or_create_rating db g.home_team_id season = .ok (home, db1) →
      get_or_create_rating db1 g.away_team_id season = .ok (away, db2) →
      g.home_team_id ≠ g.away_team_id →
      applyGameStep db season g = .ok
        ({ db2 with
           ratings := db2.ratings.map (eloStepRow g season home away hs ascore),
           games := db2.games.map fun x =>
             (if x.id == g.id then { x with elo_applied := true } else x) }, true)) := by
  refine ⟨by norm_num [HOME_ADVANTAGE_ELO], fun g => rfl, ?_, ?_, fun n => rfl, ?_, ?_,
    ?_, ?_⟩
  · intro g h
    simp [game_home_adj, h, HOME_ADVANTAGE_ELO]
  · intro g h
    simp [game_home_adj, h]
  · intro n h
    simp [predict_home_adj, h, HOME_ADVANTAGE_ELO]
  · intro n h
    simp [predict_home_adj, h]
  · intro db db1 db2 hid aid neutral season home away h1 h2
    unfold predict
    simp only [bind, Except.bind]
    rw [h1]
    simp only
    rw [h2]
    rfl
  · intro db db1 db2 season g hs ascore home away hh ha h1 h2 hne
    exact applyGameStep_spec hh ha h1 h2 hne

/-- C6 witness: concrete adjustment values on a non-neutral and a neutral game and
on the two predict flag values. -/
theorem c6_home_advantage_consistency_witness :
    game_home_adj ⟨1, "espn", "401", none, "unknown", 1, 2, some 70, some 65,
      "final", false, false⟩ = 65.0 ∧
    game_home_adj ⟨1, "espn", "401", none, "unknown", 1, 2, some 70, some 65,
      "final", true, false⟩ = 0.0 ∧
    predict_home_adj 0 = 65.0 ∧ predict_home_adj 1 = 0.0 :=
  ⟨c6_home_advantage_consistency.2.2.1 _ rfl,
   c6_home_advantage_consistency.2.2.2.1 _ rfl,
   c6_home_advantage_consistency.2.2.2.2.2.1 0 rfl,
   c6_home_advantage_consistency.2.2.2.2.2.2.1 1 (by norm_num)⟩

/-- C8: the status mapping is a substring match on the nested status-type name:
FINAL anywhere gives final, otherwise IN_PROGRESS anywhere gives in_progress,
anything else or a failed lookup gives scheduled; STATUS_SCHEDULED maps to
scheduled, and a game whose status is not final, in particular scheduled, is
never selected by the rating scan. -/
theorem c8_status_mapping :
    (∀ ev : Event, ev.statusTypeName = none → status_from_event ev = "scheduled") ∧
    (∀ (ev : Event) (nm : String), ev.statusTypeName = some nm →
      pyContains nm "FINAL" = true → status_from_event ev = "final") ∧
    (∀ (ev : Event) (nm : String), ev.statusTypeName = some nm →
      pyContains nm "FINAL" = false → pyContains nm "IN_PROGRESS" = true →
      status_from_event ev = "in_progress") ∧
    (∀ (ev : Event) (nm : String), ev.statusTypeName = some nm →
      pyContains nm "FINAL" = false → pyContains nm "IN_PROGRESS" = false →
      status_from_event ev = "scheduled") ∧
    (∀ ev : Event, ev.statusTypeName = some "STATUS_SCHEDULED" →
      status_from_event ev = "scheduled") ∧
    (∀ (db : DB) (g : Game), g ∈ finalUnratedGames db → g.status = "final") ∧
    (∀ (db : DB) (g : Game), g.status = "scheduled" → g ∉ finalUnratedGames db) := by
  refine ⟨?_, ?_, ?_, ?_, ?_, ?_, ?_⟩
  · intro ev h; unfold status_from_event; rw [h]
  · intro ev nm h hc; unfold status_from_event; rw [h]; simp [hc]
  · intro ev nm h hc1 hc2; unfold status_from_event; rw [h]; simp [hc1, hc2]
  · intro ev nm h hc1 hc2; unfold status_from_event; rw [h]; simp [hc1, hc2]
  · intro ev h
    unfold status_from_event
    rw [h]
    decide
  · intro db g hg
    have hp := List.of_mem_filter hg
    simp only [Bool.and_eq_true, beq_iff_eq] at hp
    exact hp.1
  · intro db g hst hg
    have hp := List.of_mem_filter hg
    simp only [Bool.and_eq_true, beq_iff_eq] at hp
    have hq := hp.1
    rw [hst] at hq
    exact absurd hq (by decide)

/-- C8 witness: a STATUS_SCHEDULED event maps to scheduled, and a scheduled game
in a concrete store is not selected by the rating scan. -/
theorem c8_status_mapping_witness :
    status_from_event ⟨some "1", none, some "STATUS_SCHEDULED", none⟩ = "scheduled" ∧
    ⟨1, "espn", "401", none, "unknown", 1, 2, some 70, some 65, "scheduled",
      false, false⟩ ∉ finalUnratedGames ⟨[], [⟨1, "espn", "401", none, "unknown",
      1, 2, some 70, some 65, "scheduled", false, false⟩], [], 1, 2⟩ :=
  ⟨c8_status_mapping.2.2.2.2.1 _ rfl,
   c8_status_mapping.2.2.2.2.2.2 _ _ rfl⟩

/-! ### C2 -/

lemma to_utc_dt_falsy (o : Option String) (h : o = none ∨ o = some "") :
    to_utc_dt o = .ok none := by
  rcases h with h | h <;> subst h <;> rfl

/-- On an event whose date is absent or empty, a successfully normalized fact has
a null start time and the unknown date-key sentinel. -/
lemma normalizeEvent_falsy_date {ev : Event} {f : Fact}
    (hd : ev.date = none ∨ ev.date = some "")
    (h : normalizeEvent ev = .ok (some f)) :
    f.start_time = none ∧ f.date_key = "unknown" := by
  unfold normalizeEvent at h
  rw [to_utc_dt_falsy ev.date hd] at h
  simp only [bind, Except.bind, pure, Except.pure, Option.map_none'] at h
  split at h
  · cases h
  · split at h
    · cases h
    · split at h
      · split at h
        · cases h
        · simp only [Except.ok.injEq, Option.some.injEq] at h
          rw [← h]
          exact ⟨rfl, rfl⟩
      · cases h

/-- An event whose date is absent or empty can never make normalization raise. -/
lemma normalizeEvent_falsy_date_ok {ev : Event} {e : Unit}
    (hd : ev.date = none ∨ ev.date = some "") :
    normalizeEvent ev ≠ .error e := by
  intro h
  unfold normalizeEvent at h
  rw [to_utc_dt_falsy ev.date hd] at h
  simp only [bind, Except.bind, pure, Except.pure, Option.map_none'] at h
  split at h
  · cases h
  · split at h
    · cases h
    · split at h
      · split at h
        · cases h
        · cases h
      · cases h

/-- A present but unparseable date string makes normalization raise the modeled
ValueError, provided the event survives the earlier id check. -/
lemma normalizeEvent_bad_date {ev : Event} {s : String}
    (hid : pyStrip (ev.id.getD "") ≠ "") (hd : ev.date = some s) (hs : s ≠ "")
    (hp : fromisoformat (pyReplace s "Z" "+00:00") = none) :
    normalizeEvent ev = .error () := by
  unfold normalizeEvent
  rw [if_neg hid, hd]
  have hbad : to_utc_dt (some s) = .error () := by
    simp only [to_utc_dt, if_neg hs, hp]
  rw [hbad]
  rfl

/-- The raise propagates: an event with a truthy unparseable date anywhere in the
batch makes the whole event loop fail. -/
lemma ingestEvents_bad_date : ∀ (evs1 : List Event) {db : DB} {tt gu : Nat}
    {evs2 : List Event} {ev : Event} {s : String},
    pyStrip (ev.id.getD "") ≠ "" → ev.date = some s → s ≠ "" →
    fromisoformat (pyReplace s "Z" "+00:00") = none →
    ingestEvents db tt gu (evs1 ++ ev :: evs2) = .error () := by
  intro evs1
  induction evs1 with
  | nil =>
    intro db tt gu evs2 ev s hid hd hs hp
    simp only [List.nil_append]
    unfold ingestEvents
    have hbad : ingestEvent db ev = .error () := by
      unfold ingestEvent
      rw [normalizeEvent_bad_date hid hd hs hp]
      rfl
    rw [hbad]
  | cons e rest ih =>
    intro db tt gu evs2 ev s hid hd hs hp
    simp only [List.cons_append]
    unfold ingestEvents
    cases hstep : ingestEvent db e with
    | error err => cases err; rfl
    | ok p =>
      obtain ⟨db2, proc⟩ := p
      exact ih hid hd hs hp

/-- C2 counterexample: a payload whose first event carries the unparseable date
string garbage, followed by a perfectly well-formed final event, makes the whole
ingestion call fail, so the well-formed rest of the batch is not processed and no
unknown date-key row is produced: the claim as stated is false on the code. -/
theorem c2_counterexample_unparseable_aborts :
    ingest_scoreboard_json ⟨[], [], [], 1, 1⟩ ⟨some
      [⟨some "401", some "garbage", some "STATUS_FINAL", some [⟨none, some
        [⟨some "home", some ⟨some "H", some "Homers", none⟩, some "70"⟩,
         ⟨some "away", some ⟨some "A", some "Awayers", none⟩, some "65"⟩]⟩]⟩,
       ⟨some "402", none, some "STATUS_FINAL", some [⟨none, some
        [⟨some "home", some ⟨some "H", some "Homers", none⟩, some "70"⟩,
         ⟨some "away", some ⟨some "A", some "Awayers", none⟩, some "65"⟩]⟩]⟩]⟩ =
      .error () := by
  rfl

/-- C2 (amended): an event whose date field is absent or empty yields a null
start time and the unknown date-key sentinel and never aborts normalization; but
an event whose date string is present and unparseable raises, and that raise
aborts the whole ingestion call before its commit, wherever the event sits in the
batch. -/
theorem c2_amended_date_handling :
    (∀ o : Option String, (o = none ∨ o = some "") → to_utc_dt o = .ok none) ∧
    (∀ (ev : Event) (f : Fact), (ev.date = none ∨ ev.date = some "") →
      normalizeEvent ev = .ok (some f) →
      f.start_time = none ∧ f.date_key = "unknown") ∧
    (∀ (ev : Event) (e : Unit), (ev.date = none ∨ ev.date = some "") →
      normalizeEvent ev ≠ .error e) ∧
    (∀ s : String, s ≠ "" → fromisoformat (pyReplace s "Z" "+00:00") = none →
      to_utc_dt (some s) = .error ()) ∧
    (∀ (db : DB) (evs1 evs2 : List Event) (ev : Event) (s : String),
      pyStrip (ev.id.getD "") ≠ "" → ev.date = some s → s ≠ "" →
      fromisoformat (pyReplace s "Z" "+00:00") = none →
      ingest_scoreboard_json db ⟨some (evs1 ++ ev :: evs2)⟩ = .error ()) := by
  refine ⟨to_utc_dt_falsy, ?_, ?_, ?_, ?_⟩
  · intro ev f hd h
    exact normalizeEvent_falsy_date hd h
  · intro ev e hd
    exact normalizeEvent_falsy_date_ok hd
  · intro s hs hp
    simp only [to_utc_dt, if_neg hs, hp]
  · intro db evs1 evs2 ev s hid hd hs hp
    simp only [ingest_scoreboard_json, Option.getD_some]
    rw [ingestEvents_bad_date evs1 hid hd hs hp]

/-- C2 witness: the amended statement applied to a concrete batch with one good
event followed by one bad-date event. -/
theorem c2_amended_date_handling_witness :
    ingest_scoreboard_json ⟨[], [], [], 1, 1⟩ ⟨some
      ([⟨some "402", none, some "STATUS_FINAL", some [⟨none, some
        [⟨some "home", some ⟨some "H", some "Homers", none⟩, some "70"⟩,
         ⟨some "away", some ⟨some "A", some "Awayers", none⟩, some "65"⟩]⟩]⟩] ++
       ⟨some "401", some "not-a-date", some "STATUS_FINAL", none⟩ :: [])⟩ =
      .error () :=
  c2_amended_date_handling.2.2.2.2 ⟨[], [], [], 1, 1⟩ _ [] _ "not-a-date"
    (by decide) rfl (by decide) (by decide)

/-! ### C1 -/

/-- The calls of the pipeline a deployment interleaves: ingestion of some payload
or rating application for some season. -/
inductive Op where
  | ingest (p : Payload)
  | applyElo (season : String)

/-- Run one call against the store; a call that raises commits nothing, so the
caller observes the unchanged store. -/
noncomputable def runOp (db : DB) : Op → DB
  | .ingest p =>
    match ingest_scoreboard_json db p with
    | .ok (db2, _) => db2
    | .error _ => db
  | .applyElo season =>
    match apply_elo_to_final_games db season with
    | .ok (db2, _) => db2
    | .error _ => db

/-- Run a sequence of calls left to right. -/
noncomputable def runOps (db : DB) : List Op → DB
  | [] => db
  | op :: ops => runOps (runOp db op) ops

lemma upsert_team_keeps_games {db db2 : DB} {prov tid nm : String} {t2 : Team}
    (h : upsert_team db prov tid nm = .ok (t2, db2)) : db2.games = db.games := by
  unfold upsert_team at h
  cases hs : scalarOneOrNone (db.teams.filter fun t =>
      t.provider == prov && t.provider_team_id == tid) with
  | error e => rw [hs] at h; cases h
  | ok o =>
    rw [hs] at h
    cases o with
    | none =>
      simp only [Except.ok.injEq, Prod.mk.injEq] at h
      rw [← h.2]
    | some t =>
      simp only at h
      by_cases hn : t.name ≠ nm
      · rw [if_pos hn] at h
        simp only [Except.ok.injEq, Prod.mk.injEq] at h
        rw [← h.2]
      · rw [if_neg hn] at h
        simp only [Except.ok.injEq, Prod.mk.injEq] at h
        rw [← h.2]

/-- What upsert_game does to the games table: the returned row always carries the
argument values in every mutable field, and every existing row keeps its position,
its id and exactly its old elo_applied value. -/
lemma upsert_game_rows {db db2 : DB} {prov pgid : String} {stu : Option Int}
    {dk : String} {ht aTeam : Team} {hsc asc : Option Int} {status : String}
    {ns : Bool} {g2 : Game}
    (h : upsert_game db prov pgid stu dk ht aTeam hsc asc status ns = .ok (g2, db2)) :
    (g2.start_time_utc = stu ∧ g2.date_key = dk ∧ g2.home_team_id = ht.id ∧
      g2.away_team_id = aTeam.id ∧ g2.home_score = hsc ∧ g2.away_score = asc ∧
      g2.status = status ∧ g2.neutral_site = ns) ∧
    (∀ (i : Nat) (x : Game), db.games[i]? = some x → ∃ y, db2.games[i]? = some y ∧
      y.id = x.id ∧ y.elo_applied = x.elo_applied) := by
  unfold upsert_game at h
  cases hs : scalarOneOrNone (db.games.filter fun g =>
      g.provider == prov && g.provider_game_id == pgid) with
  | error e => rw [hs] at h; cases h
  | ok o =>
    rw [hs] at h
    cases o with
    | none =>
      simp only [Except.ok.injEq, Prod.mk.injEq] at h
      obtain ⟨hg, hdb⟩ := h
      subst hg; subst hdb
      refine ⟨⟨rfl, rfl, rfl, rfl, rfl, rfl, rfl, rfl⟩, ?_⟩
      intro i x hx
      have hlt : i < db.games.length := (List.getElem?_eq_some.mp hx).1
      refine ⟨x, ?_, rfl, rfl⟩
      simp only
      rw [List.getElem?_append_left hlt]
      exact hx
    | some g =>
      simp only [Except.ok.injEq, Prod.mk.injEq] at h
      obtain ⟨hg, hdb⟩ := h
      subst hg; subst hdb
      refine ⟨⟨rfl, rfl, rfl, rfl, rfl, rfl, rfl, rfl⟩, ?_⟩
      intro i x hx
      simp only [List.getElem?_map, hx, Option.map_some']
      by_cases hc : (x.provider == prov && x.provider_game_id == pgid) = true
      · rw [if_pos hc]
        exact ⟨_, rfl, rfl, rfl⟩
      · rw [if_neg hc]
        exact ⟨x, rfl, rfl, rfl⟩

/-- One processed fact keeps every game row in place with its id and exactly its
old elo_applied value. -/
lemma applyFact_rows {db db2 : DB} {f : Fact} (h : applyFact db f = .ok db2) :
    ∀ (i : Nat) (x : Game), db.games[i]? = some x → ∃ y, db2.games[i]? = some y ∧
      y.id = x.id ∧ y.elo_applied = x.elo_applied := by
  unfold applyFact at h
  simp only [bind, Except.bind] at h
  cases h1 : upsert_team db "espn" f.htid f.hname with
  | error e => rw [h1] at h; cases h
  | ok p1 =>
    obtain ⟨ht, dbA⟩ := p1
    rw [h1] at h
    simp only at h
    cases h2 : upsert_team dbA "espn" f.atid f.aname with
    | error e => rw [h2] at h; cases h
    | ok p2 =>
      obtain ⟨aTeam, dbB⟩ := p2
      rw [h2] at h
      simp only at h
      cases h3 : upsert_game dbB "espn" f.gid f.start_time f.date_key ht aTeam
          f.hscore f.ascore f.status f.neutral with
      | error e => rw [h3] at h; cases h
      | ok p3 =>
        obtain ⟨g2, dbC⟩ := p3
        rw [h3] at h
        simp only [pure, Except.pure, Except.ok.injEq] at h
        subst h
        intro i x hx
        have hA : dbA.games = db.games := upsert_team_keeps_games h1
        have hB : dbB.games = dbA.games := upsert_team_keeps_games h2
        apply (upsert_game_rows h3).2
        rw [hB, hA]
        exact hx

/-- The whole event loop keeps every game row in place with its id and exactly
its old elo_applied value. -/
lemma ingestEvents_rows : ∀ (evs : List Event) {db db2 : DB} {tt gu tt2 gu2 : Nat},
    ingestEvents db tt gu evs = .ok (db2, tt2, gu2) →
    ∀ (i : Nat) (x : Game), db.games[i]? = some x → ∃ y, db2.games[i]? = some y ∧
      y.id = x.id ∧ y.elo_applied = x.elo_applied := by
  intro evs
  induction evs with
  | nil =>
    intro db db2 tt gu tt2 gu2 h i x hx
    unfold ingestEvents at h
    simp only [Except.ok.injEq, Prod.mk.injEq] at h
    rw [← h.1]
    exact ⟨x, hx, rfl, rfl⟩
  | cons ev rest ih =>
    intro db db2 tt gu tt2 gu2 h i x hx
    unfold ingestEvents at h
    cases hstep : ingestEvent db ev with
    | error e => rw [hstep] at h; cases h
    | ok p =>
      obtain ⟨dbS, proc⟩ := p
      rw [hstep] at h
      simp only at h
      unfold ingestEvent at hstep
      simp only [bind, Except.bind] at hstep
      cases hn : normalizeEvent ev with
      | error e => rw [hn] at hstep; cases hstep
      | ok o =>
        rw [hn] at hstep
        cases o with
        | none =>
          simp only [pure, Except.pure, Except.ok.injEq, Prod.mk.injEq] at hstep
          rcases ih h i x (by rw [← hstep.1]; exact hx) with ⟨y, hy⟩
          exact ⟨y, hy⟩
        | some f =>
          simp only at hstep
          cases ha : applyFact db f with
          | error e => rw [ha] at hstep; cases hstep
          | ok dbF =>
            rw [ha] at hstep
            simp only [pure, Except.pure, Except.ok.injEq, Prod.mk.injEq] at hstep
            rcases applyFact_rows ha i x hx with ⟨y, hy, hid, hflag⟩
            rcases ih h i y (by rw [← hstep.1]; exact hy) with ⟨z, hz, hzid, hzflag⟩
            exact ⟨z, hz, hzid.trans hid, hzflag.trans hflag⟩

/-- One whole ingestion call keeps every game row in place with its id and exactly
its old elo_applied value. -/
lemma ingest_rows {db db2 : DB} {p : Payload} {st : IngestStats}
    (h : ingest_scoreboard_json db p = .ok (db2, st)) :
    ∀ (i : Nat) (x : Game), db.games[i]? = some x → ∃ y, db2.games[i]? = some y ∧
      y.id = x.id ∧ y.elo_applied = x.elo_applied := by
  simp only [ingest_scoreboard_json] at h
  cases hrun : ingestEvents db 0 0 (p.events.getD []) with
  | error e => rw [hrun] at h; cases h
  | ok q =>
    obtain ⟨dbE, tt, gu⟩ := q
    rw [hrun] at h
    simp only [Except.ok.injEq, Prod.mk.injEq] at h
    intro i x hx
    rcases ingestEvents_rows (p.events.getD []) hrun i x hx with ⟨y, hy⟩
    exact ⟨y, by rw [← h.1]; exact hy.1, hy.2⟩

/-- One whole rating-application call keeps every game row in place with its id,
and the elo_applied flag either keeps its value or moves from false to true. -/
lemma apply_elo_rows {db db2 : DB} {season : String} {st : EloStats}
    (h : apply_elo_to_final_games db season = .ok (db2, st)) :
    ∀ (i : Nat) (x : Game), db.games[i]? = some x → ∃ y, db2.games[i]? = some y ∧
      y.id = x.id ∧ (y.elo_applied = x.elo_applied ∨
        (x.elo_applied = false ∧ y.elo_applied = true)) := by
  simp only [apply_elo_to_final_games] at h
  cases hrun : applyGames db season 0 (finalUnratedGames db) with
  | error e => rw [hrun] at h; cases h
  | ok p =>
    obtain ⟨dbE, applied⟩ := p
    rw [hrun] at h
    simp only [Except.ok.injEq, Prod.mk.injEq] at h
    intro i x hx
    rcases (applyGames_effects (finalUnratedGames db) hrun).2.2.2.2.2 i x hx with
      ⟨y, hy, hc⟩
    refine ⟨y, by rw [← h.1]; exact hy, ?_, ?_⟩
    · rcases hc with hc | hc <;> rw [hc]
    · rcases hc with hc | hc
      · rw [hc]; exact Or.inl rfl
      · subst hc
        cases he : x.elo_applied with
        | false => exact Or.inr ⟨rfl, rfl⟩
        | true => exact Or.inl rfl

/-- C1: upsert_game rewrites start time, date key, team references, scores,
status and the neutral flag from its arguments but never changes the elo_applied
of any stored row; apply_elo_to_final_games moves elo_applied only from false to
true; hence across any sequence of ingestion and rating-application calls a game
row that has elo_applied true keeps it forever, so the flag goes false to true at
most once and is never reset. -/
theorem c1_rating_applied_monotone :
    (∀ (db db2 : DB) (prov pgid : String) (stu : Option Int) (dk : String)
      (ht aTeam : Team) (hsc asc : Option Int) (status : String) (ns : Bool)
      (g2 : Game),
      upsert_game db prov pgid stu dk ht aTeam hsc asc status ns = .ok (g2, db2) →
      (g2.start_time_utc = stu ∧ g2.date_key = dk ∧ g2.home_team_id = ht.id ∧
        g2.away_team_id = aTeam.id ∧ g2.home_score = hsc ∧ g2.away_score = asc ∧
        g2.status = status ∧ g2.neutral_site = ns) ∧
      (∀ (i : Nat) (x : Game), db.games[i]? = some x → ∃ y, db2.games[i]? = some y ∧
        y.id = x.id ∧ y.elo_applied = x.elo_applied)) ∧
    (∀ (db db2 : DB) (season : String) (st : EloStats),
      apply_elo_to_final_games db season = .ok (db2, st) →
      ∀ (i : Nat) (x : Game), db.games[i]? = some x → ∃ y, db2.games[i]? = some y ∧
        y.id = x.id ∧ (y.elo_applied = x.elo_applied ∨
          (x.elo_applied = false ∧ y.elo_applied = true))) ∧
    (∀ (db : DB) (ops : List Op) (i : Nat) (x : Game),
      db.games[i]? = some x → x.elo_applied = true →
      ∃ y, (runOps db ops).games[i]? = some y ∧ y.id = x.id ∧
        y.elo_applied = true) := by
  refine ⟨?_, ?_, ?_⟩
  · intro db db2 prov pgid stu dk ht aTeam hsc asc status ns g2 h
    exact upsert_game_rows h
  · intro db db2 season st h
    exact apply_elo_rows h
  · intro db ops
    induction ops generalizing db with
    | nil =>
      intro i x hx hflag
      exact ⟨x, hx, rfl, hflag⟩
    | cons op rest ih =>
      intro i x hx hflag
      have hstep : ∃ y, (runOp db op).games[i]? = some y ∧ y.id = x.id ∧
          y.elo_applied = true := by
        cases op with
        | ingest p =>
          cases hr : ingest_scoreboard_json db p with
          | error e =>
            have hro : runOp db (Op.ingest p) = db := by
              show (match ingest_scoreboard_json db p with
                | .ok (db2, _) => db2 | .error _ => db) = db
              rw [hr]
            rw [hro]
            exact ⟨x, hx, rfl, hflag⟩
          | ok q =>
            obtain ⟨dbI, stI⟩ := q
            have hro : runOp db (Op.ingest p) = dbI := by
              show (match ingest_scoreboard_json db p with
                | .ok (db2, _) => db2 | .error _ => db) = dbI
              rw [hr]
            rw [hro]
            rcases ingest_rows hr i x hx with ⟨y, hy, hid, hfe⟩
            exact ⟨y, hy, hid, by rw [hfe, hflag]⟩
        | applyElo season =>
          cases hr : apply_elo_to_final_games db season with
          | error e =>
            have hro : runOp db (Op.applyElo season) = db := by
              show (match apply_elo_to_final_games db season with
                | .ok (db2, _) => db2 | .error _ => db) = db
              rw [hr]
            rw [hro]
            exact ⟨x, hx, rfl, hflag⟩
          | ok q =>
            obtain ⟨dbA, stA⟩ := q
            have hro : runOp db (Op.applyElo season) = dbA := by
              show (match apply_elo_to_final_games db season with
                | .ok (db2, _) => db2 | .error _ => db) = dbA
              rw [hr]
            rw [hro]
            rcases apply_elo_rows hr i x hx with ⟨y, hy, hid, hc⟩
            refine ⟨y, hy, hid, ?_⟩
            rcases hc with hc | hc
            · rw [hc, hflag]
            · rw [hflag] at hc; cases hc.1
      rcases hstep with ⟨y, hy, hid, hyflag⟩
      rcases ih (runOp db op) i y hy hyflag with ⟨z, hz, hzid, hzflag⟩
      exact ⟨z, hz, hzid.trans hid, hzflag⟩

/-- C1 witness: a concrete store whose only game is already rated keeps the flag
through an ingestion of its own event followed by a rating re-run. -/
theorem c1_rating_applied_monotone_witness :
    ∃ y, (runOps ⟨[⟨1, "Homers", "espn", "H"⟩, ⟨2, "Awayers", "espn", "A"⟩],
        [⟨1, "espn", "401", none, "unknown", 1, 2, some 70, some 65, "final",
          false, true⟩], [], 3, 2⟩
      [Op.ingest ⟨some [⟨some "401", none, some "STATUS_FINAL", some [⟨none, some
        [⟨some "home", some ⟨some "H", some "Homers", none⟩, some "70"⟩,
         ⟨some "away", some ⟨some "A", some "Awayers", none⟩, some "65"⟩]⟩]⟩]⟩,
       Op.applyElo "2025-26"]).games[0]? = some y ∧ y.id = 1 ∧
      y.elo_applied = true :=
  c1_rating_applied_monotone.2.2 _ _ 0
    ⟨1, "espn", "401", none, "unknown", 1, 2, some 70, some 65, "final",
      false, true⟩ rfl rfl

/-! ### C10 -/

/-- C10: expectancy symmetry. For all ratings a and b, the embedded
expected_score of elo.py satisfies expected_score a b + expected_score b a = 1. -/
theorem c10_expectancy_symmetry (a b : ℝ) :
    expected_score a b + expected_score b a = 1.0 := by
  unfold expected_score
  have hneg : (a - b) / 400.0 = -((b - a) / 400.0) := by ring
  have hp : (0 : ℝ) < (10.0 : ℝ) ^ ((b - a) / 400.0) :=
    Real.rpow_pos_of_pos (by norm_num) _
  rw [hneg, Real.rpow_neg (by norm_num : (0 : ℝ) ≤ 10.0)]
  have h1 : (1.0 : ℝ) + (10.0 : ℝ) ^ ((b - a) / 400.0) ≠ 0 := by positivity
  have h2 : ((10.0 : ℝ) ^ ((b - a) / 400.0))⁻¹ + 1.0 ≠ 0 := by positivity
  field_simp
  ring

/-! ### C4 -/

/-- Rational bounds on the tenth-root-family value 10 to the 13/80, obtained by
comparing 80th powers. -/
lemma ten_rpow_bounds :
    (1.4535 : ℝ) < (10 : ℝ) ^ ((13 : ℝ) / 80) ∧
    (10 : ℝ) ^ ((13 : ℝ) / 80) < 1.4541 := by
  have h10 : (0 : ℝ) ≤ 10 := by norm_num
  have htpos : (0 : ℝ) < (10 : ℝ) ^ ((13 : ℝ) / 80) :=
    Real.rpow_pos_of_pos (by norm_num) _
  have hpow : ((10 : ℝ) ^ ((13 : ℝ) / 80)) ^ (80 : ℕ) = (10 : ℝ) ^ (13 : ℕ) := by
    rw [← Real.rpow_natCast ((10 : ℝ) ^ ((13 : ℝ) / 80)) 80, ← Real.rpow_mul h10]
    norm_num
  constructor
  · have h1 : (1.4535 : ℝ) ^ (80 : ℕ) < ((10 : ℝ) ^ ((13 : ℝ) / 80)) ^ (80 : ℕ) := by
      rw [hpow]
      norm_num
    exact lt_of_pow_lt_pow_left₀ 80 (le_of_lt htpos) h1
  · have h2 : ((10 : ℝ) ^ ((13 : ℝ) / 80)) ^ (80 : ℕ) < (1.4541 : ℝ) ^ (80 : ℕ) := by
      rw [hpow]
      norm_num
    exact lt_of_pow_lt_pow_left₀ 80 (by norm_num) h2

/-- The exact home expectancy of the C4 scenario lies in (0.5924, 0.5926), hence
within a thousandth of the 0.593 of the specification. -/
lemma expected_home_bounds :
    0.5924 < expected_score 1565 1500 ∧ expected_score 1565 1500 < 0.5926 ∧
    |expected_score 1565 1500 - 0.593| < 0.001 := by
  obtain ⟨hl, hu⟩ := ten_rpow_bounds
  have h10 : (0 : ℝ) ≤ 10 := by norm_num
  have htpos : (0 : ℝ) < (10 : ℝ) ^ ((13 : ℝ) / 80) :=
    Real.rpow_pos_of_pos (by norm_num) _
  have hform : expected_score 1565 1500 =
      ((10 : ℝ) ^ ((13 : ℝ) / 80)) / ((10 : ℝ) ^ ((13 : ℝ) / 80) + 1) := by
    unfold expected_score
    rw [show ((1500 : ℝ) - 1565) / 400.0 = -((13 : ℝ) / 80) by norm_num]
    rw [show (10.0 : ℝ) = (10 : ℝ) by norm_num]
    rw [Real.rpow_neg h10]
    field_simp
    ring
  have hsum : (0 : ℝ) < (10 : ℝ) ^ ((13 : ℝ) / 80) + 1 := by linarith
  have hlow : 0.5924 < expected_score 1565 1500 := by
    rw [hform, lt_div_iff₀ hsum]
    nlinarith
  have hhigh : expected_score 1565 1500 < 0.5926 := by
    rw [hform, div_lt_iff₀ hsum]
    nlinarith
  refine ⟨hlow, hhigh, ?_⟩
  rw [abs_lt]
  constructor <;> nlinarith

/-- The single final, non-neutral event of the C4 scenario: home 70, away 65,
both teams unseen before. -/
def c4Payload : Payload := ⟨some [⟨some "401", none, some "STATUS_FINAL", some
  [⟨none, some [⟨some "home", some ⟨some "H", some "Homers", none⟩, some "70"⟩,
                ⟨some "away", some ⟨some "A", some "Awayers", none⟩, some "65"⟩]⟩]⟩]⟩

/-- The game row the scenario payload produces. -/
def c4Game : Game :=
  ⟨1, "espn", "401", none, "unknown", 1, 2, some 70, some 65, "final", false, false⟩

/-- The store after ingesting the scenario payload into an empty store. -/
def c4DB1 : DB := ⟨[⟨1, "Homers", "espn", "H"⟩, ⟨2, "Awayers", "espn", "A"⟩],
  [c4Game], [], 3, 2⟩

/-- The freshly created baseline rating row of the home team. -/
noncomputable def c4Home : TeamRating := ⟨1, "2025-26", DEFAULT_ELO, 0⟩

/-- The freshly created baseline rating row of the away team. -/
noncomputable def c4Away : TeamRating := ⟨2, "2025-26", DEFAULT_ELO, 0⟩

lemma c4_row_home : eloStepRow c4Game "2025-26" c4Home c4Away 70 65 c4Home =
    ⟨1, "2025-26", 1500 + 25 * (1 - expected_score 1565 1500), 1⟩ := by
  unfold eloStepRow sHome game_home_adj c4Home c4Away c4Game
  norm_num [DEFAULT_ELO, HOME_ADVANTAGE_ELO, k_factor, K_BASE]

lemma c4_row_away : eloStepRow c4Game "2025-26" c4Home c4Away 70 65 c4Away =
    ⟨2, "2025-26", 1500 + 25 * (0 - (1 - expected_score 1565 1500)), 1⟩ := by
  unfold eloStepRow sHome game_home_adj c4Home c4Away c4Game
  norm_num [DEFAULT_ELO, HOME_ADVANTAGE_ELO, k_factor, K_BASE]

/-- C4: the end-to-end scenario. Ingesting the one-event payload into an empty
store yields exactly the two teams and the final unrated game; applying ratings
finds 1 game and applies 1; the home rating becomes 1500 + 25(1 - e) and the away
rating 1500 + 25(0 - (1 - e)) with e the expectancy of 1565 against 1500, e is
within a thousandth of 0.593, both rows reach games_played 1, the new ratings are
within 0.02 of 1510.2 and 1489.8, the game is marked applied, and a second
rating-application run finds 0 further games. -/
theorem c4_end_to_end_scenario :
    ingest_scoreboard_json ⟨[], [], [], 1, 1⟩ c4Payload = .ok (c4DB1, ⟨1, 2, 1⟩) ∧
    (k_factor 0 : ℚ) = 25 ∧
    |expected_score 1565 1500 - 0.593| < 0.001 ∧
    ∃ db2 : DB, apply_elo_to_final_games c4DB1 "2025-26" = .ok (db2, ⟨1, 1⟩) ∧
      db2.games = [{ c4Game with elo_applied := true }] ∧
      db2.ratings[0]? = some ⟨1, "2025-26",
        1500 + 25 * (1 - expected_score 1565 1500), 1⟩ ∧
      db2.ratings[1]? = some ⟨2, "2025-26",
        1500 + 25 * (0 - (1 - expected_score 1565 1500)), 1⟩ ∧
      db2.ratings.length = 2 ∧
      |(1500 + 25 * (1 - expected_score 1565 1500)) - 1510.2| < 0.02 ∧
      |(1500 + 25 * (0 - (1 - expected_score 1565 1500))) - 1489.8| < 0.02 ∧
      apply_elo_to_final_games db2 "2025-26" = .ok (db2, ⟨0, 0⟩) := by
  obtain ⟨hbl, hbh, habs⟩ := expected_home_bounds
  have h1 : get_or_create_rating c4DB1 1 "2025-26" =
      .ok (c4Home, { c4DB1 with ratings := [c4Home] }) := by rfl
  have h2 : get_or_create_rating { c4DB1 with ratings := [c4Home] } 2 "2025-26" =
      .ok (c4Away, { c4DB1 with ratings := [c4Home, c4Away] }) := by rfl
  have hstep := applyGameStep_spec (show c4Game.home_score = some 70 from rfl)
    (show c4Game.away_score = some 65 from rfl) h1 h2 (by decide)
  have hfin : finalUnratedGames c4DB1 = [c4Game] := by rfl
  have happly : apply_elo_to_final_games c4DB1 "2025-26" = .ok
      ({ teams := c4DB1.teams,
         games := [c4Game].map fun x =>
           (if x.id == c4Game.id then { x with elo_applied := true } else x),
         ratings := [c4Home, c4Away].map
           (eloStepRow c4Game "2025-26" c4Home c4Away 70 65),
         nextTeamId := c4DB1.nextTeamId, nextGameId := c4DB1.nextGameId },
        ⟨1, 1⟩) := by
    simp only [apply_elo_to_final_games, hfin]
    unfold applyGames
    rw [hstep]
    unfold applyGames
    rfl
  have hgames : ([c4Game].map fun x =>
      (if x.id == c4Game.id then { x with elo_applied := true } else x)) =
      [{ c4Game with elo_applied := true }] := by
    simp
  refine ⟨by rfl, by norm_num [k_factor, K_BASE], habs, _, happly, ?_, ?_, ?_, ?_,
    ?_, ?_, ?_⟩
  · exact hgames
  · simp only [List.map_cons, List.map_nil, List.getElem?_cons_zero,
      Option.some.injEq]
    exact c4_row_home
  · simp only [List.map_cons, List.map_nil, List.getElem?_cons_succ,
      List.getElem?_cons_zero, Option.some.injEq]
    exact c4_row_away
  · simp
  · rw [abs_lt]; constructor <;> nlinarith
  · rw [abs_lt]; constructor <;> nlinarith
  · have hfin2 : finalUnratedGames
        { teams := c4DB1.teams,
          games := [c4Game].map fun x =>
            (if x.id == c4Game.id then { x with elo_applied := true } else x),
          ratings := [c4Home, c4Away].map
            (eloStepRow c4Game "2025-26" c4Home c4Away 70 65),
          nextTeamId := c4DB1.nextTeamId, nextGameId := c4DB1.nextGameId } = [] := by
      simp only [finalUnratedGames, hgames]
      rfl
    simp only [apply_elo_to_final_games, hfin2]
    unfold applyGames
    rfl

/-! ### C3: infrastructure.  The two ingestion passes are compared through a
simulation relation: the second-pass store holds the same rows as the first-pass
store will finish with, aligned position by position, where rows whose key the
remaining events still touch may temporarily disagree in their mutable fields,
and the rows the first pass has not created yet sit at the tail of the
second-pass store with exactly the keys and consecutive ids the first pass is
about to assign. -/

lemma forall2_split_left {α β : Type _} {R : α → β → Prop} :
    ∀ {l₁ l₂ : List α} {m : List β}, List.Forall₂ R (l₁ ++ l₂) m →
    ∃ m₁ m₂, m = m₁ ++ m₂ ∧ List.Forall₂ R l₁ m₁ ∧ List.Forall₂ R l₂ m₂ := by
  intro l₁
  induction l₁ with
  | nil => intro l₂ m h; exact ⟨[], m, rfl, List.Forall₂.nil, h⟩
  | cons a t ih =>
    intro l₂ m h
    cases h with
    | cons hab ht =>
      rcases ih ht with ⟨m₁, m₂, rfl, h₁, h₂⟩
      exact ⟨_ :: m₁, m₂, rfl, List.Forall₂.cons hab h₁, h₂⟩

lemma forall2_comp {α β γ : Type _} {R : α → β → Prop} {S : β → γ → Prop} :
    ∀ {l₁ : List α} {l₂ : List β} {l₃ : List γ}, List.Forall₂ R l₁ l₂ →
    List.Forall₂ S l₂ l₃ →
    List.Forall₂ (fun a c => ∃ b, R a b ∧ S b c) l₁ l₃ := by
  intro l₁
  induction l₁ with
  | nil =>
    intro l₂ l₃ h1 h2
    cases h1; cases h2; exact List.Forall₂.nil
  | cons a t ih =>
    intro l₂ l₃ h1 h2
    cases h1 with
    | cons hab h1t =>
      cases h2 with
      | cons hbc h2t =>
        exact List.Forall₂.cons ⟨_, hab, hbc⟩ (ih h1t h2t)

lemma forall2_filter {α β : Type _} {R : α → β → Prop} {p : α → Bool} {q : β → Bool}
    (hp : ∀ a b, R a b → p a = q b) :
    ∀ {l₁ : List α} {l₂ : List β}, List.Forall₂ R l₁ l₂ →
    List.Forall₂ R (l₁.filter p) (l₂.filter q) := by
  intro l₁
  induction l₁ with
  | nil => intro l₂ h; cases h; simp
  | cons a t ih =>
    intro l₂ h
    cases h with
    | cons hab ht =>
      by_cases hpa : p a = true
      · rw [List.filter_cons_of_pos hpa,
          List.filter_cons_of_pos (by rw [← hp _ _ hab]; exact hpa)]
        exact List.Forall₂.cons hab (ih ht)
      · rw [List.filter_cons_of_neg hpa,
          List.filter_cons_of_neg (by rw [← hp _ _ hab]; exact hpa)]
        exact ih ht

lemma forall2_map_eq {α β γ : Type _} {R : α → β → Prop} {f : α → γ} {g : β → γ}
    (hfg : ∀ a b, R a b → f a = g b) :
    ∀ {l₁ : List α} {l₂ : List β}, List.Forall₂ R l₁ l₂ →
    l₁.map f = l₂.map g := by
  intro l₁
  induction l₁ with
  | nil => intro l₂ h; cases h; rfl
  | cons a t ih =>
    intro l₂ h
    cases h with
    | cons hab ht => simp only [List.map_cons, hfg _ _ hab, ih ht]

lemma range'_split (a m n : Nat) :
    List.range' a (m + n) = List.range' a m ++ List.range' (a + m) n := by
  induction m generalizing a with
  | zero => simp [List.range']
  | succ k ih =>
    rw [show k + 1 + n = (k + n) + 1 by omega]
    rw [List.range'_succ, List.range'_succ, ih (a + 1)]
    simp only [List.cons_append, List.append_assoc]
    rw [show a + 1 + k = a + (k + 1) by omega]

lemma scalarOneOrNone_error {α : Type _} {l : List α}
    (h : scalarOneOrNone l = .error ()) : 2 ≤ l.length := by
  cases l with
  | nil => cases h
  | cons a t =>
    cases t with
    | nil => cases h
    | cons b t2 => simp [List.length_cons]

lemma scalarOneOrNone_of_two {α : Type _} {l : List α} (h : 2 ≤ l.length) :
    scalarOneOrNone l = .error () := by
  cases l with
  | nil => simp at h
  | cons a t =>
    cases t with
    | nil => simp at h
    | cons b t2 => rfl

/-- The team keys one processed fact creates, in upsert order, relative to the
keys already present: the home key if new, then the away key if still new after
the home upsert. -/
def factTeamKeys (ex : List (String × String)) (f : Fact) :
    List (String × String) :=
  if ("espn", f.htid) ∈ ex then
    (if ("espn", f.atid) ∈ ex then [] else [("espn", f.atid)])
  else
    (if ("espn", f.atid) ∈ ex ∨ f.atid = f.htid then [("espn", f.htid)]
     else [("espn", f.htid), ("espn", f.atid)])

/-- The team keys a list of events will create, in creation order, relative to
the keys already present. -/
def newTeamKeys (ex : List (String × String)) : List Event → List (String × String)
  | [] => []
  | ev :: evs =>
    match normalizeEvent ev with
    | .ok (some f) => factTeamKeys ex f ++ newTeamKeys (ex ++ factTeamKeys ex f) evs
    | _ => newTeamKeys ex evs

/-- The game keys a list of events will create, in creation order. -/
def newGameKeys (ex : List (String × String)) : List Event → List (String × String)
  | [] => []
  | ev :: evs =>
    match normalizeEvent ev with
    | .ok (some f) =>
      if ("espn", f.gid) ∈ ex then newGameKeys ex evs
      else ("espn", f.gid) :: newGameKeys (ex ++ [("espn", f.gid)]) evs
    | _ => newGameKeys ex evs

/-- The team keys one event touches (writes a name to), when processed. -/
def eventTeamKeys (ev : Event) : List (String × String) :=
  match normalizeEvent ev with
  | .ok (some f) => [("espn", f.htid), ("espn", f.atid)]
  | _ => []

/-- The game keys one event touches, when processed. -/
def eventGameKeys (ev : Event) : List (String × String) :=
  match normalizeEvent ev with
  | .ok (some f) => [("espn", f.gid)]
  | _ => []

/-- All team keys a list of events touches. -/
def touchedTeamKeys (evs : List Event) : List (String × String) :=
  evs.flatMap eventTeamKeys

/-- All game keys a list of events touches. -/
def touchedGameKeys (evs : List Event) : List (String × String) :=
  evs.flatMap eventGameKeys

/-- Row alignment for team rows between the two passes: identity and surrogate id
always agree; rows whose key no remaining event touches agree entirely. -/
def teamRel (T : List (String × String)) (a b : Team) : Prop :=
  a.id = b.id ∧ a.provider = b.provider ∧
  a.provider_team_id = b.provider_team_id ∧ (teamKey a ∉ T → a = b)

/-- Row alignment for game rows between the two passes: identity, surrogate id
and the elo_applied flag always agree; untouched rows agree entirely. -/
def gameRel (G : List (String × String)) (a b : Game) : Prop :=
  a.id = b.id ∧ a.provider = b.provider ∧ a.provider_game_id = b.provider_game_id ∧
  a.elo_applied = b.elo_applied ∧ (gameKey a ∉ G → a = b)

lemma teamRel_refl (T : List (String × String)) (a : Team) : teamRel T a a :=
  ⟨rfl, rfl, rfl, fun _ => rfl⟩

lemma gameRel_refl (G : List (String × String)) (a : Game) : gameRel G a a :=
  ⟨rfl, rfl, rfl, rfl, fun _ => rfl⟩

/-- The simulation between a store s the first pass still has to run over and the
store t the second pass starts from. -/
def DBSim (evs : List Event) (s t : DB) : Prop :=
  (∃ core extra, t.teams = core ++ extra ∧
    List.Forall₂ (teamRel (touchedTeamKeys evs)) s.teams core ∧
    extra.map teamKey = newTeamKeys (s.teams.map teamKey) evs ∧
    extra.map Team.id = List.range' s.nextTeamId extra.length ∧
    t.nextTeamId = s.nextTeamId + extra.length) ∧
  (∃ coreG extraG, t.games = coreG ++ extraG ∧
    List.Forall₂ (gameRel (touchedGameKeys evs)) s.games coreG ∧
    extraG.map gameKey = newGameKeys (s.games.map gameKey) evs ∧
    extraG.map Game.id = List.range' s.nextGameId extraG.length ∧
    (∀ x ∈ extraG, x.elo_applied = false) ∧
    t.nextGameId = s.nextGameId + extraG.length) ∧
  t.ratings = s.ratings

/-- Keys produced by factTeamKeys are absent from the existing keys. -/
lemma factTeamKeys_fresh {ex : List (String × String)} {f : Fact} :
    ∀ k ∈ factTeamKeys ex f, k ∉ ex := by
  intro k hk
  unfold factTeamKeys at hk
  by_cases h1 : ("espn", f.htid) ∈ ex
  · rw [if_pos h1] at hk
    by_cases h2 : ("espn", f.atid) ∈ ex
    · rw [if_pos h2] at hk; cases hk
    · rw [if_neg h2] at hk
      simp only [List.mem_singleton] at hk
      subst hk; exact h2
  · rw [if_neg h1] at hk
    by_cases h2 : ("espn", f.atid) ∈ ex ∨ f.atid = f.htid
    · rw [if_pos h2] at hk
      simp only [List.mem_singleton] at hk
      subst hk; exact h1
    · rw [if_neg h2] at hk
      simp only [List.mem_cons, List.mem_singleton, List.not_mem_nil,
        or_false] at hk
      rcases hk with hk | hk
      · subst hk; exact h1
      · subst hk
        intro hmem
        exact h2 (Or.inl hmem)

/-- Keys produced by newTeamKeys are absent from the existing keys. -/
lemma newTeamKeys_fresh : ∀ (evs : List Event) {ex : List (String × String)},
    ∀ k ∈ newTeamKeys ex evs, k ∉ ex := by
  intro evs
  induction evs with
  | nil => intro ex k hk; cases hk
  | cons ev rest ih =>
    intro ex k hk
    unfold newTeamKeys at hk
    cases hn : normalizeEvent ev with
    | error e => rw [hn] at hk; exact ih k hk
    | ok o =>
      rw [hn] at hk
      cases o with
      | none => exact ih k hk
      | some f =>
        simp only [List.mem_append] at hk
        rcases hk with hk | hk
        · exact factTeamKeys_fresh k hk
        · intro hmem
          exact ih k hk (List.mem_append_left _ hmem)

/-- Keys produced by newGameKeys are absent from the existing keys. -/
lemma newGameKeys_fresh : ∀ (evs : List Event) {ex : List (String × String)},
    ∀ k ∈ newGameKeys ex evs, k ∉ ex := by
  intro evs
  induction evs with
  | nil => intro ex k hk; cases hk
  | cons ev rest ih =>
    intro ex k hk
    unfold newGameKeys at hk
    cases hn : normalizeEvent ev with
    | error e => rw [hn] at hk; exact ih k hk
    | ok o =>
      rw [hn] at hk
      cases o with
      | none => exact ih k hk
      | some f =>
        simp only at hk
        by_cases hg : ("espn", f.gid) ∈ ex
        · rw [if_pos hg] at hk; exact ih k hk
        · rw [if_neg hg] at hk
          simp only [List.mem_cons] at hk
          rcases hk with hk | hk
          · subst hk; exact hg
          · intro hmem
            exact ih k hk (List.mem_append_left _ hmem)

lemma forall2_map_rel {α β : Type _} {R : α → β → Prop} {f : α → α} {g : β → β}
    (hfg : ∀ a b, R a b → R (f a) (g b)) :
    ∀ {l₁ : List α} {l₂ : List β}, List.Forall₂ R l₁ l₂ →
    List.Forall₂ R (l₁.map f) (l₂.map g) := by
  intro l₁
  induction l₁ with
  | nil => intro l₂ h; cases h; exact List.Forall₂.nil
  | cons a t ih =>
    intro l₂ h
    cases h with
    | cons hab ht => exact List.Forall₂.cons (hfg _ _ hab) (ih ht)

lemma teamP_iff {prov tid : String} {x : Team} :
    (x.provider == prov && x.provider_team_id == tid) = true ↔
    teamKey x = (prov, tid) := by
  simp [teamKey, Prod.ext_iff]

lemma teamKey_mem_iff {prov tid : String} {l : List Team} :
    (prov, tid) ∈ l.map teamKey ↔
    ∃ x ∈ l, (x.provider == prov && x.provider_team_id == tid) = true := by
  simp only [List.mem_map]
  constructor
  · rintro ⟨x, hx, hk⟩
    exact ⟨x, hx, teamP_iff.mpr hk⟩
  · rintro ⟨x, hx, hk⟩
    exact ⟨x, hx, teamP_iff.mp hk⟩

lemma teamFilter_nil_iff {prov tid : String} {l : List Team} :
    l.filter (fun x => x.provider == prov && x.provider_team_id == tid) = [] ↔
    (prov, tid) ∉ l.map teamKey := by
  rw [List.filter_eq_nil_iff, teamKey_mem_iff]
  push_neg
  constructor
  · intro h x hx
    exact fun hc => h x hx hc
  · intro h x hx
    exact fun hc => h x hx hc

lemma forall2_append {α β : Type _} {R : α → β → Prop} :
    ∀ {l₁ : List α} {l₂ : List β} {l₃ : List α} {l₄ : List β},
    List.Forall₂ R l₁ l₂ → List.Forall₂ R l₃ l₄ →
    List.Forall₂ R (l₁ ++ l₃) (l₂ ++ l₄) := by
  intro l₁
  induction l₁ with
  | nil => intro l₂ l₃ l₄ h1 h2; cases h1; simpa using h2
  | cons a t ih =>
    intro l₂ l₃ l₄ h1 h2
    cases h1 with
    | cons hab ht => exact List.Forall₂.cons hab (ih ht h2)

/-- A team upsert that finds row x returns x renamed (a no-op write when the name
already matches) and rewrites the teams table pointwise at the key. -/
lemma upsert_team_found {db : DB} {prov tid : String} (nm : String) {x : Team}
    (hs : scalarOneOrNone (db.teams.filter fun y =>
      y.provider == prov && y.provider_team_id == tid) = .ok (some x)) :
    ∃ db2, upsert_team db prov tid nm = .ok ({ x with name := nm }, db2) ∧
      db2.teams = db.teams.map (fun y =>
        (if y.provider == prov && y.provider_team_id == tid
          then { y with name := nm } else y)) ∧
      db2.games = db.games ∧ db2.ratings = db.ratings ∧
      db2.nextTeamId = db.nextTeamId ∧ db2.nextGameId = db.nextGameId := by
  have hfil := scalarOneOrNone_ok_some hs
  by_cases hnm : x.name ≠ nm
  · refine ⟨{ db with teams := db.teams.map (fun y =>
        (if y.provider == prov && y.provider_team_id == tid
          then { y with name := nm } else y)) }, ?_, rfl, rfl, rfl, rfl, rfl⟩
    simp only [upsert_team, hs]
    rw [if_pos hnm]
  · push_neg at hnm
    have hx : ({ x with name := nm } : Team) = x := by
      show Team.mk x.id nm x.provider x.provider_team_id = x
      rw [← hnm]
    have hmapid : db.teams.map (fun y =>
        (if y.provider == prov && y.provider_team_id == tid
          then { y with name := nm } else y)) = db.teams := by
      have hcong : ∀ y ∈ db.teams, (if y.provider == prov && y.provider_team_id == tid
          then { y with name := nm } else y) = y := by
        intro y hy
        by_cases hp : (y.provider == prov && y.provider_team_id == tid) = true
        · rw [if_pos hp]
          have hmem : y ∈ db.teams.filter (fun z =>
              z.provider == prov && z.provider_team_id == tid) :=
            List.mem_filter.mpr ⟨hy, hp⟩
          rw [hfil] at hmem
          have hyx := List.mem_singleton.mp hmem
          subst hyx
          exact hx
        · rw [if_neg hp]
      calc db.teams.map (fun y =>
          (if y.provider == prov && y.provider_team_id == tid
            then { y with name := nm } else y))
          = db.teams.map (fun y => y) := List.map_congr_left hcong
        _ = db.teams := List.map_id' db.teams
    refine ⟨db, ?_, hmapid.symm, rfl, rfl, rfl, rfl⟩
    simp only [upsert_team, hs]
    rw [if_neg (by simpa using hnm), hx]

/-- Synchronized team upsert: with the simulation aligned at a touched key whose
pending creations avoid both this key and the first-pass keys, the two passes
either both raise or both return the same team object, and the alignment moves
forward with this key consumed from the pending list when it was fresh. -/
lemma forall2_map_rel2 {α β : Type _} {R S : α → β → Prop} {f : α → α} {g : β → β}
    (hfg : ∀ a b, R a b → S (f a) (g b)) :
    ∀ {l₁ : List α} {l₂ : List β}, List.Forall₂ R l₁ l₂ →
    List.Forall₂ S (l₁.map f) (l₂.map g) := by
  intro l₁
  induction l₁ with
  | nil =>
    intro l₂ h
    cases h
    exact List.Forall₂.nil
  | cons a tl ih =>
    intro l₂ h
    cases h with
    | cons hab ht => exact List.Forall₂.cons (hfg _ _ hab) (ih ht)

lemma forall2_imp_mem {α β : Type _} {R S : α → β → Prop} :
    ∀ {l₁ : List α} {l₂ : List β}, (∀ a b, a ∈ l₁ → R a b → S a b) →
    List.Forall₂ R l₁ l₂ → List.Forall₂ S l₁ l₂ := by
  intro l₁
  induction l₁ with
  | nil =>
    intro l₂ h hf
    cases hf
    exact List.Forall₂.nil
  | cons a tl ih =>
    intro l₂ h hf
    cases hf with
    | cons hab ht =>
      exact List.Forall₂.cons (h _ _ (List.mem_cons_self a tl) hab)
        (ih (fun x y hx => h x y (List.mem_cons_of_mem a hx)) ht)

lemma upsert_team_sim {T T' : List (String × String)} {s t : DB}
    {core extra : List Team} {pend : List (String × String)}
    {prov tid : String} (nm : String)
    (hT' : ∀ k ∈ T, k = (prov, tid) ∨ k ∈ T')
    (hteams : t.teams = core ++ extra)
    (hrel : List.Forall₂ (teamRel T) s.teams core)
    (hpend : extra.map teamKey =
      (if (prov, tid) ∈ s.teams.map teamKey then [] else [(prov, tid)]) ++ pend)
    (hids : extra.map Team.id = List.range' s.nextTeamId extra.length)
    (hnext : t.nextTeamId = s.nextTeamId + extra.length)
    (hfresh : ∀ k ∈ pend, k ∉ s.teams.map teamKey ∧ k ≠ (prov, tid)) :
    (upsert_team s prov tid nm = .error () ∧
      upsert_team t prov tid nm = .error ()) ∨
    (∃ tm s2 t2 core2 extra2,
      upsert_team s prov tid nm = .ok (tm, s2) ∧
      upsert_team t prov tid nm = .ok (tm, t2) ∧
      t2.teams = core2 ++ extra2 ∧
      List.Forall₂ (teamRel T') s2.teams core2 ∧
      extra2.map teamKey = pend ∧
      extra2.map Team.id = List.range' s2.nextTeamId extra2.length ∧
      t2.nextTeamId = s2.nextTeamId + extra2.length ∧
      s2.teams.map teamKey = s.teams.map teamKey ++
        (if (prov, tid) ∈ s.teams.map teamKey then [] else [(prov, tid)]) ∧
      s2.games = s.games ∧ t2.games = t.games ∧
      s2.ratings = s.ratings ∧ t2.ratings = t.ratings ∧
      s2.nextGameId = s.nextGameId ∧ t2.nextGameId = t.nextGameId) := by
  have hPc : ∀ a b, teamRel T a b →
      (a.provider == prov && a.provider_team_id == tid) =
      (b.provider == prov && b.provider_team_id == tid) := by
    intro a b hab
    rw [hab.2.1, hab.2.2.1]
  have hfilters := forall2_filter hPc hrel
  cases hs : scalarOneOrNone (s.teams.filter fun x =>
      x.provider == prov && x.provider_team_id == tid) with
  | error e =>
    cases e
    left
    have hlen := scalarOneOrNone_error hs
    have htlen : 2 ≤ (t.teams.filter fun x =>
        x.provider == prov && x.provider_team_id == tid).length := by
      rw [hteams, List.filter_append, List.length_append]
      have := hfilters.length_eq
      omega
    constructor
    · simp only [upsert_team, hs]
    · simp only [upsert_team, scalarOneOrNone_of_two htlen]
  | ok o =>
    right
    cases o with
    | none =>
      have hempty := scalarOneOrNone_ok_none hs
      have hnomem : (prov, tid) ∉ s.teams.map teamKey := teamFilter_nil_iff.mp hempty
      rw [if_neg hnomem] at hpend
      cases extra with
      | nil => simp at hpend
      | cons eh etail =>
        simp only [List.map_cons, List.cons_append, List.nil_append,
          List.cons.injEq] at hpend
        obtain ⟨hehkey, htailkeys⟩ := hpend
        simp only [List.map_cons, List.length_cons] at hids
        rw [show List.range' s.nextTeamId (etail.length + 1) =
          s.nextTeamId :: List.range' (s.nextTeamId + 1) etail.length from
          List.range'_succ s.nextTeamId etail.length 1 ▸ rfl] at hids
        simp only [List.cons.injEq] at hids
        obtain ⟨hehid, htailids⟩ := hids
        have hcoreEmpty : (core.filter fun x =>
            x.provider == prov && x.provider_team_id == tid) = [] := by
          have hle := hfilters.length_eq
          rw [hempty, List.length_nil] at hle
          exact List.length_eq_zero.mp hle.symm
        have hcoreP : ∀ x ∈ core,
            (x.provider == prov && x.provider_team_id == tid) = false := by
          intro x hx
          have := List.filter_eq_nil_iff.mp hcoreEmpty x hx
          simpa using this
        have htailP : ∀ x ∈ etail,
            (x.provider == prov && x.provider_team_id == tid) = false := by
          intro x hx
          by_contra hc
          have hPx : (x.provider == prov && x.provider_team_id == tid) = true := by
            simpa using hc
          have hkx : teamKey x = (prov, tid) := teamP_iff.mp hPx
          have hmem : teamKey x ∈ pend := by
            rw [← htailkeys]
            exact List.mem_map_of_mem teamKey hx
          exact (hfresh _ hmem).2 hkx
        have hehP : (eh.provider == prov && eh.provider_team_id == tid) = true :=
          teamP_iff.mpr hehkey
        have htailFilter : (etail.filter fun x =>
            x.provider == prov && x.provider_team_id == tid) = [] :=
          List.filter_eq_nil_iff.mpr (by intro x hx; simp [htailP x hx])
        have htfilter : (t.teams.filter fun x =>
            x.provider == prov && x.provider_team_id == tid) = [eh] := by
          rw [hteams, List.filter_append, hcoreEmpty, List.nil_append,
            List.filter_cons, htailFilter]
          simp [hehP]
        have htscalar : scalarOneOrNone (t.teams.filter fun x =>
            x.provider == prov && x.provider_team_id == tid) = .ok (some eh) := by
          rw [htfilter]
          rfl
        obtain ⟨t2, ht2eq, ht2teams, ht2games, ht2rat, ht2next, ht2nextG⟩ :=
          upsert_team_found nm htscalar
        have hk := hehkey
        simp only [teamKey, Prod.mk.injEq] at hk
        have heh2 : ({ eh with name := nm } : Team) =
            ⟨s.nextTeamId, nm, prov, tid⟩ := by
          show Team.mk eh.id nm eh.provider eh.provider_team_id =
            ⟨s.nextTeamId, nm, prov, tid⟩
          rw [Team.mk.injEq]
          exact ⟨hehid, rfl, hk.1, hk.2⟩
        have hcoreMap : core.map (fun y =>
            (if y.provider == prov && y.provider_team_id == tid
              then { y with name := nm } else y)) = core := by
          calc core.map _ = core.map (fun y => y) :=
              List.map_congr_left (by intro y hy; rw [if_neg (by simp [hcoreP y hy])])
            _ = core := List.map_id' core
        have htailMap : etail.map (fun y =>
            (if y.provider == prov && y.provider_team_id == tid
              then { y with name := nm } else y)) = etail := by
          calc etail.map _ = etail.map (fun y => y) :=
              List.map_congr_left (by intro y hy; rw [if_neg (by simp [htailP y hy])])
            _ = etail := List.map_id' etail
        refine ⟨⟨s.nextTeamId, nm, prov, tid⟩,
          DB.mk (s.teams ++ [⟨s.nextTeamId, nm, prov, tid⟩]) s.games s.ratings
            (s.nextTeamId + 1) s.nextGameId,
          t2, core ++ [⟨s.nextTeamId, nm, prov, tid⟩], etail,
          ?_, ?_, ?_, ?_, htailkeys, ?_, ?_, ?_, rfl, ht2games, rfl, ht2rat,
          rfl, ht2nextG⟩
        · simp only [upsert_team, hs]
        · rw [ht2eq, heh2]
        · rw [ht2teams, hteams]
          simp only [List.map_append, List.map_cons, hcoreMap, htailMap, hehP,
            eq_self_iff_true, if_true, heh2]
          simp [List.append_assoc]
        · have hrelw : List.Forall₂ (teamRel T') s.teams core := by
            apply forall2_imp_mem ?_ hrel
            intro a b ha hab
            refine ⟨hab.1, hab.2.1, hab.2.2.1, ?_⟩
            intro hnot
            apply hab.2.2.2
            intro hmemT
            rcases hT' _ hmemT with hk | hk
            · exact absurd (hk ▸ List.mem_map_of_mem teamKey ha) hnomem
            · exact hnot hk
          exact forall2_append hrelw
            (List.Forall₂.cons (teamRel_refl T' _) List.Forall₂.nil)
        · simpa using htailids
        · rw [ht2next, hnext]
          show s.nextTeamId + (eh :: etail).length = s.nextTeamId + 1 + etail.length
          simp only [List.length_cons]
          omega
        · rw [if_neg hnomem]
          show (s.teams ++ [(⟨s.nextTeamId, nm, prov, tid⟩ : Team)]).map teamKey =
            s.teams.map teamKey ++ [(prov, tid)]
          rw [List.map_append]
          rfl
    | some a =>
      have hsing := scalarOneOrNone_ok_some hs
      have hamem : a ∈ s.teams.filter fun x =>
          x.provider == prov && x.provider_team_id == tid := by
        rw [hsing]; exact List.mem_singleton_self a
      have haP := List.of_mem_filter hamem
      have hkeymem : (prov, tid) ∈ s.teams.map teamKey := by
        rw [teamKey_mem_iff]
        exact ⟨a, List.mem_of_mem_filter hamem, haP⟩
      rw [if_pos hkeymem] at hpend
      simp only [List.nil_append] at hpend
      have hcoreFil : List.Forall₂ (teamRel T) [a] (core.filter fun x =>
          x.provider == prov && x.provider_team_id == tid) := by
        rw [← hsing]
        exact hfilters
      cases hcf : core.filter (fun x =>
          x.provider == prov && x.provider_team_id == tid) with
      | nil => rw [hcf] at hcoreFil; cases hcoreFil
      | cons b rest =>
        rw [hcf] at hcoreFil
        cases hcoreFil with
        | cons hab hrest =>
          cases hrest
          have hextraFilter : (extra.filter fun x =>
              x.provider == prov && x.provider_team_id == tid) = [] := by
            apply List.filter_eq_nil_iff.mpr
            intro x hx
            intro hPx
            have hkx : teamKey x = (prov, tid) := teamP_iff.mp (by simpa using hPx)
            have hmem : teamKey x ∈ pend := by
              rw [← hpend]
              exact List.mem_map_of_mem teamKey hx
            exact (hfresh _ hmem).2 hkx
          have htfilter : (t.teams.filter fun x =>
              x.provider == prov && x.provider_team_id == tid) = [b] := by
            rw [hteams, List.filter_append, hcf, hextraFilter]
            rfl
          have htscalar : scalarOneOrNone (t.teams.filter fun x =>
              x.provider == prov && x.provider_team_id == tid) = .ok (some b) := by
            rw [htfilter]; rfl
          obtain ⟨s2, hs2eq, hs2teams, hs2games, hs2rat, hs2next, hs2nextG⟩ :=
            upsert_team_found nm hs
          obtain ⟨t2, ht2eq, ht2teams, ht2games, ht2rat, ht2next, ht2nextG⟩ :=
            upsert_team_found nm htscalar
          have htm : ({ a with name := nm } : Team) = { b with name := nm } := by
            obtain ⟨h1, h2, h3, _⟩ := hab
            show Team.mk a.id nm a.provider a.provider_team_id =
              Team.mk b.id nm b.provider b.provider_team_id
            rw [Team.mk.injEq]
            exact ⟨h1, rfl, h2, h3⟩
          have hmapRel : List.Forall₂ (teamRel T')
              (s.teams.map (fun y =>
                (if y.provider == prov && y.provider_team_id == tid
                  then { y with name := nm } else y)))
              (core.map (fun y =>
                (if y.provider == prov && y.provider_team_id == tid
                  then { y with name := nm } else y))) := by
            apply forall2_map_rel2 ?_ hrel
            intro x y hxy
            by_cases hp : (x.provider == prov && x.provider_team_id == tid) = true
            · rw [if_pos hp, if_pos (by rw [← hPc x y hxy]; exact hp)]
              have he : ({ x with name := nm } : Team) = { y with name := nm } := by
                show Team.mk x.id nm x.provider x.provider_team_id =
                  Team.mk y.id nm y.provider y.provider_team_id
                rw [Team.mk.injEq]
                exact ⟨hxy.1, rfl, hxy.2.1, hxy.2.2.1⟩
              rw [he]
              exact teamRel_refl T' _
            · rw [if_neg hp, if_neg (by rw [← hPc x y hxy]; exact hp)]
              refine ⟨hxy.1, hxy.2.1, hxy.2.2.1, ?_⟩
              intro hnot
              apply hxy.2.2.2
              intro hmemT
              rcases hT' _ hmemT with hk | hk
              · exact absurd (teamP_iff.mpr hk) hp
              · exact hnot hk
          have hextraMap : extra.map (fun y =>
              (if y.provider == prov && y.provider_team_id == tid
                then { y with name := nm } else y)) = extra := by
            calc extra.map _ = extra.map (fun y => y) := by
                  apply List.map_congr_left
                  intro y hy
                  rw [if_neg]
                  have := List.filter_eq_nil_iff.mp hextraFilter y hy
                  simpa using this
              _ = extra := List.map_id' extra
          refine ⟨{ a with name := nm }, s2, t2,
            core.map (fun y =>
              (if y.provider == prov && y.provider_team_id == tid
                then { y with name := nm } else y)), extra,
            hs2eq, ?_, ?_, ?_, hpend, ?_, ?_, ?_,
            hs2games, ht2games, hs2rat, ht2rat, hs2nextG, ht2nextG⟩
          · rw [ht2eq, htm]
          · rw [ht2teams, hteams, List.map_append, hextraMap]
          · rw [hs2teams]
            exact hmapRel
          · rw [hs2next]
            exact hids
          · rw [ht2next, hs2next, hnext]
          · rw [if_pos hkeymem, List.append_nil, hs2teams, List.map_map]
            apply List.map_congr_left
            intro y hy
            simp only [Function.comp_apply]
            by_cases hp : (y.provider == prov && y.provider_team_id == tid) = true
            · rw [if_pos hp]
              rfl
            · rw [if_neg hp]

/-- The update written to every matched game row by the update branch of
upsert_game: all mutable fields overwritten, elo_applied kept. -/
def updGame (stt : Option Int) (dk : String) (hid aid : Nat)
    (hsc asc : Option Int) (st : String) (neu : Bool) (x : Game) : Game :=
  { x with
    start_time_utc := stt
    date_key := dk
    home_team_id := hid
    away_team_id := aid
    home_score := hsc
    away_score := asc
    status := st
    neutral_site := neu }

lemma gameP_iff {prov gid : String} {x : Game} :
    (x.provider == prov && x.provider_game_id == gid) = true ↔
    gameKey x = (prov, gid) := by
  simp [gameKey, Prod.ext_iff]

lemma gameKey_mem_iff {prov gid : String} {l : List Game} :
    (prov, gid) ∈ l.map gameKey ↔
    ∃ x ∈ l, (x.provider == prov && x.provider_game_id == gid) = true := by
  simp only [List.mem_map]
  constructor
  · rintro ⟨x, hx, hk⟩
    exact ⟨x, hx, gameP_iff.mpr hk⟩
  · rintro ⟨x, hx, hk⟩
    exact ⟨x, hx, gameP_iff.mp hk⟩

lemma gameFilter_nil_iff {prov gid : String} {l : List Game} :
    l.filter (fun x => x.provider == prov && x.provider_game_id == gid) = [] ↔
    (prov, gid) ∉ l.map gameKey := by
  rw [List.filter_eq_nil_iff, gameKey_mem_iff]
  push_neg
  constructor
  · intro h x hx
    exact fun hc => h x hx hc
  · intro h x hx
    exact fun hc => h x hx hc

/-- A game upsert that finds row x always takes the update branch: it returns x
with every mutable field overwritten (elo_applied kept) and rewrites the games
table pointwise at the key. -/
lemma upsert_game_found {db : DB} {prov gid : String} (stt : Option Int)
    (dk : String) (htm atm : Team) (hsc asc : Option Int) (st : String)
    (neu : Bool) {x : Game}
    (hs : scalarOneOrNone (db.games.filter fun y =>
      y.provider == prov && y.provider_game_id == gid) = .ok (some x)) :
    upsert_game db prov gid stt dk htm atm hsc asc st neu =
      .ok (updGame stt dk htm.id atm.id hsc asc st neu x,
        { db with games := db.games.map (fun y =>
          (if y.provider == prov && y.provider_game_id == gid
            then updGame stt dk htm.id atm.id hsc asc st neu y else y)) }) := by
  simp only [upsert_game, hs, updGame]

/-- Synchronized game upsert: with the simulation aligned at a key whose pending
creations avoid both this key and the first-pass keys, the two passes either both
raise or both return the same game object, and the alignment moves forward with
this key consumed from the pending list when it was fresh. -/
lemma upsert_game_sim {G G' : List (String × String)} {s t : DB}
    {core extra : List Game} {pend : List (String × String)}
    {prov gid : String} (stt : Option Int) (dk : String) (htm atm : Team)
    (hsc asc : Option Int) (st : String) (neu : Bool)
    (hG' : ∀ k ∈ G, k = (prov, gid) ∨ k ∈ G')
    (hgames : t.games = core ++ extra)
    (hrel : List.Forall₂ (gameRel G) s.games core)
    (hpend : extra.map gameKey =
      (if (prov, gid) ∈ s.games.map gameKey then [] else [(prov, gid)]) ++ pend)
    (hids : extra.map Game.id = List.range' s.nextGameId extra.length)
    (hext : ∀ x ∈ extra, x.elo_applied = false)
    (hnext : t.nextGameId = s.nextGameId + extra.length)
    (hfresh : ∀ k ∈ pend, k ∉ s.games.map gameKey ∧ k ≠ (prov, gid)) :
    (upsert_game s prov gid stt dk htm atm hsc asc st neu = .error () ∧
      upsert_game t prov gid stt dk htm atm hsc asc st neu = .error ()) ∨
    (∃ gm s2 t2 core2 extra2,
      upsert_game s prov gid stt dk htm atm hsc asc st neu = .ok (gm, s2) ∧
      upsert_game t prov gid stt dk htm atm hsc asc st neu = .ok (gm, t2) ∧
      t2.games = core2 ++ extra2 ∧
      List.Forall₂ (gameRel G') s2.games core2 ∧
      extra2.map gameKey = pend ∧
      extra2.map Game.id = List.range' s2.nextGameId extra2.length ∧
      (∀ x ∈ extra2, x.elo_applied = false) ∧
      t2.nextGameId = s2.nextGameId + extra2.length ∧
      s2.games.map gameKey = s.games.map gameKey ++
        (if (prov, gid) ∈ s.games.map gameKey then [] else [(prov, gid)]) ∧
      s2.teams = s.teams ∧ t2.teams = t.teams ∧
      s2.ratings = s.ratings ∧ t2.ratings = t.ratings ∧
      s2.nextTeamId = s.nextTeamId ∧ t2.nextTeamId = t.nextTeamId) := by
  have hPc : ∀ a b, gameRel G a b →
      (a.provider == prov && a.provider_game_id == gid) =
      (b.provider == prov && b.provider_game_id == gid) := by
    intro a b hab
    rw [hab.2.1, hab.2.2.1]
  have hfilters := forall2_filter hPc hrel
  cases hs : scalarOneOrNone (s.games.filter fun x =>
      x.provider == prov && x.provider_game_id == gid) with
  | error e =>
    cases e
    left
    have hlen := scalarOneOrNone_error hs
    have htlen : 2 ≤ (t.games.filter fun x =>
        x.provider == prov && x.provider_game_id == gid).length := by
      rw [hgames, List.filter_append, List.length_append]
      have := hfilters.length_eq
      omega
    constructor
    · simp only [upsert_game, hs]
    · simp only [upsert_game, scalarOneOrNone_of_two htlen]
  | ok o =>
    right
    cases o with
    | none =>
      have hempty := scalarOneOrNone_ok_none hs
      have hnomem : (prov, gid) ∉ s.games.map gameKey := gameFilter_nil_iff.mp hempty
      rw [if_neg hnomem] at hpend
      cases extra with
      | nil => simp at hpend
      | cons eh etail =>
        simp only [List.map_cons, List.cons_append, List.nil_append,
          List.cons.injEq] at hpend
        obtain ⟨hehkey, htailkeys⟩ := hpend
        simp only [List.map_cons, List.length_cons] at hids
        rw [show List.range' s.nextGameId (etail.length + 1) =
          s.nextGameId :: List.range' (s.nextGameId + 1) etail.length from
          List.range'_succ s.nextGameId etail.length 1 ▸ rfl] at hids
        simp only [List.cons.injEq] at hids
        obtain ⟨hehid, htailids⟩ := hids
        have hcoreEmpty : (core.filter fun x =>
            x.provider == prov && x.provider_game_id == gid) = [] := by
          have hle := hfilters.length_eq
          rw [hempty, List.length_nil] at hle
          exact List.length_eq_zero.mp hle.symm
        have hcoreP : ∀ x ∈ core,
            (x.provider == prov && x.provider_game_id == gid) = false := by
          intro x hx
          have := List.filter_eq_nil_iff.mp hcoreEmpty x hx
          simpa using this
        have htailP : ∀ x ∈ etail,
            (x.provider == prov && x.provider_game_id == gid) = false := by
          intro x hx
          by_contra hc
          have hPx : (x.provider == prov && x.provider_game_id == gid) = true := by
            simpa using hc
          have hkx : gameKey x = (prov, gid) := gameP_iff.mp hPx
          have hmem : gameKey x ∈ pend := by
            rw [← htailkeys]
            exact List.mem_map_of_mem gameKey hx
          exact (hfresh _ hmem).2 hkx
        have hehP : (eh.provider == prov && eh.provider_game_id == gid) = true :=
          gameP_iff.mpr hehkey
        have htailFilter : (etail.filter fun x =>
            x.provider == prov && x.provider_game_id == gid) = [] :=
          List.filter_eq_nil_iff.mpr (by intro x hx; simp [htailP x hx])
        have htfilter : (t.games.filter fun x =>
            x.provider == prov && x.provider_game_id == gid) = [eh] := by
          rw [hgames, List.filter_append, hcoreEmpty, List.nil_append,
            List.filter_cons, htailFilter]
          simp [hehP]
        have htscalar : scalarOneOrNone (t.games.filter fun x =>
            x.provider == prov && x.provider_game_id == gid) = .ok (some eh) := by
          rw [htfilter]
          rfl
        have ht2eq := upsert_game_found stt dk htm atm hsc asc st neu htscalar
        have hk := hehkey
        simp only [gameKey, Prod.mk.injEq] at hk
        have hehelo : eh.elo_applied = false := hext eh (List.mem_cons_self eh etail)
        have heh2 : updGame stt dk htm.id atm.id hsc asc st neu eh =
            ⟨s.nextGameId, prov, gid, stt, dk, htm.id, atm.id, hsc, asc, st,
              neu, false⟩ := by
          show Game.mk eh.id eh.provider eh.provider_game_id stt dk htm.id
            atm.id hsc asc st neu eh.elo_applied =
            ⟨s.nextGameId, prov, gid, stt, dk, htm.id, atm.id, hsc, asc, st,
              neu, false⟩
          rw [Game.mk.injEq]
          exact ⟨hehid, hk.1, hk.2, rfl, rfl, rfl, rfl, rfl, rfl, rfl, rfl,
            hehelo⟩
        have hcoreMap : core.map (fun y =>
            (if y.provider == prov && y.provider_game_id == gid
              then updGame stt dk htm.id atm.id hsc asc st neu y else y)) =
            core := by
          calc core.map _ = core.map (fun y => y) :=
              List.map_congr_left (by intro y hy; rw [if_neg (by simp [hcoreP y hy])])
            _ = core := List.map_id' core
        have htailMap : etail.map (fun y =>
            (if y.provider == prov && y.provider_game_id == gid
              then updGame stt dk htm.id atm.id hsc asc st neu y else y)) =
            etail := by
          calc etail.map _ = etail.map (fun y => y) :=
              List.map_congr_left (by intro y hy; rw [if_neg (by simp [htailP y hy])])
            _ = etail := List.map_id' etail
        refine ⟨⟨s.nextGameId, prov, gid, stt, dk, htm.id, atm.id, hsc, asc,
            st, neu, false⟩,
          DB.mk s.teams
            (s.games ++ [⟨s.nextGameId, prov, gid, stt, dk, htm.id, atm.id,
              hsc, asc, st, neu, false⟩]) s.ratings s.nextTeamId
            (s.nextGameId + 1),
          DB.mk t.teams
            (t.games.map (fun y =>
              (if y.provider == prov && y.provider_game_id == gid
                then updGame stt dk htm.id atm.id hsc asc st neu y else y)))
            t.ratings t.nextTeamId t.nextGameId,
          core ++ [⟨s.nextGameId, prov, gid, stt, dk, htm.id, atm.id, hsc,
            asc, st, neu, false⟩], etail,
          ?_, ?_, ?_, ?_, htailkeys, ?_,
          (fun x hx => hext x (List.mem_cons_of_mem eh hx)), ?_, ?_,
          rfl, rfl, rfl, rfl, rfl, rfl⟩
        · simp only [upsert_game, hs]
        · rw [ht2eq, heh2]
        · show t.games.map _ = _
          rw [hgames]
          simp only [List.map_append, List.map_cons, hcoreMap, htailMap, hehP,
            eq_self_iff_true, if_true, heh2]
          simp [List.append_assoc]
        · have hrelw : List.Forall₂ (gameRel G') s.games core := by
            apply forall2_imp_mem ?_ hrel
            intro a b ha hab
            refine ⟨hab.1, hab.2.1, hab.2.2.1, hab.2.2.2.1, ?_⟩
            intro hnot
            apply hab.2.2.2.2
            intro hmemG
            rcases hG' _ hmemG with hk | hk
            · exact absurd (hk ▸ List.mem_map_of_mem gameKey ha) hnomem
            · exact hnot hk
          exact forall2_append hrelw
            (List.Forall₂.cons (gameRel_refl G' _) List.Forall₂.nil)
        · simpa using htailids
        · show t.nextGameId = s.nextGameId + 1 + etail.length
          rw [hnext]
          simp only [List.length_cons]
          omega
        · rw [if_neg hnomem]
          show (s.games ++ [(⟨s.nextGameId, prov, gid, stt, dk, htm.id, atm.id,
            hsc, asc, st, neu, false⟩ : Game)]).map gameKey =
            s.games.map gameKey ++ [(prov, gid)]
          rw [List.map_append]
          rfl
    | some a =>
      have hsing := scalarOneOrNone_ok_some hs
      have hamem : a ∈ s.games.filter fun x =>
          x.provider == prov && x.provider_game_id == gid := by
        rw [hsing]; exact List.mem_singleton_self a
      have haP := List.of_mem_filter hamem
      have hkeymem : (prov, gid) ∈ s.games.map gameKey := by
        rw [gameKey_mem_iff]
        exact ⟨a, List.mem_of_mem_filter hamem, haP⟩
      rw [if_pos hkeymem] at hpend
      simp only [List.nil_append] at hpend
      have hcoreFil : List.Forall₂ (gameRel G) [a] (core.filter fun x =>
          x.provider == prov && x.provider_game_id == gid) := by
        rw [← hsing]
        exact hfilters
      cases hcf : core.filter (fun x =>
          x.provider == prov && x.provider_game_id == gid) with
      | nil => rw [hcf] at hcoreFil; cases hcoreFil
      | cons b rest =>
        rw [hcf] at hcoreFil
        cases hcoreFil with
        | cons hab hrest =>
          cases hrest
          have hextraFilter : (extra.filter fun x =>
              x.provider == prov && x.provider_game_id == gid) = [] := by
            apply List.filter_eq_nil_iff.mpr
            intro x hx
            intro hPx
            have hkx : gameKey x = (prov, gid) := gameP_iff.mp (by simpa using hPx)
            have hmem : gameKey x ∈ pend := by
              rw [← hpend]
              exact List.mem_map_of_mem gameKey hx
            exact (hfresh _ hmem).2 hkx
          have htfilter : (t.games.filter fun x =>
              x.provider == prov && x.provider_game_id == gid) = [b] := by
            rw [hgames, List.filter_append, hcf, hextraFilter]
            rfl
          have htscalar : scalarOneOrNone (t.games.filter fun x =>
              x.provider == prov && x.provider_game_id == gid) = .ok (some b) := by
            rw [htfilter]; rfl
          have hs2eq := upsert_game_found stt dk htm atm hsc asc st neu hs
          have ht2eq := upsert_game_found stt dk htm atm hsc asc st neu htscalar
          have hgm : updGame stt dk htm.id atm.id hsc asc st neu a =
              updGame stt dk htm.id atm.id hsc asc st neu b := by
            obtain ⟨h1, h2, h3, h4, _⟩ := hab
            show Game.mk a.id a.provider a.provider_game_id stt dk htm.id
              atm.id hsc asc st neu a.elo_applied =
              Game.mk b.id b.provider b.provider_game_id stt dk htm.id atm.id
              hsc asc st neu b.elo_applied
            rw [Game.mk.injEq]
            exact ⟨h1, h2, h3, rfl, rfl, rfl, rfl, rfl, rfl, rfl, rfl, h4⟩
          have hmapRel : List.Forall₂ (gameRel G')
              (s.games.map (fun y =>
                (if y.provider == prov && y.provider_game_id == gid
                  then updGame stt dk htm.id atm.id hsc asc st neu y else y)))
              (core.map (fun y =>
                (if y.provider == prov && y.provider_game_id == gid
                  then updGame stt dk htm.id atm.id hsc asc st neu y else y))) := by
            apply forall2_map_rel2 ?_ hrel
            intro x y hxy
            by_cases hp : (x.provider == prov && x.provider_game_id == gid) = true
            · rw [if_pos hp, if_pos (by rw [← hPc x y hxy]; exact hp)]
              have he : updGame stt dk htm.id atm.id hsc asc st neu x =
                  updGame stt dk htm.id atm.id hsc asc st neu y := by
                obtain ⟨h1, h2, h3, h4, _⟩ := hxy
                show Game.mk x.id x.provider x.provider_game_id stt dk htm.id
                  atm.id hsc asc st neu x.elo_applied =
                  Game.mk y.id y.provider y.provider_game_id stt dk htm.id
                  atm.id hsc asc st neu y.elo_applied
                rw [Game.mk.injEq]
                exact ⟨h1, h2, h3, rfl, rfl, rfl, rfl, rfl, rfl, rfl, rfl, h4⟩
              rw [he]
              exact gameRel_refl G' _
            · rw [if_neg hp, if_neg (by rw [← hPc x y hxy]; exact hp)]
              refine ⟨hxy.1, hxy.2.1, hxy.2.2.1, hxy.2.2.2.1, ?_⟩
              intro hnot
              apply hxy.2.2.2.2
              intro hmemG
              rcases hG' _ hmemG with hk | hk
              · exact absurd (gameP_iff.mpr hk) hp
              · exact hnot hk
          have hextraMap : extra.map (fun y =>
              (if y.provider == prov && y.provider_game_id == gid
                then updGame stt dk htm.id atm.id hsc asc st neu y else y)) =
              extra := by
            calc extra.map _ = extra.map (fun y => y) := by
                  apply List.map_congr_left
                  intro y hy
                  rw [if_neg]
                  have := List.filter_eq_nil_iff.mp hextraFilter y hy
                  simpa using this
              _ = extra := List.map_id' extra
          refine ⟨updGame stt dk htm.id atm.id hsc asc st neu a,
            DB.mk s.teams
              (s.games.map (fun y =>
                (if y.provider == prov && y.provider_game_id == gid
                  then updGame stt dk htm.id atm.id hsc asc st neu y else y)))
              s.ratings s.nextTeamId s.nextGameId,
            DB.mk t.teams
              (t.games.map (fun y =>
                (if y.provider == prov && y.provider_game_id == gid
                  then updGame stt dk htm.id atm.id hsc asc st neu y else y)))
              t.ratings t.nextTeamId t.nextGameId,
            core.map (fun y =>
              (if y.provider == prov && y.provider_game_id == gid
                then updGame stt dk htm.id atm.id hsc asc st neu y else y)),
            extra,
            hs2eq, ?_, ?_, ?_, hpend, hids, hext, hnext, ?_,
            rfl, rfl, rfl, rfl, rfl, rfl⟩
          · rw [ht2eq, hgm]
          · show t.games.map _ = _
            rw [hgames, List.map_append, hextraMap]
          · exact hmapRel
          · rw [if_pos hkeymem, List.append_nil]
            show (s.games.map _).map gameKey = s.games.map gameKey
            rw [List.map_map]
            apply List.map_congr_left
            intro y hy
            simp only [Function.comp_apply]
            by_cases hp : (y.provider == prov && y.provider_game_id == gid) = true
            · rw [if_pos hp]
              rfl
            · rw [if_neg hp]

/-- factTeamKeys in two upsert-sized slices: the home key if new, then the away
key if still new once the home key counts as present. -/
lemma factTeamKeys_decomp (ex : List (String × String)) (f : Fact) :
    factTeamKeys ex f =
      (if ("espn", f.htid) ∈ ex then [] else [("espn", f.htid)]) ++
      (if ("espn", f.atid) ∈ ex ++
          (if ("espn", f.htid) ∈ ex then [] else [("espn", f.htid)])
        then [] else [("espn", f.atid)]) := by
  unfold factTeamKeys
  by_cases h1 : ("espn", f.htid) ∈ ex
  · rw [if_pos h1, if_pos h1]
    simp
  · rw [if_neg h1, if_neg h1]
    have hiff : (("espn", f.atid) ∈ ex ++ [("espn", f.htid)]) ↔
        (("espn", f.atid) ∈ ex ∨ f.atid = f.htid) := by
      simp [Prod.ext_iff]
    by_cases h2 : ("espn", f.atid) ∈ ex ∨ f.atid = f.htid
    · rw [if_pos h2, if_pos (hiff.mpr h2)]
      rfl
    · rw [if_neg h2, if_neg (fun hc => h2 (hiff.mp hc))]
      rfl

lemma htid_mem_factTeamKeys (ex : List (String × String)) (f : Fact) :
    ("espn", f.htid) ∈ ex ++ factTeamKeys ex f := by
  unfold factTeamKeys
  by_cases h1 : ("espn", f.htid) ∈ ex
  · exact List.mem_append_left _ h1
  · rw [if_neg h1]
    apply List.mem_append_right
    by_cases h2 : ("espn", f.atid) ∈ ex ∨ f.atid = f.htid
    · rw [if_pos h2]
      exact List.mem_singleton_self _
    · rw [if_neg h2]
      exact List.mem_cons_self _ _

lemma atid_mem_factTeamKeys (ex : List (String × String)) (f : Fact) :
    ("espn", f.atid) ∈ ex ++ factTeamKeys ex f := by
  unfold factTeamKeys
  by_cases h2 : ("espn", f.atid) ∈ ex
  · exact List.mem_append_left _ h2
  · apply List.mem_append_right
    by_cases h1 : ("espn", f.htid) ∈ ex
    · rw [if_pos h1, if_neg h2]
      exact List.mem_singleton_self _
    · rw [if_neg h1]
      by_cases h3 : ("espn", f.atid) ∈ ex ∨ f.atid = f.htid
      · rw [if_pos h3]
        rcases h3 with h3 | h3
        · exact absurd h3 h2
        · rw [show ("espn", f.atid) = ("espn", f.htid) from by rw [h3]]
          exact List.mem_singleton_self _
      · rw [if_neg h3]
        exact List.mem_cons_of_mem _ (List.mem_singleton_self _)

/-- newTeamKeys unfolded at a processed event. -/
lemma newTeamKeys_cons {ev : Event} {f : Fact}
    (hn : normalizeEvent ev = .ok (some f))
    (ex : List (String × String)) (evs : List Event) :
    newTeamKeys ex (ev :: evs) =
      factTeamKeys ex f ++ newTeamKeys (ex ++ factTeamKeys ex f) evs := by
  simp only [newTeamKeys, hn]

/-- newGameKeys unfolded at a processed event, in upsert-sized slices. -/
lemma newGameKeys_cons {ev : Event} {f : Fact}
    (hn : normalizeEvent ev = .ok (some f))
    (ex : List (String × String)) (evs : List Event) :
    newGameKeys ex (ev :: evs) =
      (if ("espn", f.gid) ∈ ex then [] else [("espn", f.gid)]) ++
        newGameKeys (ex ++ (if ("espn", f.gid) ∈ ex then [] else [("espn", f.gid)]))
          evs := by
  simp only [newGameKeys, hn]
  by_cases hg : ("espn", f.gid) ∈ ex
  · rw [if_pos hg, if_pos hg]
    simp
  · rw [if_neg hg, if_neg hg]
    rfl

lemma applyFact_err1 {s : DB} {f : Fact}
    (h1 : upsert_team s "espn" f.htid f.hname = .error ()) :
    applyFact s f = .error () := by
  unfold applyFact
  simp only [bind, Except.bind]
  rw [h1]

lemma applyFact_err2 {s s1 : DB} {f : Fact} {tm1 : Team}
    (h1 : upsert_team s "espn" f.htid f.hname = .ok (tm1, s1))
    (h2 : upsert_team s1 "espn" f.atid f.aname = .error ()) :
    applyFact s f = .error () := by
  unfold applyFact
  simp only [bind, Except.bind]
  rw [h1]
  simp only
  rw [h2]

lemma applyFact_err3 {s s1 s2 : DB} {f : Fact} {tm1 tm2 : Team}
    (h1 : upsert_team s "espn" f.htid f.hname = .ok (tm1, s1))
    (h2 : upsert_team s1 "espn" f.atid f.aname = .ok (tm2, s2))
    (h3 : upsert_game s2 "espn" f.gid f.start_time f.date_key tm1 tm2
      f.hscore f.ascore f.status f.neutral = .error ()) :
    applyFact s f = .error () := by
  unfold applyFact
  simp only [bind, Except.bind]
  rw [h1]
  simp only
  rw [h2]
  simp only
  rw [h3]

lemma applyFact_ok {s s1 s2 s3 : DB} {f : Fact} {tm1 tm2 : Team} {gm : Game}
    (h1 : upsert_team s "espn" f.htid f.hname = .ok (tm1, s1))
    (h2 : upsert_team s1 "espn" f.atid f.aname = .ok (tm2, s2))
    (h3 : upsert_game s2 "espn" f.gid f.start_time f.date_key tm1 tm2
      f.hscore f.ascore f.status f.neutral = .ok (gm, s3)) :
    applyFact s f = .ok s3 := by
  unfold applyFact
  simp only [bind, Except.bind]
  rw [h1]
  simp only
  rw [h2]
  simp only
  rw [h3]
  rfl

/-- Synchronized processing of one fact: the three upserts of applyFact chained
through the simulation. The team alignment sheds this event's two team keys and
the game alignment sheds its game key; the pending lists advance past the keys
this fact creates. -/
lemma applyFact_sim {T T' G G' : List (String × String)} {s t : DB} {f : Fact}
    {core extra : List Team} {coreG extraG : List Game}
    {pendT pendG : List (String × String)}
    (hT' : ∀ k ∈ T, k = ("espn", f.htid) ∨ k = ("espn", f.atid) ∨ k ∈ T')
    (hG' : ∀ k ∈ G, k = ("espn", f.gid) ∨ k ∈ G')
    (hteams : t.teams = core ++ extra)
    (hrelT : List.Forall₂ (teamRel T) s.teams core)
    (hpendT : extra.map teamKey =
      factTeamKeys (s.teams.map teamKey) f ++ pendT)
    (hidsT : extra.map Team.id = List.range' s.nextTeamId extra.length)
    (hnextT : t.nextTeamId = s.nextTeamId + extra.length)
    (hfreshT : ∀ k ∈ pendT, k ∉ s.teams.map teamKey ++
      factTeamKeys (s.teams.map teamKey) f)
    (hgames : t.games = coreG ++ extraG)
    (hrelG : List.Forall₂ (gameRel G) s.games coreG)
    (hpendG : extraG.map gameKey =
      (if ("espn", f.gid) ∈ s.games.map gameKey then []
        else [("espn", f.gid)]) ++ pendG)
    (hidsG : extraG.map Game.id = List.range' s.nextGameId extraG.length)
    (hextG : ∀ x ∈ extraG, x.elo_applied = false)
    (hnextG : t.nextGameId = s.nextGameId + extraG.length)
    (hfreshG : ∀ k ∈ pendG, k ∉ s.games.map gameKey ++
      (if ("espn", f.gid) ∈ s.games.map gameKey then [] else [("espn", f.gid)]))
    (hrat : t.ratings = s.ratings) :
    (applyFact s f = .error () ∧ applyFact t f = .error ()) ∨
    (∃ s3 t3 core2 extra2 coreG2 extraG2,
      applyFact s f = .ok s3 ∧ applyFact t f = .ok t3 ∧
      t3.teams = core2 ++ extra2 ∧
      List.Forall₂ (teamRel T') s3.teams core2 ∧
      extra2.map teamKey = pendT ∧
      extra2.map Team.id = List.range' s3.nextTeamId extra2.length ∧
      t3.nextTeamId = s3.nextTeamId + extra2.length ∧
      s3.teams.map teamKey = s.teams.map teamKey ++
        factTeamKeys (s.teams.map teamKey) f ∧
      t3.games = coreG2 ++ extraG2 ∧
      List.Forall₂ (gameRel G') s3.games coreG2 ∧
      extraG2.map gameKey = pendG ∧
      extraG2.map Game.id = List.range' s3.nextGameId extraG2.length ∧
      (∀ x ∈ extraG2, x.elo_applied = false) ∧
      t3.nextGameId = s3.nextGameId + extraG2.length ∧
      s3.games.map gameKey = s.games.map gameKey ++
        (if ("espn", f.gid) ∈ s.games.map gameKey then []
          else [("espn", f.gid)]) ∧
      t3.ratings = s3.ratings) := by
  rw [factTeamKeys_decomp, List.append_assoc] at hpendT
  have hhk_mem : ("espn", f.htid) ∈ s.teams.map teamKey ++
      (if ("espn", f.htid) ∈ s.teams.map teamKey then []
        else [("espn", f.htid)]) := by
    by_cases h1 : ("espn", f.htid) ∈ s.teams.map teamKey
    · exact List.mem_append_left _ h1
    · rw [if_neg h1]
      exact List.mem_append_right _ (List.mem_singleton_self _)
  have hT'1 : ∀ k ∈ T, k = ("espn", f.htid) ∨ k ∈ ("espn", f.atid) :: T' := by
    intro k hk
    rcases hT' k hk with h | h | h
    · exact Or.inl h
    · exact Or.inr (h ▸ List.mem_cons_self _ _)
    · exact Or.inr (List.mem_cons_of_mem _ h)
  have hfreshT1 : ∀ k ∈ (if ("espn", f.atid) ∈ s.teams.map teamKey ++
      (if ("espn", f.htid) ∈ s.teams.map teamKey then []
        else [("espn", f.htid)]) then [] else [("espn", f.atid)]) ++ pendT,
      k ∉ s.teams.map teamKey ∧ k ≠ ("espn", f.htid) := by
    intro k hk
    rcases List.mem_append.mp hk with hk | hk
    · by_cases hc : ("espn", f.atid) ∈ s.teams.map teamKey ++
        (if ("espn", f.htid) ∈ s.teams.map teamKey then []
          else [("espn", f.htid)])
      · rw [if_pos hc] at hk
        cases hk
      · rw [if_neg hc] at hk
        have hka := List.mem_singleton.mp hk
        subst hka
        refine ⟨fun hmem => hc (List.mem_append_left _ hmem), ?_⟩
        intro heq
        exact hc (heq ▸ hhk_mem)
    · have hnot := hfreshT k hk
      constructor
      · exact fun hmem => hnot (List.mem_append_left _ hmem)
      · intro heq
        exact hnot (heq ▸ htid_mem_factTeamKeys _ f)
  rcases upsert_team_sim f.hname hT'1 hteams hrelT hpendT hidsT hnextT hfreshT1
    with ⟨he_s, he_t⟩ | ⟨tm1, s1, t1, core1, extra1, hU1s, hU1t, h1split, h1rel,
      h1keys, h1ids, h1next, h1skeys, h1games_s, h1games_t, h1rat_s, h1rat_t,
      h1ngid_s, h1ngid_t⟩
  · exact Or.inl ⟨applyFact_err1 he_s, applyFact_err1 he_t⟩
  have hT'2 : ∀ k ∈ ("espn", f.atid) :: T', k = ("espn", f.atid) ∨ k ∈ T' := by
    intro k hk
    rcases List.mem_cons.mp hk with h | h
    · exact Or.inl h
    · exact Or.inr h
  have hpendT2 : extra1.map teamKey =
      (if ("espn", f.atid) ∈ s1.teams.map teamKey then []
        else [("espn", f.atid)]) ++ pendT := by
    rw [h1skeys]
    exact h1keys
  have hfreshT2 : ∀ k ∈ pendT, k ∉ s1.teams.map teamKey ∧
      k ≠ ("espn", f.atid) := by
    intro k hk
    have hnot := hfreshT k hk
    constructor
    · rw [h1skeys]
      intro hmem
      apply hnot
      rcases List.mem_append.mp hmem with h | h
      · exact List.mem_append_left _ h
      · apply List.mem_append_right
        rw [factTeamKeys_decomp]
        exact List.mem_append_left _ h
    · intro heq
      exact hnot (heq ▸ atid_mem_factTeamKeys _ f)
  rcases upsert_team_sim f.aname hT'2 h1split h1rel hpendT2 h1ids h1next
      hfreshT2
    with ⟨he_s, he_t⟩ | ⟨tm2, s2, t2, core2, extra2, hU2s, hU2t, h2split, h2rel,
      h2keys, h2ids, h2next, h2skeys, h2games_s, h2games_t, h2rat_s, h2rat_t,
      h2ngid_s, h2ngid_t⟩
  · exact Or.inl ⟨applyFact_err2 hU1s he_s, applyFact_err2 hU1t he_t⟩
  have hgamesG : t2.games = coreG ++ extraG := by
    rw [h2games_t, h1games_t]
    exact hgames
  have hrelG2 : List.Forall₂ (gameRel G) s2.games coreG := by
    rw [h2games_s, h1games_s]
    exact hrelG
  have hpendG2 : extraG.map gameKey =
      (if ("espn", f.gid) ∈ s2.games.map gameKey then []
        else [("espn", f.gid)]) ++ pendG := by
    rw [h2games_s, h1games_s]
    exact hpendG
  have hidsG2 : extraG.map Game.id = List.range' s2.nextGameId extraG.length := by
    rw [h2ngid_s, h1ngid_s]
    exact hidsG
  have hnextG2 : t2.nextGameId = s2.nextGameId + extraG.length := by
    rw [h2ngid_t, h1ngid_t, h2ngid_s, h1ngid_s]
    exact hnextG
  have hgk_mem : ("espn", f.gid) ∈ s.games.map gameKey ++
      (if ("espn", f.gid) ∈ s.games.map gameKey then []
        else [("espn", f.gid)]) := by
    by_cases h1 : ("espn", f.gid) ∈ s.games.map gameKey
    · exact List.mem_append_left _ h1
    · rw [if_neg h1]
      exact List.mem_append_right _ (List.mem_singleton_self _)
  have hfreshG2 : ∀ k ∈ pendG, k ∉ s2.games.map gameKey ∧
      k ≠ ("espn", f.gid) := by
    intro k hk
    have hnot := hfreshG k hk
    constructor
    · rw [h2games_s, h1games_s]
      exact fun hmem => hnot (List.mem_append_left _ hmem)
    · intro heq
      exact hnot (heq ▸ hgk_mem)
  rcases upsert_game_sim f.start_time f.date_key tm1 tm2 f.hscore f.ascore
      f.status f.neutral hG' hgamesG hrelG2 hpendG2 hidsG2 hextG hnextG2
      hfreshG2
    with ⟨he_s, he_t⟩ | ⟨gm, s3, t3, coreG2, extraG2, hU3s, hU3t, h3split,
      h3rel, h3keys, h3ids, h3elo, h3next, h3gkeys, h3teams_s, h3teams_t,
      h3rat_s, h3rat_t, h3ntid_s, h3ntid_t⟩
  · exact Or.inl ⟨applyFact_err3 hU1s hU2s he_s, applyFact_err3 hU1t hU2t he_t⟩
  refine Or.inr ⟨s3, t3, core2, extra2, coreG2, extraG2,
    applyFact_ok hU1s hU2s hU3s, applyFact_ok hU1t hU2t hU3t,
    ?_, ?_, h2keys, ?_, ?_, ?_, h3split, h3rel, h3keys, h3ids, h3elo, h3next,
    ?_, ?_⟩
  · rw [h3teams_t]
    exact h2split
  · rw [h3teams_s]
    exact h2rel
  · rw [h3ntid_s]
    exact h2ids
  · rw [h3ntid_t, h3ntid_s]
    exact h2next
  · rw [h3teams_s, h2skeys, h1skeys, factTeamKeys_decomp, List.append_assoc]
  · rw [h3gkeys, h2games_s, h1games_s]
  · rw [h3rat_t, h2rat_t, h1rat_t, hrat, h3rat_s, h2rat_s, h1rat_s]

lemma DB.ext' {a b : DB} (h1 : a.teams = b.teams) (h2 : a.games = b.games)
    (h3 : a.ratings = b.ratings) (h4 : a.nextTeamId = b.nextTeamId)
    (h5 : a.nextGameId = b.nextGameId) : a = b := by
  cases a
  cases b
  simp only [DB.mk.injEq]
  exact ⟨h1, h2, h3, h4, h5⟩

/-- With no events left, the simulation says the two stores are equal. -/
lemma DBSim_nil {s t : DB} (h : DBSim [] s t) : t = s := by
  obtain ⟨⟨core, extra, hsplit, hrel, hkeys, hids, hnext⟩,
    ⟨coreG, extraG, hsplitG, hrelG, hkeysG, hidsG, heloG, hnextG⟩, hrat⟩ := h
  have hex : extra = [] := List.map_eq_nil.mp (hkeys.trans rfl)
  have hexG : extraG = [] := List.map_eq_nil.mp (hkeysG.trans rfl)
  subst hex
  subst hexG
  have hrel2 : List.Forall₂ (fun a b => a = b) s.teams core :=
    hrel.imp (fun a b hab => hab.2.2.2 (List.not_mem_nil _))
  have hrelG2 : List.Forall₂ (fun a b => a = b) s.games coreG :=
    hrelG.imp (fun a b hab => hab.2.2.2.2 (List.not_mem_nil _))
  rw [List.forall₂_eq_eq_eq] at hrel2 hrelG2
  refine DB.ext' ?_ ?_ hrat ?_ ?_
  · rw [hsplit, List.append_nil, ← hrel2]
  · rw [hsplitG, List.append_nil, ← hrelG2]
  · rw [hnext]
    simp
  · rw [hnextG]
    simp

lemma ingestEvent_err_norm (db : DB) {ev : Event}
    (hn : normalizeEvent ev = .error ()) : ingestEvent db ev = .error () := by
  unfold ingestEvent
  simp only [bind, Except.bind]
  rw [hn]

lemma ingestEvent_none (db : DB) {ev : Event}
    (hn : normalizeEvent ev = .ok none) : ingestEvent db ev = .ok (db, false) := by
  unfold ingestEvent
  simp only [bind, Except.bind]
  rw [hn]
  rfl

lemma ingestEvent_apply_err (db : DB) {ev : Event} {f : Fact}
    (hn : normalizeEvent ev = .ok (some f)) (ha : applyFact db f = .error ()) :
    ingestEvent db ev = .error () := by
  unfold ingestEvent
  simp only [bind, Except.bind]
  rw [hn]
  simp only
  rw [ha]

lemma ingestEvent_apply_ok (db : DB) {ev : Event} {f : Fact} {db2 : DB}
    (hn : normalizeEvent ev = .ok (some f)) (ha : applyFact db f = .ok db2) :
    ingestEvent db ev = .ok (db2, true) := by
  unfold ingestEvent
  simp only [bind, Except.bind]
  rw [hn]
  simp only
  rw [ha]
  rfl

/-- The two-run lemma: from simulated stores the event loop computes the very
same result - the same error, or the same final store and the same counters. -/
lemma ingestEvents_sim : ∀ (evs : List Event) {s t : DB} (tt gu : Nat),
    DBSim evs s t → ingestEvents s tt gu evs = ingestEvents t tt gu evs := by
  intro evs
  induction evs with
  | nil =>
    intro s t tt gu h
    rw [DBSim_nil h]
  | cons ev rest ih =>
    intro s t tt gu h
    obtain ⟨⟨core, extra, hsplit, hrel, hkeys, hids, hnext⟩,
      ⟨coreG, extraG, hsplitG, hrelG, hkeysG, hidsG, heloG, hnextG⟩, hrat⟩ := h
    cases hn : normalizeEvent ev with
    | error e =>
      cases e
      simp only [ingestEvents]
      rw [ingestEvent_err_norm s hn, ingestEvent_err_norm t hn]
    | ok o =>
      cases o with
      | none =>
        simp only [ingestEvents]
        rw [ingestEvent_none s hn, ingestEvent_none t hn]
        have httk : touchedTeamKeys (ev :: rest) = touchedTeamKeys rest := by
          simp [touchedTeamKeys, List.flatMap_cons, eventTeamKeys, hn]
        have htgk : touchedGameKeys (ev :: rest) = touchedGameKeys rest := by
          simp [touchedGameKeys, List.flatMap_cons, eventGameKeys, hn]
        have hntk : newTeamKeys (s.teams.map teamKey) (ev :: rest) =
            newTeamKeys (s.teams.map teamKey) rest := by
          simp only [newTeamKeys, hn]
        have hngk : newGameKeys (s.games.map gameKey) (ev :: rest) =
            newGameKeys (s.games.map gameKey) rest := by
          simp only [newGameKeys, hn]
        exact ih _ _ ⟨⟨core, extra, hsplit, httk ▸ hrel, hntk ▸ hkeys, hids,
            hnext⟩,
          ⟨coreG, extraG, hsplitG, htgk ▸ hrelG, hngk ▸ hkeysG, hidsG, heloG,
            hnextG⟩, hrat⟩
      | some f =>
        have httk : touchedTeamKeys (ev :: rest) =
            ("espn", f.htid) :: ("espn", f.atid) :: touchedTeamKeys rest := by
          simp [touchedTeamKeys, List.flatMap_cons, eventTeamKeys, hn]
        have htgk : touchedGameKeys (ev :: rest) =
            ("espn", f.gid) :: touchedGameKeys rest := by
          simp [touchedGameKeys, List.flatMap_cons, eventGameKeys, hn]
        rw [httk] at hrel
        rw [htgk] at hrelG
        rw [newTeamKeys_cons hn] at hkeys
        rw [newGameKeys_cons hn] at hkeysG
        have hT' : ∀ k ∈ ("espn", f.htid) :: ("espn", f.atid) ::
            touchedTeamKeys rest, k = ("espn", f.htid) ∨ k = ("espn", f.atid) ∨
            k ∈ touchedTeamKeys rest := by
          intro k hk
          rcases List.mem_cons.mp hk with h | hk2
          · exact Or.inl h
          · rcases List.mem_cons.mp hk2 with h | h
            · exact Or.inr (Or.inl h)
            · exact Or.inr (Or.inr h)
        have hG' : ∀ k ∈ ("espn", f.gid) :: touchedGameKeys rest,
            k = ("espn", f.gid) ∨ k ∈ touchedGameKeys rest := by
          intro k hk
          rcases List.mem_cons.mp hk with h | h
          · exact Or.inl h
          · exact Or.inr h
        have hfreshT : ∀ k ∈ newTeamKeys (s.teams.map teamKey ++
            factTeamKeys (s.teams.map teamKey) f) rest,
            k ∉ s.teams.map teamKey ++ factTeamKeys (s.teams.map teamKey) f :=
          fun k hk => newTeamKeys_fresh rest k hk
        have hfreshG : ∀ k ∈ newGameKeys (s.games.map gameKey ++
            (if ("espn", f.gid) ∈ s.games.map gameKey then []
              else [("espn", f.gid)])) rest,
            k ∉ s.games.map gameKey ++
              (if ("espn", f.gid) ∈ s.games.map gameKey then []
                else [("espn", f.gid)]) :=
          fun k hk => newGameKeys_fresh rest k hk
        rcases applyFact_sim hT' hG' hsplit hrel hkeys hids hnext hfreshT
            hsplitG hrelG hkeysG hidsG heloG hnextG hfreshG hrat
          with ⟨he_s, he_t⟩ | ⟨s3, t3, core2, extra2, coreG2, extraG2, hok_s,
            hok_t, c3, c4, c5, c6, c7, c8, c9, c10, c11, c12, c13, c14, c15,
            c16⟩
        · simp only [ingestEvents]
          rw [ingestEvent_apply_err s hn he_s, ingestEvent_apply_err t hn he_t]
        · simp only [ingestEvents]
          rw [ingestEvent_apply_ok s hn hok_s, ingestEvent_apply_ok t hn hok_t]
          exact ih _ _ ⟨⟨core2, extra2, c3, c4, by rw [c8]; exact c5, c6, c7⟩,
            ⟨coreG2, extraG2, c9, c10, by rw [c15]; exact c11, c12, c13, c14⟩,
            c16⟩

lemma forall2_self {α : Type _} {R : α → α → Prop} :
    ∀ {l : List α}, (∀ a ∈ l, R a a) → List.Forall₂ R l l := by
  intro l
  induction l with
  | nil => intro h; exact List.Forall₂.nil
  | cons a t ih =>
    intro h
    exact List.Forall₂.cons (h a (List.mem_cons_self a t))
      (ih fun x hx => h x (List.mem_cons_of_mem a hx))

lemma forall2_self_map {α : Type _} {R : α → α → Prop} {f : α → α} :
    ∀ {l : List α}, (∀ a ∈ l, R a (f a)) → List.Forall₂ R l (l.map f) := by
  intro l
  induction l with
  | nil => intro h; exact List.Forall₂.nil
  | cons a t ih =>
    intro h
    exact List.Forall₂.cons (h a (List.mem_cons_self a t))
      (ih fun x hx => h x (List.mem_cons_of_mem a hx))

lemma forall2_mem_right {α β : Type _} {R : α → β → Prop} :
    ∀ {l₁ : List α} {l₂ : List β}, List.Forall₂ R l₁ l₂ →
    ∀ b ∈ l₂, ∃ a ∈ l₁, R a b := by
  intro l₁
  induction l₁ with
  | nil =>
    intro l₂ h b hb
    cases h
    cases hb
  | cons a t ih =>
    intro l₂ h b hb
    cases h with
    | cons hab ht =>
      rcases List.mem_cons.mp hb with hb | hb
      · exact ⟨a, List.mem_cons_self a t, hb ▸ hab⟩
      · rcases ih ht b hb with ⟨x, hx, hxb⟩
        exact ⟨x, List.mem_cons_of_mem a hx, hxb⟩

lemma teamRel_submem {T T2 : List (String × String)}
    (hsub : ∀ k ∈ T, k ∈ T2) {a b : Team} (h : teamRel T a b) :
    teamRel T2 a b :=
  ⟨h.1, h.2.1, h.2.2.1, fun hnot => h.2.2.2 fun hm => hnot (hsub _ hm)⟩

lemma gameRel_submem {G G2 : List (String × String)}
    (hsub : ∀ k ∈ G, k ∈ G2) {a b : Game} (h : gameRel G a b) :
    gameRel G2 a b :=
  ⟨h.1, h.2.1, h.2.2.1, h.2.2.2.1, fun hnot => h.2.2.2.2 fun hm => hnot (hsub _ hm)⟩

lemma teamKey_eq_of_rel {T : List (String × String)} {a b : Team}
    (h : teamRel T a b) : teamKey a = teamKey b := by
  simp [teamKey, h.2.1, h.2.2.1]

lemma gameKey_eq_of_rel {G : List (String × String)} {a b : Game}
    (h : gameRel G a b) : gameKey a = gameKey b := by
  simp [gameKey, h.2.1, h.2.2.1]

lemma teamRel_comp {T1 T2 T3 : List (String × String)} {a b c : Team}
    (h13 : ∀ k ∈ T1, k ∈ T3) (h23 : ∀ k ∈ T2, k ∈ T3)
    (hab : teamRel T1 a b) (hbc : teamRel T2 b c) : teamRel T3 a c := by
  refine ⟨hab.1.trans hbc.1, hab.2.1.trans hbc.2.1,
    hab.2.2.1.trans hbc.2.2.1, ?_⟩
  intro hnot
  have hkey : teamKey b = teamKey a := (teamKey_eq_of_rel hab).symm
  have e1 : a = b := hab.2.2.2 fun hm => hnot (h13 _ hm)
  have e2 : b = c := hbc.2.2.2 (by rw [hkey]; exact fun hm => hnot (h23 _ hm))
  exact e1.trans e2

lemma gameRel_comp {G1 G2 G3 : List (String × String)} {a b c : Game}
    (h13 : ∀ k ∈ G1, k ∈ G3) (h23 : ∀ k ∈ G2, k ∈ G3)
    (hab : gameRel G1 a b) (hbc : gameRel G2 b c) : gameRel G3 a c := by
  refine ⟨hab.1.trans hbc.1, hab.2.1.trans hbc.2.1,
    hab.2.2.1.trans hbc.2.2.1, hab.2.2.2.1.trans hbc.2.2.2.1, ?_⟩
  intro hnot
  have hkey : gameKey b = gameKey a := (gameKey_eq_of_rel hab).symm
  have e1 : a = b := hab.2.2.2.2 fun hm => hnot (h13 _ hm)
  have e2 : b = c := hbc.2.2.2.2 (by rw [hkey]; exact fun hm => hnot (h23 _ hm))
  exact e1.trans e2

/-- One team upsert on a single store: the prior rows stay in place (renamed at
most at the key), the creations carry exactly the new key with the next
surrogate id, and nothing else changes. -/
lemma upsert_team_step {s : DB} {prov tid nm : String} {tm : Team}
    {s2 : DB} (h : upsert_team s prov tid nm = .ok (tm, s2)) :
    ∃ core creations, s2.teams = core ++ creations ∧
      List.Forall₂ (teamRel [(prov, tid)]) s.teams core ∧
      creations.map teamKey =
        (if (prov, tid) ∈ s.teams.map teamKey then [] else [(prov, tid)]) ∧
      creations.map Team.id = List.range' s.nextTeamId creations.length ∧
      s2.nextTeamId = s.nextTeamId + creations.length ∧
      s2.teams.map teamKey = s.teams.map teamKey ++
        (if (prov, tid) ∈ s.teams.map teamKey then [] else [(prov, tid)]) ∧
      s2.games = s.games ∧ s2.ratings = s.ratings ∧
      s2.nextGameId = s.nextGameId := by
  cases hs : scalarOneOrNone (s.teams.filter fun x =>
      x.provider == prov && x.provider_team_id == tid) with
  | error e =>
    cases e
    simp only [upsert_team, hs] at h
    exact Except.noConfusion h
  | ok o =>
    cases o with
    | none =>
      have hnomem : (prov, tid) ∉ s.teams.map teamKey :=
        teamFilter_nil_iff.mp (scalarOneOrNone_ok_none hs)
      simp only [upsert_team, hs, Except.ok.injEq, Prod.mk.injEq] at h
      obtain ⟨htm, hs2⟩ := h
      subst hs2
      refine ⟨s.teams, [⟨s.nextTeamId, nm, prov, tid⟩], rfl,
        forall2_self (fun a _ => teamRel_refl _ a), ?_, rfl, rfl, ?_, rfl, rfl,
        rfl⟩
      · rw [if_neg hnomem]
        rfl
      · rw [if_neg hnomem]
        show (s.teams ++ [(⟨s.nextTeamId, nm, prov, tid⟩ : Team)]).map teamKey =
          s.teams.map teamKey ++ [(prov, tid)]
        rw [List.map_append]
        rfl
    | some a =>
      obtain ⟨db2, heq, hteams2, hgames2, hrat2, hnext2, hngid2⟩ :=
        upsert_team_found nm hs
      rw [heq, Except.ok.injEq, Prod.mk.injEq] at h
      obtain ⟨htm, hs2⟩ := h
      subst hs2
      have hkeymem : (prov, tid) ∈ s.teams.map teamKey := by
        rw [teamKey_mem_iff]
        have hfil := scalarOneOrNone_ok_some hs
        have hamem : a ∈ s.teams.filter (fun x =>
            x.provider == prov && x.provider_team_id == tid) := by
          rw [hfil]
          exact List.mem_singleton_self a
        exact ⟨a, (List.mem_filter.mp hamem).1, (List.mem_filter.mp hamem).2⟩
      refine ⟨db2.teams, [], ?_, ?_, ?_, rfl, ?_, ?_, hgames2, hrat2, hngid2⟩
      · rw [List.append_nil]
      · rw [hteams2]
        apply forall2_self_map
        intro x hx
        by_cases hp : (x.provider == prov && x.provider_team_id == tid) = true
        · rw [if_pos hp]
          refine ⟨rfl, rfl, rfl, fun hnot => absurd ?_ hnot⟩
          rw [teamP_iff.mp hp]
          exact List.mem_singleton_self _
        · rw [if_neg hp]
          exact teamRel_refl _ x
      · rw [if_pos hkeymem]
        rfl
      · rw [hnext2]
        simp
      · rw [if_pos hkeymem, List.append_nil, hteams2, List.map_map]
        apply List.map_congr_left
        intro y hy
        simp only [Function.comp_apply]
        by_cases hp : (y.provider == prov && y.provider_team_id == tid) = true
        · rw [if_pos hp]
          rfl
        · rw [if_neg hp]

/-- One game upsert on a single store: prior rows stay in place with their
elo_applied, the creation carries the new key, the next surrogate id and a
false flag, and nothing else changes. -/
lemma upsert_game_step {s : DB} {prov gid : String} {stt : Option Int}
    {dk : String} {htm atm : Team} {hsc asc : Option Int} {st : String}
    {neu : Bool} {gm : Game} {s2 : DB}
    (h : upsert_game s prov gid stt dk htm atm hsc asc st neu = .ok (gm, s2)) :
    ∃ core creations, s2.games = core ++ creations ∧
      List.Forall₂ (gameRel [(prov, gid)]) s.games core ∧
      creations.map gameKey =
        (if (prov, gid) ∈ s.games.map gameKey then [] else [(prov, gid)]) ∧
      creations.map Game.id = List.range' s.nextGameId creations.length ∧
      (∀ x ∈ creations, x.elo_applied = false) ∧
      s2.nextGameId = s.nextGameId + creations.length ∧
      s2.games.map gameKey = s.games.map gameKey ++
        (if (prov, gid) ∈ s.games.map gameKey then [] else [(prov, gid)]) ∧
      s2.teams = s.teams ∧ s2.ratings = s.ratings ∧
      s2.nextTeamId = s.nextTeamId := by
  cases hs : scalarOneOrNone (s.games.filter fun x =>
      x.provider == prov && x.provider_game_id == gid) with
  | error e =>
    cases e
    simp only [upsert_game, hs] at h
    exact Except.noConfusion h
  | ok o =>
    cases o with
    | none =>
      have hnomem : (prov, gid) ∉ s.games.map gameKey :=
        gameFilter_nil_iff.mp (scalarOneOrNone_ok_none hs)
      simp only [upsert_game, hs, Except.ok.injEq, Prod.mk.injEq] at h
      obtain ⟨hgm, hs2⟩ := h
      subst hs2
      refine ⟨s.games, [⟨s.nextGameId, prov, gid, stt, dk, htm.id, atm.id, hsc,
        asc, st, neu, false⟩], rfl,
        forall2_self (fun a _ => gameRel_refl _ a), ?_, rfl, ?_, rfl, ?_, rfl,
        rfl, rfl⟩
      · rw [if_neg hnomem]
        rfl
      · intro x hx
        rw [List.mem_singleton.mp hx]
      · rw [if_neg hnomem]
        show (s.games ++ [(⟨s.nextGameId, prov, gid, stt, dk, htm.id, atm.id,
          hsc, asc, st, neu, false⟩ : Game)]).map gameKey =
          s.games.map gameKey ++ [(prov, gid)]
        rw [List.map_append]
        rfl
    | some a =>
      have heq := upsert_game_found stt dk htm atm hsc asc st neu hs
      rw [heq, Except.ok.injEq, Prod.mk.injEq] at h
      obtain ⟨hgm, hs2⟩ := h
      subst hs2
      have hkeymem : (prov, gid) ∈ s.games.map gameKey := by
        rw [gameKey_mem_iff]
        have hfil := scalarOneOrNone_ok_some hs
        have hamem : a ∈ s.games.filter (fun x =>
            x.provider == prov && x.provider_game_id == gid) := by
          rw [hfil]
          exact List.mem_singleton_self a
        exact ⟨a, (List.mem_filter.mp hamem).1, (List.mem_filter.mp hamem).2⟩
      refine ⟨(s.games.map (fun y =>
          (if y.provider == prov && y.provider_game_id == gid
            then updGame stt dk htm.id atm.id hsc asc st neu y else y))), [],
        ?_, ?_, ?_, rfl, ?_, ?_, ?_, rfl, rfl, rfl⟩
      · rw [List.append_nil]
      · apply forall2_self_map
        intro x hx
        by_cases hp : (x.provider == prov && x.provider_game_id == gid) = true
        · rw [if_pos hp]
          refine ⟨rfl, rfl, rfl, rfl, fun hnot => absurd ?_ hnot⟩
          rw [gameP_iff.mp hp]
          exact List.mem_singleton_self _
        · rw [if_neg hp]
          exact gameRel_refl _ x
      · rw [if_pos hkeymem]
        rfl
      · intro x hx
        cases hx
      · simp
      · rw [if_pos hkeymem, List.append_nil, List.map_map]
        apply List.map_congr_left
        intro y hy
        simp only [Function.comp_apply]
        by_cases hp : (y.provider == prov && y.provider_game_id == gid) = true
        · rw [if_pos hp]
          rfl
        · rw [if_neg hp]

/-- One processed fact on a single store: prior team rows stay in place renamed
at most at this fact's two keys, prior game rows stay in place updated at most
at its game key with elo_applied kept, and the creations carry exactly the new
keys with consecutive surrogate ids (games created unrated). -/
lemma applyFact_step {s s3 : DB} {f : Fact} (h : applyFact s f = .ok s3) :
    ∃ core creations coreG creationsG,
      s3.teams = core ++ creations ∧
      List.Forall₂ (teamRel [("espn", f.htid), ("espn", f.atid)])
        s.teams core ∧
      creations.map teamKey = factTeamKeys (s.teams.map teamKey) f ∧
      creations.map Team.id = List.range' s.nextTeamId creations.length ∧
      s3.nextTeamId = s.nextTeamId + creations.length ∧
      s3.teams.map teamKey = s.teams.map teamKey ++
        factTeamKeys (s.teams.map teamKey) f ∧
      s3.games = coreG ++ creationsG ∧
      List.Forall₂ (gameRel [("espn", f.gid)]) s.games coreG ∧
      creationsG.map gameKey =
        (if ("espn", f.gid) ∈ s.games.map gameKey then []
          else [("espn", f.gid)]) ∧
      creationsG.map Game.id = List.range' s.nextGameId creationsG.length ∧
      (∀ x ∈ creationsG, x.elo_applied = false) ∧
      s3.nextGameId = s.nextGameId + creationsG.length ∧
      s3.games.map gameKey = s.games.map gameKey ++
        (if ("espn", f.gid) ∈ s.games.map gameKey then []
          else [("espn", f.gid)]) ∧
      s3.ratings = s.ratings := by
  unfold applyFact at h
  simp only [bind, Except.bind] at h
  cases h1 : upsert_team s "espn" f.htid f.hname with
  | error e => rw [h1] at h; cases h
  | ok p1 =>
    obtain ⟨tm1, sA⟩ := p1
    rw [h1] at h
    simp only at h
    cases h2 : upsert_team sA "espn" f.atid f.aname with
    | error e => rw [h2] at h; cases h
    | ok p2 =>
      obtain ⟨tm2, sB⟩ := p2
      rw [h2] at h
      simp only at h
      cases h3 : upsert_game sB "espn" f.gid f.start_time f.date_key tm1 tm2
          f.hscore f.ascore f.status f.neutral with
      | error e => rw [h3] at h; cases h
      | ok p3 =>
        obtain ⟨g2, sC⟩ := p3
        rw [h3] at h
        simp only [pure, Except.pure, Except.ok.injEq] at h
        subst h
        obtain ⟨c1, n1, hsplit1, hrel1, hkeys1, hids1, hnext1, hskeys1,
          hg1, hr1, hng1⟩ := upsert_team_step h1
        obtain ⟨c2, n2, hsplit2, hrel2, hkeys2, hids2, hnext2, hskeys2,
          hg2, hr2, hng2⟩ := upsert_team_step h2
        obtain ⟨cg, ng, hsplitG, hrelG, hkeysG, hidsG, heloG, hnextG, hgkeysG,
          ht3, hr3, hnt3⟩ := upsert_game_step h3
        rw [hsplit1] at hrel2
        rcases forall2_split_left hrel2 with ⟨c2a, c2b, hc2split, hrel2a,
          hrel2b⟩
        have hlen2b : c2b.length = n1.length := hrel2b.length_eq.symm
        have hkeys2b : c2b.map teamKey = n1.map teamKey :=
          (forall2_map_eq (fun a b hab => teamKey_eq_of_rel hab) hrel2b).symm
        have hids2b : c2b.map Team.id = n1.map Team.id :=
          (forall2_map_eq (fun a b hab => hab.1) hrel2b).symm
        refine ⟨c2a, c2b ++ n2, cg, ng, ?_, ?_, ?_, ?_, ?_, ?_, ?_, ?_, ?_,
          ?_, heloG, ?_, ?_, ?_⟩
        · rw [ht3, hsplit2, hc2split, List.append_assoc]
        · have hcomp := forall2_comp hrel1 hrel2a
          apply hcomp.imp
          intro a c hac
          rcases hac with ⟨b, hab, hbc⟩
          refine teamRel_comp ?_ ?_ hab hbc
          · intro k hk
            rw [List.mem_singleton.mp hk]
            exact List.mem_cons_self _ _
          · intro k hk
            rw [List.mem_singleton.mp hk]
            exact List.mem_cons_of_mem _ (List.mem_singleton_self _)
        · rw [List.map_append, hkeys2b, hkeys1, factTeamKeys_decomp]
          rw [hskeys1] at hkeys2
          rw [hkeys2]
        · rw [List.map_append, hids2b, hids1, hids2, hnext1,
            List.length_append, hlen2b, range'_split]
        · rw [hnt3, hnext2, hnext1, List.length_append, hlen2b]
          omega
        · rw [ht3, hskeys2, hskeys1, factTeamKeys_decomp, List.append_assoc]
        · exact hsplitG
        · rw [hg2, hg1] at hrelG
          exact hrelG
        · rw [hg2, hg1] at hkeysG
          exact hkeysG
        · rw [hng2, hng1] at hidsG
          exact hidsG
        · rw [hnextG, hng2, hng1]
        · rw [hgkeysG, hg2, hg1]
        · rw [hr3, hr2, hr1]

/-- The first pass establishes the simulation: after a successful run over evs
the final store extends the starting store exactly by the pending creations,
with prior rows in place and aligned up to the keys evs touches. -/
lemma ingestEvents_dbsim : ∀ (evs : List Event) {s s1 : DB}
    {tt gu tt1 gu1 : Nat},
    ingestEvents s tt gu evs = .ok (s1, tt1, gu1) → DBSim evs s s1 := by
  intro evs
  induction evs with
  | nil =>
    intro s s1 tt gu tt1 gu1 h
    simp only [ingestEvents, Except.ok.injEq, Prod.mk.injEq] at h
    obtain ⟨hs1, -⟩ := h
    subst hs1
    refine ⟨⟨s.teams, [], ?_, forall2_self (fun a _ => teamRel_refl _ a),
        rfl, rfl, ?_⟩,
      ⟨s.games, [], ?_, forall2_self (fun a _ => gameRel_refl _ a), rfl, rfl,
        ?_, ?_⟩, rfl⟩
    · rw [List.append_nil]
    · simp
    · rw [List.append_nil]
    · intro x hx
      cases hx
    · simp
  | cons ev rest ih =>
    intro s s1 tt gu tt1 gu1 h
    simp only [ingestEvents] at h
    cases hn : normalizeEvent ev with
    | error e =>
      cases e
      rw [ingestEvent_err_norm s hn] at h
      simp only at h
      exact Except.noConfusion h
    | ok o =>
      cases o with
      | none =>
        rw [ingestEvent_none s hn] at h
        simp only at h
        have hsim := ih h
        obtain ⟨⟨core, extra, hsplit, hrel, hkeys, hids, hnext⟩,
          ⟨coreG, extraG, hsplitG, hrelG, hkeysG, hidsG, helo, hnextG⟩,
          hrat⟩ := hsim
        have httk : touchedTeamKeys (ev :: rest) = touchedTeamKeys rest := by
          simp [touchedTeamKeys, List.flatMap_cons, eventTeamKeys, hn]
        have htgk : touchedGameKeys (ev :: rest) = touchedGameKeys rest := by
          simp [touchedGameKeys, List.flatMap_cons, eventGameKeys, hn]
        have hntk : newTeamKeys (s.teams.map teamKey) (ev :: rest) =
            newTeamKeys (s.teams.map teamKey) rest := by
          simp only [newTeamKeys, hn]
        have hngk : newGameKeys (s.games.map gameKey) (ev :: rest) =
            newGameKeys (s.games.map gameKey) rest := by
          simp only [newGameKeys, hn]
        exact ⟨⟨core, extra, hsplit, by rw [httk]; exact hrel,
            by rw [hntk]; exact hkeys, hids, hnext⟩,
          ⟨coreG, extraG, hsplitG, by rw [htgk]; exact hrelG,
            by rw [hngk]; exact hkeysG, hidsG, helo, hnextG⟩, hrat⟩
      | some f =>
        cases ha : applyFact s f with
        | error e =>
          cases e
          rw [ingestEvent_apply_err s hn ha] at h
          simp only at h
          exact Except.noConfusion h
        | ok s2 =>
          rw [ingestEvent_apply_ok s hn ha] at h
          simp only at h
          have hsim := ih h
          obtain ⟨cA, nA, cgA, ngA, hsp1, hrel1, hkeys1, hids1, hnext1,
            hskeys1, hspG1, hrelG1, hkeysG1, hidsG1, heloG1, hnextG1, hgkeys1,
            hrat1⟩ := applyFact_step ha
          obtain ⟨⟨core, extra, hsplit, hrel, hkeys, hids, hnext⟩,
            ⟨coreG, extraG, hsplitG, hrelG, hkeysG, hidsG, helo, hnextG⟩,
            hrat⟩ := hsim
          rw [hsp1] at hrel
          rcases forall2_split_left hrel with ⟨cB1, cB2, hcsplit, hrelB1,
            hrelB2⟩
          rw [hspG1] at hrelG
          rcases forall2_split_left hrelG with ⟨cgB1, cgB2, hcgsplit, hrelgB1,
            hrelgB2⟩
          have httk : touchedTeamKeys (ev :: rest) =
              ("espn", f.htid) :: ("espn", f.atid) :: touchedTeamKeys rest := by
            simp [touchedTeamKeys, List.flatMap_cons, eventTeamKeys, hn]
          have htgk : touchedGameKeys (ev :: rest) =
              ("espn", f.gid) :: touchedGameKeys rest := by
            simp [touchedGameKeys, List.flatMap_cons, eventGameKeys, hn]
          have hlenB2 : cB2.length = nA.length := hrelB2.length_eq.symm
          have hkeysB2 : cB2.map teamKey = nA.map teamKey :=
            (forall2_map_eq (fun a b hab => teamKey_eq_of_rel hab) hrelB2).symm
          have hidsB2 : cB2.map Team.id = nA.map Team.id :=
            (forall2_map_eq (fun a b hab => hab.1) hrelB2).symm
          have hlengB2 : cgB2.length = ngA.length := hrelgB2.length_eq.symm
          have hkeysgB2 : cgB2.map gameKey = ngA.map gameKey :=
            (forall2_map_eq (fun a b hab => gameKey_eq_of_rel hab) hrelgB2).symm
          have hidsgB2 : cgB2.map Game.id = ngA.map Game.id :=
            (forall2_map_eq (fun a b hab => hab.1) hrelgB2).symm
          refine ⟨⟨cB1, cB2 ++ extra, ?_, ?_, ?_, ?_, ?_⟩,
            ⟨cgB1, cgB2 ++ extraG, ?_, ?_, ?_, ?_, ?_, ?_⟩, ?_⟩
          · rw [hsplit, hcsplit, List.append_assoc]
          · rw [httk]
            apply (forall2_comp hrel1 hrelB1).imp
            intro a c hac
            rcases hac with ⟨b, hab, hbc⟩
            refine teamRel_comp ?_ ?_ hab hbc
            · intro k hk
              rcases List.mem_cons.mp hk with hk | hk
              · rw [hk]
                exact List.mem_cons_self _ _
              · rw [List.mem_singleton.mp hk]
                exact List.mem_cons_of_mem _ (List.mem_cons_self _ _)
            · intro k hk
              exact List.mem_cons_of_mem _ (List.mem_cons_of_mem _ hk)
          · rw [newTeamKeys_cons hn, List.map_append, hkeysB2, hkeys1]
            rw [hskeys1] at hkeys
            rw [hkeys]
          · rw [List.map_append, hidsB2, hids1, hids, hnext1,
              List.length_append, hlenB2, range'_split]
          · rw [hnext, hnext1, List.length_append, hlenB2]
            omega
          · rw [hsplitG, hcgsplit, List.append_assoc]
          · rw [htgk]
            apply (forall2_comp hrelG1 hrelgB1).imp
            intro a c hac
            rcases hac with ⟨b, hab, hbc⟩
            refine gameRel_comp ?_ ?_ hab hbc
            · intro k hk
              rw [List.mem_singleton.mp hk]
              exact List.mem_cons_self _ _
            · intro k hk
              exact List.mem_cons_of_mem _ hk
          · rw [newGameKeys_cons hn, List.map_append, hkeysgB2, hkeysG1]
            rw [hgkeys1] at hkeysG
            rw [hkeysG]
          · rw [List.map_append, hidsgB2, hidsG1, hidsG, hnextG1,
              List.length_append, hlengB2, range'_split]
          · intro x hx
            rcases List.mem_append.mp hx with hx | hx
            · rcases forall2_mem_right hrelgB2 x hx with ⟨a, ha2, hax⟩
              rw [← hax.2.2.2.1]
              exact heloG1 a ha2
            · exact helo x hx
          · rw [hnextG, hnextG1, List.length_append, hlengB2]
            omega
          · rw [hrat, hrat1]

lemma factTeamKeys_nodup (ex : List (String × String)) (f : Fact) :
    (factTeamKeys ex f).Nodup := by
  unfold factTeamKeys
  by_cases h1 : ("espn", f.htid) ∈ ex
  · rw [if_pos h1]
    by_cases h2 : ("espn", f.atid) ∈ ex
    · rw [if_pos h2]
      exact List.nodup_nil
    · rw [if_neg h2]
      exact List.nodup_singleton _
  · rw [if_neg h1]
    by_cases h2 : ("espn", f.atid) ∈ ex ∨ f.atid = f.htid
    · rw [if_pos h2]
      exact List.nodup_singleton _
    · rw [if_neg h2]
      push_neg at h2
      refine List.nodup_cons.mpr ⟨?_, List.nodup_singleton _⟩
      simp only [List.mem_singleton, Prod.mk.injEq]
      intro hc
      exact h2.2 hc.2.symm

lemma newTeamKeys_nodup : ∀ (evs : List Event) (ex : List (String × String)),
    (newTeamKeys ex evs).Nodup := by
  intro evs
  induction evs with
  | nil => intro ex; exact List.nodup_nil
  | cons ev rest ih =>
    intro ex
    cases hn : normalizeEvent ev with
    | error e =>
      simp only [newTeamKeys, hn]
      exact ih ex
    | ok o =>
      cases o with
      | none =>
        simp only [newTeamKeys, hn]
        exact ih ex
      | some f =>
        rw [newTeamKeys_cons hn]
        refine List.Nodup.append (factTeamKeys_nodup ex f) (ih _) ?_
        intro k hk1 hk2
        exact newTeamKeys_fresh rest k hk2 (List.mem_append_right _ hk1)

lemma newGameKeys_nodup : ∀ (evs : List Event) (ex : List (String × String)),
    (newGameKeys ex evs).Nodup := by
  intro evs
  induction evs with
  | nil => intro ex; exact List.nodup_nil
  | cons ev rest ih =>
    intro ex
    cases hn : normalizeEvent ev with
    | error e =>
      simp only [newGameKeys, hn]
      exact ih ex
    | ok o =>
      cases o with
      | none =>
        simp only [newGameKeys, hn]
        exact ih ex
      | some f =>
        rw [newGameKeys_cons hn]
        refine List.Nodup.append ?_ (ih _) ?_
        · by_cases hg : ("espn", f.gid) ∈ ex
          · rw [if_pos hg]
            exact List.nodup_nil
          · rw [if_neg hg]
            exact List.nodup_singleton _
        · intro k hk1 hk2
          exact newGameKeys_fresh rest k hk2 (List.mem_append_right _ hk1)

lemma nodup_filter_beq_length_le_one {α : Type _} [BEq α] [LawfulBEq α] :
    ∀ {l : List α}, l.Nodup → ∀ k : α,
    (l.filter fun y => y == k).length ≤ 1 := by
  intro l
  induction l with
  | nil =>
    intro _ k
    simp
  | cons a t ih =>
    intro h k
    rw [List.filter_cons]
    by_cases hak : (a == k) = true
    · rw [if_pos hak]
      have hak2 : a = k := by simpa using hak
      subst hak2
      have hnot : a ∉ t := (List.nodup_cons.mp h).1
      have hnil : t.filter (fun y => y == a) = [] := by
        apply List.filter_eq_nil_iff.mpr
        intro x hx hc
        have : x = a := by simpa using hc
        exact hnot (this ▸ hx)
      rw [hnil]
      simp
    · rw [if_neg hak]
      exact ih (List.nodup_cons.mp h).2 k

lemma filter_map_key_length {α β : Type _} [BEq β] (f : α → β) (k : β) :
    ∀ (l : List α), (l.filter fun x => f x == k).length =
      ((l.map f).filter fun y => y == k).length := by
  intro l
  induction l with
  | nil => rfl
  | cons a t ih =>
    simp only [List.filter_cons, List.map_cons]
    by_cases h : (f a == k) = true
    · rw [if_pos h, if_pos h]
      simp only [List.length_cons, ih]
    · rw [if_neg h, if_neg h]
      exact ih

lemma filter_key_nil_of_not_mem {α β : Type _} [BEq β] [LawfulBEq β] {f : α → β}
    {k : β} {l : List α} (h : k ∉ l.map f) :
    (l.filter fun x => f x == k) = [] := by
  apply List.filter_eq_nil_iff.mpr
  intro x hx hc
  have he : f x = k := by simpa using hc
  exact h (he ▸ List.mem_map_of_mem f hx)

lemma mem_key_of_filter_pos {α β : Type _} [BEq β] [LawfulBEq β] {f : α → β}
    {k : β} {l : List α}
    (h : 0 < (l.filter fun x => f x == k).length) : k ∈ l.map f := by
  obtain ⟨x, hx⟩ := List.exists_mem_of_length_pos h
  have hm := List.mem_filter.mp hx
  have he : f x = k := by simpa using hm.2
  exact he ▸ List.mem_map_of_mem f hm.1

/-- The witness payload for the idempotence claim: one final event between two
new teams. -/
def c3Payload : Payload := ⟨some [⟨some "77", none, some "STATUS_FINAL", some
  [⟨none, some [⟨some "home", some ⟨some "X", some "Xers", none⟩, some "70"⟩,
                ⟨some "away", some ⟨some "Y", some "Yers", none⟩, some "65"⟩]⟩]⟩]⟩

/-- The empty witness store. -/
def c3DB0 : DB := ⟨[], [], [], 1, 1⟩

/-- The witness store after one ingestion of c3Payload into c3DB0. -/
def c3DB1 : DB := ⟨[⟨1, "Xers", "espn", "X"⟩, ⟨2, "Yers", "espn", "Y"⟩],
  [⟨1, "espn", "77", none, "unknown", 1, 2, some 70, some 65, "final", false,
    false⟩],
  [], 3, 2⟩

/-- The witness stats: one event seen, two teams touched, one game upserted. -/
def c3Stats : IngestStats := ⟨1, 2, 1⟩

/-- C3: upsert is idempotent. For every store state and payload, when
ingest_scoreboard_json succeeds, running it again on its own result returns the
very same store (every Team and Game row, every mutable field and every
elo_applied flag included) and the same counters; and the run never creates
duplicate rows: afterwards each (provider, provider_team_id) and each
(provider, provider_game_id) key occurs at most once among the rows it did not
already occur on beforehand. -/
theorem c3_ingest_idempotent {db s1 : DB} {p : Payload} {st : IngestStats}
    (h : ingest_scoreboard_json db p = .ok (s1, st)) :
    ingest_scoreboard_json s1 p = .ok (s1, st) ∧
    (∀ k : String × String,
      (s1.teams.filter fun x => teamKey x == k).length ≤
        max 1 (db.teams.filter fun x => teamKey x == k).length) ∧
    (∀ k : String × String,
      (s1.games.filter fun x => gameKey x == k).length ≤
        max 1 (db.games.filter fun x => gameKey x == k).length) := by
  simp only [ingest_scoreboard_json] at h
  cases hrun : ingestEvents db 0 0 (p.events.getD []) with
  | error e =>
    rw [hrun] at h
    simp only at h
    exact Except.noConfusion h
  | ok out =>
    obtain ⟨s1x, tt, gu⟩ := out
    rw [hrun] at h
    simp only [Except.ok.injEq, Prod.mk.injEq] at h
    obtain ⟨hs1, hst⟩ := h
    subst hs1
    subst hst
    have hsim := ingestEvents_dbsim _ hrun
    have hrun2 : ingestEvents s1x 0 0 (p.events.getD []) = .ok (s1x, tt, gu) := by
      rw [← ingestEvents_sim _ 0 0 hsim]
      exact hrun
    refine ⟨?_, ?_, ?_⟩
    · simp only [ingest_scoreboard_json]
      rw [hrun2]
    · obtain ⟨⟨core, extra, hsplit, hrel, hkeys, hids, hnext⟩, -, -⟩ := hsim
      intro k
      have hPc : ∀ a b, teamRel (touchedTeamKeys (p.events.getD [])) a b →
          (teamKey a == k) = (teamKey b == k) := by
        intro a b hab
        rw [teamKey_eq_of_rel hab]
      have hfil := forall2_filter hPc hrel
      have hcore_len : (db.teams.filter fun x => teamKey x == k).length =
          (core.filter fun x => teamKey x == k).length := hfil.length_eq
      have hsplit_len : (s1x.teams.filter fun x => teamKey x == k).length =
          (core.filter fun x => teamKey x == k).length +
          (extra.filter fun x => teamKey x == k).length := by
        rw [hsplit, List.filter_append, List.length_append]
      have hextra_le : (extra.filter fun x => teamKey x == k).length ≤ 1 := by
        rw [filter_map_key_length teamKey k extra, hkeys]
        exact nodup_filter_beq_length_le_one (newTeamKeys_nodup _ _) k
      by_cases hpos : 0 < (extra.filter fun x => teamKey x == k).length
      · have hkmem : k ∈ extra.map teamKey := mem_key_of_filter_pos hpos
        rw [hkeys] at hkmem
        have hknotin : k ∉ db.teams.map teamKey :=
          newTeamKeys_fresh _ k hkmem
        have hdb0 : (db.teams.filter fun x => teamKey x == k) = [] :=
          filter_key_nil_of_not_mem hknotin
        rw [hsplit_len, ← hcore_len, hdb0]
        simp only [List.length_nil, Nat.zero_add]
        calc (extra.filter fun x => teamKey x == k).length
            ≤ 1 := hextra_le
          _ ≤ max 1 (List.length ([] : List Team)) := le_max_left _ _
      · push_neg at hpos
        have h0 : (extra.filter fun x => teamKey x == k).length = 0 :=
          Nat.le_zero.mp hpos
        rw [hsplit_len, ← hcore_len, h0, Nat.add_zero]
        exact le_max_right _ _
    · obtain ⟨-, ⟨coreG, extraG, hsplitG, hrelG, hkeysG, hidsG, heloG,
        hnextG⟩, -⟩ := hsim
      intro k
      have hPc : ∀ a b, gameRel (touchedGameKeys (p.events.getD [])) a b →
          (gameKey a == k) = (gameKey b == k) := by
        intro a b hab
        rw [gameKey_eq_of_rel hab]
      have hfil := forall2_filter hPc hrelG
      have hcore_len : (db.games.filter fun x => gameKey x == k).length =
          (coreG.filter fun x => gameKey x == k).length := hfil.length_eq
      have hsplit_len : (s1x.games.filter fun x => gameKey x == k).length =
          (coreG.filter fun x => gameKey x == k).length +
          (extraG.filter fun x => gameKey x == k).length := by
        rw [hsplitG, List.filter_append, List.length_append]
      have hextra_le : (extraG.filter fun x => gameKey x == k).length ≤ 1 := by
        rw [filter_map_key_length gameKey k extraG, hkeysG]
        exact nodup_filter_beq_length_le_one (newGameKeys_nodup _ _) k
      by_cases hpos : 0 < (extraG.filter fun x => gameKey x == k).length
      · have hkmem : k ∈ extraG.map gameKey := mem_key_of_filter_pos hpos
        rw [hkeysG] at hkmem
        have hknotin : k ∉ db.games.map gameKey :=
          newGameKeys_fresh _ k hkmem
        have hdb0 : (db.games.filter fun x => gameKey x == k) = [] :=
          filter_key_nil_of_not_mem hknotin
        rw [hsplit_len, ← hcore_len, hdb0]
        simp only [List.length_nil, Nat.zero_add]
        calc (extraG.filter fun x => gameKey x == k).length
            ≤ 1 := hextra_le
          _ ≤ max 1 (List.length ([] : List Game)) := le_max_left _ _
      · push_neg at hpos
        have h0 : (extraG.filter fun x => gameKey x == k).length = 0 :=
          Nat.le_zero.mp hpos
        rw [hsplit_len, ← hcore_len, h0, Nat.add_zero]
        exact le_max_right _ _

/-- Witness for C3: the hypothesis is satisfied by a concrete one-event payload
over the empty store, and the theorem yields the idempotent second run. -/
theorem c3_ingest_idempotent_witness :
    ingest_scoreboard_json c3DB0 c3Payload = .ok (c3DB1, c3Stats) ∧
    ingest_scoreboard_json c3DB1 c3Payload = .ok (c3DB1, c3Stats) :=
  have h0 : ingest_scoreboard_json c3DB0 c3Payload = .ok (c3DB1, c3Stats) := by
    rfl
  ⟨h0, (c3_ingest_idempotent h0).1⟩

end CbbTracker
